import Mathlib

/-!
OpenDungeons: the creature AI core (`Creature.cpp`).

A shallow embedding of `Creature::doTurn`, `Creature::updateVisibleTiles`,
`Creature::getVisibleForce` and the small helpers they call, followed by the
constructors and stream operators of `Creature`, the speed accessors of
`CameraManager`, the goal `GoalClaimNTiles` and `Room::updateActiveSpots`.

Conventions of the embedding.

* C++ `double`/`Ogre::Real` values are rationals (`ℚ`); C++ `int` values
  are unbounded integers (`Int`).  Arithmetic on doubles is exact, except for
  the product `sightRadius * sightRadius` of line 671 and the difference
  `getFullness() - digRate` of line 418, which are rounded to the nearest
  double (`roundDouble`) as the machine stores them; the integer `i*i + j*j`
  that line 720 compares with the product is converted to `double` by the
  same rounding, which changes no `int` of 32 bits (`roundDouble_intCast`).
  A square root is never extracted: the only place where the control flow
  depends on one is `sqrt(r) < m`, which is decided as `0 < m ∧ r < m * m`
  (see `sqrtLt`).  The values of the battle field, which contain square
  roots, are stored as their summands (`TileValue`); `TileValue.Denotes`
  relates them to real numbers.
* A `Tile*` is the index of the tile in the tile list of the map, a
  `Creature*` the index of the creature in the creature list.  `NULL` is
  `none`.
* `GameMap`, `Tile`, `Field`, `Player`, `Weapon` and the random number helpers
  are not part of the sources at hand.  Stored data (`fullness`, marks,
  occupancy) is modelled from the specification; everything that is computed
  (path finding, line of sight, neighbours, random numbers, the minimum of
  the field) is a parameter collected in `Env`.
* Rendering, sound and network requests (`setAnimationState`, the server
  notification queue, scene nodes, `cout`) are write-only collaborators and
  are left out.
* Function results are `Except Fault _`: a `Fault` is raised where the C++
  code would dereference `NULL`, index a container outside its range or call
  `exit(1)`.  Two reads of the source are out of range on *every* execution
  (the local `myTile` in the `attackCreature` case is read before it is
  assigned, and `walkQueue[walkQueue.size()]` in the `walkToTile` case); for
  these the value that is read is supplied by `Env`, so that the code that
  follows them can still be analysed.
-/

namespace OpenDungeons

/-! ## Data model -/

/-- Ways in which an execution of the C++ code leaves defined behaviour. -/
inductive Fault where
  | nullPointer
  | wildPointer
  | outOfRange
  | danglingTile
  | noSuchCreature
  | emptyActionQueue
  | outOfFuel
deriving DecidableEq, Repr

/-- The enumeration `CreatureAction::ActionType`. -/
inductive ActionType where
  | idle
  | walkToTile
  | digTile
  | attackCreature
deriving DecidableEq, Repr

/-- A `CreatureAction`: the tag and the creature it refers to (set only for
`attackCreature`). -/
structure CreatureAction where
  type : ActionType
  creature : Option Nat := none
deriving DecidableEq, Repr

/-- An `Ogre::Vector3`. -/
structure Vector3 where
  x : ℚ
  y : ℚ
  z : ℚ
deriving DecidableEq, Repr

/-- The fields of `Weapon` read by `Creature::doTurn`. -/
structure Weapon where
  range : ℚ
  damage : ℚ
deriving DecidableEq, Repr

/-- The enumeration `Tile::TileClearType`. -/
inductive TileClearType where
  | walkableTile
  | flyableTile
  | impassableTile
deriving DecidableEq, Repr

/-- The value computed for one tile of the battle field, kept as the list of
its summands because they contain square roots.  An enemy term `(a, b)` stands
for `sqrt b / (sqrt a + 1)` (`a` the squared distance creature-enemy, `b` the
squared distance tile-enemy), an ally term `b` for `15 / sqrt (b + 1)`; the
stored number is `(sum of the terms + jitter) * tileScaleFactor`. -/
structure TileValue where
  enemyTerms : List (Int × Int)
  allyTerms : List Int
  jitter : ℚ
  tileScaleFactor : ℚ
deriving DecidableEq, Repr

/-- Modelled from the spec: the class `Tile` (Tile.h is not among the
sources).  Integer coordinates, the fullness, the players that marked the tile
for digging (by player id) and the creatures standing in the tile. -/
structure Tile where
  x : Int
  y : Int
  fullness : ℚ
  markedForDigging : List Nat := []
  creaturesInCell : List Nat := []
deriving DecidableEq, Repr

/-- Modelled from the spec: a `Player` with the colour of its seat
(`seat->color`); `id` stands for the address of the object. -/
structure Player where
  id : Nat
  color : Int
deriving DecidableEq, Repr

/-- The members of `Creature` used by the code in `Creature.cpp`.  Creature.h
is not among the sources: the numeric members (`hp`, `mana`, `sightRadius`,
`digRate`, `moveSpeed`) are kept as exact numbers. -/
structure Creature where
  className : String := ""
  meshName : String := ""
  name : String := ""
  scale : Vector3 := ⟨1, 1, 1⟩
  position : Vector3 := ⟨0, 0, 0⟩
  color : Int := 0
  hp : ℚ := 10
  mana : ℚ := 10
  sightRadius : ℚ := 10
  digRate : ℚ := 10
  moveSpeed : ℚ := 1
  destinationX : Int := 0
  destinationY : Int := 0
  tilePassability : TileClearType := .walkableTile
  weaponL : Option Weapon := none
  weaponR : Option Weapon := none
  actionQueue : List CreatureAction := []
  walkQueue : List Vector3 := []
  visibleTiles : List Nat := []
  battleField : List ((Int × Int) × TileValue) := []
  hasVisualDebuggingEntities : Bool := false
  previousPositionTile : Option Nat := none
  visualDebugEntityTiles : List Nat := []
deriving DecidableEq, Repr

/-- The global `gameMap` together with the count of random numbers drawn so
far. -/
structure World where
  tiles : List Tile
  creatures : List Creature
  me : Player
  players : List Player := []
  randomCalls : Nat := 0
deriving DecidableEq, Repr

/-- The collaborators whose code is not among the sources.  The map queries
receive the current tile list.  `randomDouble k lo hi` is the value returned
by the `k`-th call of the random number generator when that call is
`randomDouble(lo, hi)`, `gaussianRandomDouble k` when it is
`gaussianRandomDouble()`.  `uninitMyTile` holds the coordinates read through
the unassigned local `myTile` (`none`: the pointer is not readable),
`walkQueuePastEnd` the vector read at `walkQueue[walkQueue.size()]`. -/
structure Env where
  randomDouble : Nat → ℚ → ℚ → ℚ
  gaussianRandomDouble : Nat → ℚ
  neighborTiles : List Tile → Int → Int → List Nat
  path : List Tile → Int → Int → Int → Int → TileClearType → List Nat
  cutCorners : List Tile → List Nat → TileClearType → List Nat
  lineOfSight : List Tile → Int → Int → Int → Int → List Nat
  pathIsClear : List Tile → List Nat → TileClearType → Bool
  fieldMin : List ((Int × Int) × TileValue) → Int × Int
  uninitMyTile : Option (Int × Int)
  walkQueuePastEnd : Vector3

/-! ## Small helpers -/

/-- The C++ conversion `(int)d`: truncation toward zero. -/
def toInt (q : ℚ) : Int := Int.tdiv q.num q.den

/-- The comparison `sqrt(r) < m` for an integer `r`, without the root. -/
def sqrtLt (r : Int) (m : ℚ) : Bool := decide (0 < m ∧ (r : ℚ) < m * m)

/-- Rounding of a rational to an integer, to the nearest one and to the even
one of two that are equally near. -/
def roundHalfEven (m : ℚ) : Int :=
  let k := ⌊m⌋
  let f := m - k
  if f < 1 / 2 then k
  else if 1 / 2 < f then k + 1
  else if k % 2 = 0 then k else k + 1

/-- The power `2 ^ z` of an integer exponent. -/
def twoPow (z : Int) : ℚ :=
  if 0 ≤ z then ((2 ^ z.toNat : Nat) : ℚ) else 1 / ((2 ^ (-z).toNat : Nat) : ℚ)

/-- The `double` nearest to the rational `a ≥ 0` (IEEE 754 binary64, round to
nearest, ties to even): 53 significant bits above the exponent `-1022`, steps
of `2 ^ -1074` below.  A result of `2 ^ 1024` or more, which the machine
replaces by an infinity, is outside the model. -/
def roundMagnitude (a : ℚ) : ℚ :=
  let e : Int := max (Int.log 2 a) (-1022)
  let ulp : ℚ := twoPow (e - 52)
  roundHalfEven (a / ulp) * ulp

/-- The `double` in which the machine stores the exact result `q` of an
arithmetic operation on doubles. -/
def roundDouble (q : ℚ) : ℚ :=
  if q < 0 then -roundMagnitude (-q) else roundMagnitude q

/-- Apply `f` to the element at position `n` (a write through a pointer). -/
def updateAt {α : Type} (f : α → α) : List α → Nat → List α
  | [], _ => []
  | a :: as, 0 => f a :: as
  | a :: as, n + 1 => a :: updateAt f as n

/-- Search of the tile list used by `getTile`. -/
def getTileFrom : List Tile → Nat → Int → Int → Option Nat
  | [], _, _, _ => none
  | t :: ts, k, x, y => if t.x = x ∧ t.y = y then some k else getTileFrom ts (k + 1) x y

/-- Modelled from the spec: `GameMap::getTile(x, y)`, "tile lookup by
coordinate" returning `Tile|none` (GameMap.cpp is not among the sources): the
first tile of the map with these coordinates. -/
def getTile (tiles : List Tile) (x y : Int) : Option Nat := getTileFrom tiles 0 x y

/-- Dereference of a `Tile*`. -/
def tileOf (w : World) (t : Nat) : Except Fault Tile :=
  match w.tiles[t]? with
  | some tile => .ok tile
  | none => .error .danglingTile

/-- Write to the creature behind a `Creature*`. -/
def modifyCreature (w : World) (i : Nat) (f : Creature → Creature) : World :=
  { w with creatures := updateAt f w.creatures i }

/-- Modelled from the spec: `Tile::setFullness`, as far as the stored number
is concerned. -/
def setFullness (w : World) (t : Nat) (f : ℚ) : World :=
  { w with tiles := updateAt (fun tile => { tile with fullness := f }) w.tiles t }

/-- Modelled from the spec: `Tile::getMarkedForDigging(Player*)`. -/
def getMarkedForDigging (tile : Tile) (p : Player) : Bool := decide (p.id ∈ tile.markedForDigging)

/-- `Creature::positionTile`. -/
def positionTile (w : World) (c : Creature) : Option Nat :=
  getTile w.tiles (toInt (c.position.x + 4999 / 10000)) (toInt (c.position.y + 4999 / 10000))

/-- `Creature::getControllingPlayer`. -/
def getControllingPlayer (w : World) (c : Creature) : Option Player :=
  if w.me.color = c.color then some w.me
  else w.players.find? (fun p => decide (p.color = c.color))

/-- `Creature::clearActionQueue`. -/
def clearActionQueue (c : Creature) : Creature :=
  { c with actionQueue := ([] : List CreatureAction) ++ [⟨.idle, none⟩] }

/-- `Creature::addDestination(x, y)`: the effect on the walk queue. -/
def addDestination (c : Creature) (x y : Int) : Creature :=
  { c with walkQueue := c.walkQueue ++ [⟨x, y, 0⟩] }

/-- `Creature::clearDestinations`: the effect on the walk queue. -/
def clearDestinations (c : Creature) : Creature :=
  { c with walkQueue := [] }

/-! ## Visibility -/

/-- The body shared by the ray loop and the sector loop of
`updateVisibleTiles`: look the tile up and append it when the line of sight
from the creature's tile is clear for a flying object. -/
def addIfVisible (env : Env) (tiles : List Tile) (xBase yBase xLoc yLoc : Int)
    (vis : List Nat) : List Nat :=
  match getTile tiles xLoc yLoc with
  | none => vis
  | some t =>
    if env.pathIsClear tiles (env.lineOfSight tiles xBase yBase xLoc yLoc) .flyableTile
    then vis ++ [t] else vis

/-- The loop `for(int i = 1; i < sightRadius; i++)` over the four axes,
started at `i`. -/
def axisRays (env : Env) (tiles : List Tile) (r : ℚ) (xBase yBase : Int) :
    Nat → Int → List Nat → List Nat
  | 0, _, vis => vis
  | fuel + 1, i, vis =>
    if (i : ℚ) < r then
      let v0 := addIfVisible env tiles xBase yBase (xBase + i) yBase vis
      let v1 := addIfVisible env tiles xBase yBase (xBase - i) yBase v0
      let v2 := addIfVisible env tiles xBase yBase xBase (yBase + i) v1
      let v3 := addIfVisible env tiles xBase yBase xBase (yBase - i) v2
      axisRays env tiles r xBase yBase fuel (i + 1) v3
    else vis

/-- The inner loop `for(int j = 1; j < sightRadius; j++)` of the sector scan
for a fixed `i`, started at `j`.  When the tile is too far the source sets
`j = sightRadius` and lets the loop header increment and test it.  The
bound of the test is the double `sightRadiusSquared` of line 671, the rounded
product; the `int` `distSQ` is converted to `double` for the comparison. -/
def sectorRow (env : Env) (tiles : List Tile) (r : ℚ) (xBase yBase i : Int) :
    Nat → Int → List Nat → List Nat
  | 0, _, vis => vis
  | fuel + 1, j, vis =>
    if (j : ℚ) < r then
      if roundDouble ((i * i + j * j : Int) : ℚ) < roundDouble (r * r) then
        let v0 := addIfVisible env tiles xBase yBase (xBase + i) (yBase + j) vis
        let v1 := addIfVisible env tiles xBase yBase (xBase + i) (yBase - j) v0
        let v2 := addIfVisible env tiles xBase yBase (xBase - i) (yBase + j) v1
        let v3 := addIfVisible env tiles xBase yBase (xBase - i) (yBase - j) v2
        sectorRow env tiles r xBase yBase i fuel (j + 1) v3
      else
        sectorRow env tiles r xBase yBase i fuel (toInt r + 1) vis
    else vis

/-- The outer loop `for(int i = 1; i < sightRadius; i++)` of the sector
scan, started at `i`. -/
def sectors (env : Env) (tiles : List Tile) (r : ℚ) (xBase yBase : Int) :
    Nat → Int → List Nat → List Nat
  | 0, _, vis => vis
  | fuel + 1, i, vis =>
    if (i : ℚ) < r then
      sectors env tiles r xBase yBase fuel (i + 1)
        (sectorRow env tiles r xBase yBase i ((toInt r).toNat + 2) 1 vis)
    else vis

/-- `Creature::updateVisibleTiles`: the new content of `visibleTiles`.  The
position tile is dereferenced (`tempPositionTile->x`) before it is compared
with `NULL`. -/
def updateVisibleTiles (env : Env) (w : World) (c : Creature) : Except Fault (List Nat) :=
  match positionTile w c with
  | none => .error .nullPointer
  | some p =>
    match w.tiles[p]? with
    | none => .error .danglingTile
    | some tile =>
      let xBase := tile.x
      let yBase := tile.y
      let v0 := ([] : List Nat) ++ [p]
      let v1 := axisRays env w.tiles c.sightRadius xBase yBase ((toInt c.sightRadius).toNat + 1) 1 v0
      .ok (sectors env w.tiles c.sightRadius xBase yBase ((toInt c.sightRadius).toNat + 1) 1 v1)

/-- `Creature::getVisibleForce(color, invert)` over the cache `visibleTiles`:
the creatures of the visible tiles whose colour differs from (`invert`) or
equals (`¬ invert`) `color`.  Entries of a tile that name no creature are the
`NULL` results of `Tile::getCreature` and are skipped. -/
def getVisibleForce (w : World) (c : Creature) (color : Int) (invert : Bool) : List Nat :=
  c.visibleTiles.flatMap fun t =>
    match w.tiles[t]? with
    | none => []
    | some tile =>
      tile.creaturesInCell.filter fun i =>
        match w.creatures[i]? with
        | none => false
        | some other => if invert then decide (other.color ≠ color) else decide (other.color = color)

/-- `Creature::getVisibleEnemies`. -/
def getVisibleEnemies (w : World) (c : Creature) : List Nat := getVisibleForce w c c.color true

/-- `Creature::getVisibleAllies`. -/
def getVisibleAllies (w : World) (c : Creature) : List Nat := getVisibleForce w c c.color false

/-! ## The turn -/

/-- Dereference of a `Creature*`. -/
def creatureOf (w : World) (i : Nat) : Except Fault Creature :=
  match w.creatures[i]? with
  | some c => .ok c
  | none => .error .noSuchCreature

/-- The perception step of `doTurn` (lines 277-296): with an enemy in sight,
a creature that is not attacking starts to attack the first visible enemy
when the roll exceeds 0.3.  The roll is drawn only when the two tests before
it in the `&&` chain succeed. -/
def perceive (env : Env) (w : World) (self : Nat) (c : Creature) (visibleEnemies : List Nat) :
    World :=
  match visibleEnemies with
  | [] => w
  | e :: _ =>
    match c.actionQueue with
    | [] => w
    | a :: _ =>
      if a.type ≠ .attackCreature then
        let roll := env.randomDouble w.randomCalls 0 1
        let w1 := { w with randomCalls := w.randomCalls + 1 }
        if roll > 3 / 10 then
          modifyCreature w1 self fun c => { c with actionQueue := ⟨.attackCreature, some e⟩ :: c.actionQueue }
        else w1
      else w

/-- The loop `while(itr != path.end()) addDestination((*itr)->x, (*itr)->y)`. -/
def addDestinations (w : World) : Creature → List Nat → Except Fault Creature
  | c, [] => .ok c
  | c, t :: ts =>
    match tileOf w t with
    | .error f => .error f
    | .ok tile => addDestinations w (addDestination c tile.x tile.y) ts

/-- The `idle` case (lines 320-367).  The walk action is pushed before the
path is known.  Iteration starts at the second tile of the path. -/
def idleBranch (env : Env) (w : World) (c : Creature) (diceRoll : ℚ) :
    Except Fault (World × Creature × Bool) :=
  if diceRoll < 4 / 10 ∧ c.digRate > 1 / 10 then
    .ok (w, { c with actionQueue := ⟨.digTile, none⟩ :: c.actionQueue }, true)
  else if diceRoll < 6 / 10 then
    let c1 := { c with actionQueue := ⟨.walkToTile, none⟩ :: c.actionQueue }
    let tempX := toInt (c.position.x + 2 * env.gaussianRandomDouble w.randomCalls)
    let tempY := toInt (c.position.y + 2 * env.gaussianRandomDouble (w.randomCalls + 1))
    let w1 := { w with randomCalls := w.randomCalls + 2 }
    match positionTile w c with
    | none => .ok (w1, c1, false)
    | some p =>
      match tileOf w p with
      | .error f => .error f
      | .ok tile =>
        let result := env.path w.tiles tile.x tile.y tempX tempY c.tilePassability
        if result.length ≥ 2 then
          match addDestinations w c1 ((env.cutCorners w.tiles result c.tilePassability).drop 1) with
          | .error f => .error f
          | .ok c2 => .ok (w1, c2, false)
        else .ok (w1, c1, false)
  else .ok (w, c, false)

/-- The staleness check of the `walkToTile` case (lines 371-386), entered
when the action beneath is `digTile`.  The tile is looked up at the
coordinates read from `walkQueue[walkQueue.size()]`. -/
def abortOnStaleGoal (env : Env) (w : World) (c : Creature) : Creature :=
  let tempPlayer := getControllingPlayer w c
  let v := env.walkQueuePastEnd
  match getTile w.tiles (toInt v.x) (toInt v.y) with
  | none => c
  | some cur =>
    match w.tiles[cur]?, tempPlayer with
    | some tile, some p => if !getMarkedForDigging tile p then clearDestinations c else c
    | _, _ => c

/-- The `walkToTile` case (lines 369-394). -/
def walkToTileBranch (env : Env) (w : World) (c : Creature) :
    Except Fault (World × Creature × Bool) :=
  match c.actionQueue[1]? with
  | none => .error .outOfRange
  | some below =>
    let c1 := if below.type = .digTile then abortOnStaleGoal env w c else c
    if c1.walkQueue.length = 0 then
      .ok (w, { c1 with actionQueue := c1.actionQueue.tail }, true)
    else .ok (w, c1, false)

/-- The visible tiles marked for digging by the player (lines 400-408). -/
def markedTiles (w : World) (c : Creature) (tempPlayer : Option Player) : List Nat :=
  c.visibleTiles.filter fun t =>
    match tempPlayer, w.tiles[t]? with
    | some p, some tile => getMarkedForDigging tile p
    | _, _ => false

/-- The search of lines 413-415 for the first neighbour marked by the
player. -/
def firstMarkedNeighbor (w : World) (p : Player) : List Nat → Except Fault (Option (Nat × Tile))
  | [] => .ok none
  | n :: ns =>
    match tileOf w n with
    | .error f => .error f
    | .ok tile => if getMarkedForDigging tile p then .ok (some (n, tile)) else firstMarkedNeighbor w p ns

/-- The fullness read back from a `Tile*`. -/
def getFullness (w : World) (t : Nat) : ℚ :=
  match w.tiles[t]? with
  | some tile => tile.fullness
  | none => 0

/-- The loop of lines 422-426, which stores into every neighbour the
fullness it already has (to rebuild its mesh). -/
def refreshNeighbors (w : World) : List Nat → World
  | [] => w
  | n :: ns => refreshNeighbors (setFullness w n (getFullness w n)) ns

/-- The body of lines 417-445: dig the marked neighbour `t`.  The difference
of line 418 is a difference of doubles and is stored rounded. -/
def digNeighbor (env : Env) (w : World) (c : Creature) (t : Nat) : Except Fault (World × Creature) :=
  match tileOf w t with
  | .error f => .error f
  | .ok tile =>
    let w1 := setFullness w t (roundDouble (getFullness w t - c.digRate))
    let w2 := refreshNeighbors w1 (env.neighborTiles w1.tiles tile.x tile.y)
    let w3 := if getFullness w2 t < 0 then setFullness w2 t 0 else w2
    if getFullness w3 t = 0 then
      let c1 := addDestination c tile.x tile.y
      .ok (w3, { c1 with actionQueue := ⟨.walkToTile, none⟩ :: c1.actionQueue.tail })
    else .ok (w3, c)

/-- The dig of lines 417-445 applied `k` times in a row to the tile `t`. -/
def digTimes (env : Env) (t : Nat) : Nat → World → Creature → Except Fault (World × Creature)
  | 0, w, c => .ok (w, c)
  | k + 1, w, c =>
    match digNeighbor env w c t with
    | .error f => .error f
    | .ok (w1, c1) => digTimes env t k w1 c1

/-- The inner loop of lines 458-464: a path to every dug-out neighbour of a
marked tile. -/
def pathsToNeighbors (env : Env) (w : World) (c : Creature) :
    List Nat → Except Fault (List (List Nat))
  | [] => .ok []
  | n :: ns =>
    match tileOf w n with
    | .error f => .error f
    | .ok nt =>
      if nt.fullness = 0 then
        match positionTile w c with
        | none => .error .nullPointer
        | some p =>
          match tileOf w p, pathsToNeighbors env w c ns with
          | .ok pt, .ok rest => .ok (env.path w.tiles pt.x pt.y nt.x nt.y c.tilePassability :: rest)
          | .error f, _ => .error f
          | _, .error f => .error f
      else pathsToNeighbors env w c ns

/-- The loop of lines 455-465 over the marked tiles. -/
def possiblePaths (env : Env) (w : World) (c : Creature) :
    List Nat → Except Fault (List (List Nat))
  | [] => .ok []
  | m :: ms =>
    match tileOf w m with
    | .error f => .error f
    | .ok mt =>
      match pathsToNeighbors env w c (env.neighborTiles w.tiles mt.x mt.y), possiblePaths env w c ms with
      | .ok ps, .ok rest => .ok (ps ++ rest)
      | .error f, _ => .error f
      | _, .error f => .error f

/-- The scan of lines 488-495 over `shortPaths[j]`, `j ≥ 1`.  `size` is
`shortPaths.size()`, which the source stores in `longestLength`. -/
def kickScan (size : Nat) : List (List Nat) → Nat → Nat → Nat → Nat
  | [], _, _, longestIndex => longestIndex
  | p :: ps, j, longestLength, longestIndex =>
    if p.length > longestLength then kickScan size ps (j + 1) size j
    else kickScan size ps (j + 1) longestLength longestIndex

/-- The index erased at line 497. -/
def longestIndex (shortPaths : List (List Nat)) : Nat :=
  match shortPaths with
  | [] => 0
  | p :: ps => kickScan shortPaths.length ps 1 p.length 0

/-- The loop of lines 472-500 over `possiblePaths`, with `shortPaths` so
far. -/
def selectShortPaths : List (List Nat) → List (List Nat) → List (List Nat)
  | [], shortPaths => shortPaths
  | p :: ps, shortPaths =>
    if p.length ≥ 2 then
      let s1 := shortPaths ++ [p]
      if s1.length > 5 then selectShortPaths ps (s1.eraseIdx (longestIndex s1))
      else selectShortPaths ps s1
    else selectShortPaths ps shortPaths

/-- Lines 529-535: pop the dig action and loop back. -/
def finishDigging (w : World) (c : Creature) : World × Creature × Bool :=
  match c.actionQueue with
  | a :: rest => if a.type = .digTile then (w, { c with actionQueue := rest }, true) else (w, c, false)
  | [] => (w, c, false)

/-- Lines 453-536 of the `digTile` case: no neighbour is marked. -/
def approachMarkedTile (env : Env) (w : World) (c : Creature) (marked : List Nat) :
    Except Fault (World × Creature × Bool) :=
  match possiblePaths env w c marked with
  | .error f => .error f
  | .ok possible =>
    if possible.length > 0 then
      let shortPaths := selectShortPaths possible []
      if shortPaths.length > 0 then
        let r := env.randomDouble w.randomCalls 0 ((shortPaths.length : ℚ) - 1 / 1000)
        let w1 := { w with randomCalls := w.randomCalls + 1 }
        if toInt r < 0 then .error .outOfRange
        else
          match shortPaths[(toInt r).toNat]? with
          | none => .error .outOfRange
          | some walkPath =>
            if walkPath.length ≥ 2 then
              match addDestinations w c ((env.cutCorners w.tiles walkPath c.tilePassability).drop 1) with
              | .error f => .error f
              | .ok c1 => .ok (w1, { c1 with actionQueue := ⟨.walkToTile, none⟩ :: c1.actionQueue }, false)
            else .ok (finishDigging w1 c)
      else .ok (finishDigging w c)
    else .ok (finishDigging w c)

/-- The `digTile` case (lines 396-536).  The call
`neighborTiles(position.x, position.y)` converts the position to `int`. -/
def digTileBranch (env : Env) (w : World) (c : Creature) :
    Except Fault (World × Creature × Bool) :=
  let tempPlayer := getControllingPlayer w c
  let marked := markedTiles w c tempPlayer
  let creatureNeighbors := env.neighborTiles w.tiles (toInt c.position.x) (toInt c.position.y)
  let found : Except Fault (Option (Nat × Tile)) :=
    match tempPlayer with
    | none => .ok none
    | some p => firstMarkedNeighbor w p creatureNeighbors
  match found with
  | .error f => .error f
  | .ok (some (t, _)) =>
    match digNeighbor env w c t with
    | .error f => .error f
    | .ok (w1, c1) => .ok (w1, c1, false)
  | .ok none => approachMarkedTile env w c marked

/-- The attack loop of lines 547-558: the first visible enemy whose tile is
closer than the longer weapon range to the tile read through `myTile` loses
the damage of both weapons.  `myTile` has not been assigned at this point. -/
def attackFirstInRange (env : Env) (w : World) (c : Creature) : List Nat → Except Fault World
  | [] => .ok w
  | e :: es =>
    match creatureOf w e with
    | .error f => .error f
    | .ok enemy =>
      match positionTile w enemy with
      | none => .error .nullPointer
      | some tt =>
        match tileOf w tt, env.uninitMyTile, c.weaponL, c.weaponR with
        | .error f, _, _, _ => .error f
        | _, none, _, _ => .error .wildPointer
        | .ok tempTile, some my, some weaponL, some weaponR =>
          let rSquared := (my.1 - tempTile.x) ^ 2 + (my.2 - tempTile.y) ^ 2
          if sqrtLt rSquared (max weaponL.range weaponR.range) then
            let damageDone := weaponL.damage + weaponR.damage
            .ok (modifyCreature w e fun enemy => { enemy with hp := enemy.hp - damageDone })
          else attackFirstInRange env w c es
        | _, _, _, _ => .error .nullPointer

/-- Modelled from the spec: `Field::set`, a mapping from tile coordinate to
value (Field.h is not among the sources): the entry of the coordinate is
replaced. -/
def fieldSet (field : List ((Int × Int) × TileValue)) (x y : Int) (v : TileValue) :
    List ((Int × Int) × TileValue) :=
  field.filter (fun e => decide (e.1 ≠ (x, y))) ++ [((x, y), v)]

/-- The enemy loop of lines 580-591 for the tile `tempTile`. -/
def enemyTerms (w : World) (myTile : Option Tile) (tempTile : Tile) :
    List Nat → Except Fault (List (Int × Int))
  | [] => .ok []
  | e :: es =>
    match creatureOf w e with
    | .error f => .error f
    | .ok enemy =>
      match (positionTile w enemy).bind (fun p => w.tiles[p]?), myTile with
      | some tempTile2, some my =>
        match enemyTerms w myTile tempTile es with
        | .error f => .error f
        | .ok rest =>
          .ok (((my.x - tempTile2.x) ^ 2 + (my.y - tempTile2.y) ^ 2,
                (tempTile.x - tempTile2.x) ^ 2 + (tempTile.y - tempTile2.y) ^ 2) :: rest)
      | _, _ => .error .nullPointer

/-- The ally loop of lines 594-604 for the tile `tempTile`. -/
def allyTerms (w : World) (myTile : Option Tile) (tempTile : Tile) :
    List Nat → Except Fault (List Int)
  | [] => .ok []
  | a :: as =>
    match creatureOf w a with
    | .error f => .error f
    | .ok ally =>
      match (positionTile w ally).bind (fun p => w.tiles[p]?), myTile with
      | some tempTile2, some _ =>
        match allyTerms w myTile tempTile as with
        | .error f => .error f
        | .ok rest => .ok (((tempTile.x - tempTile2.x) ^ 2 + (tempTile.y - tempTile2.y) ^ 2) :: rest)
      | _, _ => .error .nullPointer

/-- The loop of lines 573-609 over the visible tiles; `k` counts the random
numbers drawn. -/
def buildField (env : Env) (w : World) (myTile : Option Tile) (visibleEnemies visibleAllies : List Nat) :
    List Nat → Nat → List ((Int × Int) × TileValue) → Except Fault (List ((Int × Int) × TileValue) × Nat)
  | [], k, field => .ok (field, k)
  | t :: ts, k, field =>
    match tileOf w t with
    | .error f => .error f
    | .ok tempTile =>
      match enemyTerms w myTile tempTile visibleEnemies, allyTerms w myTile tempTile visibleAllies with
      | .ok es, .ok as =>
        let jitter : ℚ := 5 / 100
        let tileScaleFactor : ℚ := 5 / 100
        let v : TileValue := ⟨es, as, env.randomDouble k (-1 * jitter) jitter, tileScaleFactor⟩
        buildField env w myTile visibleEnemies visibleAllies ts (k + 1) (fieldSet field tempTile.x tempTile.y v)
      | .error f, _ => .error f
      | _, .error f => .error f

/-- The `attackCreature` case (lines 538-632).  The `break` of line 556
leaves the `for` loop only: the field is rebuilt and the creature moves
whether or not it has hit an enemy.  The two random numbers in the arguments
of `path` are drawn in the order of the arguments. -/
def attackCreatureBranch (env : Env) (w : World) (self : Nat) (c : Creature)
    (visibleEnemies visibleAllies : List Nat) : Except Fault (World × Creature × Bool) :=
  if visibleEnemies.length = 0 then
    .ok (w, { c with actionQueue := c.actionQueue.tail }, true)
  else
    match attackFirstInRange env w c visibleEnemies with
    | .error f => .error f
    | .ok w1 =>
      match creatureOf w1 self with
      | .error f => .error f
      | .ok c1 =>
        let myTile := (positionTile w1 c1).bind (fun p => w1.tiles[p]?)
        match buildField env w1 myTile visibleEnemies visibleAllies c1.visibleTiles w1.randomCalls [] with
        | .error f => .error f
        | .ok (field, k) =>
          let c2 := clearDestinations { c1 with battleField := field }
          let min := env.fieldMin field
          let tempDouble : ℚ := 4
          match myTile with
          | none => .error .nullPointer
          | some pt =>
            let tempPath := env.path w1.tiles pt.x pt.y
              (toInt ((min.1 : ℚ) + env.randomDouble k (-1 * tempDouble) tempDouble))
              (toInt ((min.2 : ℚ) + env.randomDouble (k + 1) (-1 * tempDouble) tempDouble))
              c1.tilePassability
            let w2 := { w1 with randomCalls := k + 2 }
            if tempPath.length > 3 + 2 then
              match tempPath[3]? with
              | none => .error .outOfRange
              | some t =>
                match tileOf w1 t with
                | .error f => .error f
                | .ok tile => .ok (w2, addDestination c2 tile.x tile.y, false)
            else .ok (w2, c2, false)

/-- One pass through the body of the `do ... while(loopBack)` loop of
`doTurn` (lines 300-646): the new state and the value of `loopBack`. -/
def doTurnIter (env : Env) (w : World) (self : Nat) (visibleEnemies visibleAllies : List Nat) :
    Except Fault (World × Bool) :=
  match creatureOf w self with
  | .error f => .error f
  | .ok c =>
    let diceRoll := env.randomDouble w.randomCalls 0 1
    let w0 := { w with randomCalls := w.randomCalls + 1 }
    match c.actionQueue with
    | [] => .error .emptyActionQueue
    | a :: _ =>
      let r :=
        match a.type with
        | .idle => idleBranch env w0 c diceRoll
        | .walkToTile => walkToTileBranch env w0 c
        | .digTile => digTileBranch env w0 c
        | .attackCreature => attackCreatureBranch env w0 self c visibleEnemies visibleAllies
      match r with
      | .error f => .error f
      | .ok (w1, c1, loopBack) => .ok (modifyCreature w1 self (fun _ => c1), loopBack)

/-- The loop `do ... while(loopBack)`, with a bound on the number of
passes. -/
def doTurnLoop (env : Env) (self : Nat) (visibleEnemies visibleAllies : List Nat) :
    Nat → World → Except Fault World
  | 0, _ => .error .outOfFuel
  | fuel + 1, w =>
    match doTurnIter env w self visibleEnemies visibleAllies with
    | .error f => .error f
    | .ok (w1, loopBack) =>
      if loopBack then doTurnLoop env self visibleEnemies visibleAllies fuel w1 else .ok w1

/-- `Creature::destroyVisualDebugEntities`, without the render requests. -/
def destroyVisualDebugEntities (env : Env) (w : World) (c : Creature) : Except Fault Creature :=
  match updateVisibleTiles env w c with
  | .error f => .error f
  | .ok vis => .ok { c with hasVisualDebuggingEntities := false, visibleTiles := vis }

/-- `Creature::createVisualDebugEntities`, without the render requests. -/
def createVisualDebugEntities (env : Env) (w : World) (c : Creature) : Except Fault Creature :=
  match updateVisibleTiles env w c with
  | .error f => .error f
  | .ok vis =>
    .ok { c with hasVisualDebuggingEntities := true, visualDebugEntityTiles := vis, visibleTiles := vis }

/-- Lines 648-659 of `doTurn`. -/
def updateVisualDebug (env : Env) (w : World) (self : Nat) : Except Fault World :=
  match creatureOf w self with
  | .error f => .error f
  | .ok c =>
    if c.hasVisualDebuggingEntities ∧ positionTile w c ≠ c.previousPositionTile then
      match destroyVisualDebugEntities env w c with
      | .error f => .error f
      | .ok c1 =>
        match createVisualDebugEntities env w c1 with
        | .error f => .error f
        | .ok c2 => .ok (modifyCreature w self (fun _ => c2))
    else .ok w

/-- `Creature::doTurn` for the creature `self`; `fuel` bounds the number of
passes through the loop-back loop. -/
def doTurn (env : Env) (fuel : Nat) (w : World) (self : Nat) : Except Fault World :=
  match creatureOf w self with
  | .error f => .error f
  | .ok c =>
    match positionTile w c with
    | none => .ok w
    | some _ =>
      match updateVisibleTiles env w c with
      | .error f => .error f
      | .ok vis =>
        let c1 := { c with visibleTiles := vis }
        let w1 := modifyCreature w self (fun _ => c1)
        let visibleEnemies := getVisibleEnemies w1 c1
        let visibleAllies := getVisibleAllies w1 c1
        let w2 := perceive env w1 self c1 visibleEnemies
        match doTurnLoop env self visibleEnemies visibleAllies fuel w2 with
        | .error f => .error f
        | .ok w3 => updateVisualDebug env w3 self

/-- A sequence of ticks of the creature `self`, each with its own
collaborators and bound. -/
def doTurns (self : Nat) : List (Env × Nat) → World → Except Fault World
  | [], w => .ok w
  | (env, fuel) :: rest, w =>
    match doTurn env fuel w self with
    | .error f => .error f
    | .ok w1 => doTurns self rest w1

/-! ## Predicates used in the statements -/

/-- The action queue has an `idle` action as its last element (so it is not
empty). -/
def bottomIdle (q : List CreatureAction) : Prop := q.getLast?.map (fun a => a.type) = some .idle

instance (q : List CreatureAction) : Decidable (bottomIdle q) := by
  unfold bottomIdle; infer_instance

/-- The action queue of the creature `self` in the world `w`. -/
def queueOf (w : World) (self : Nat) : List CreatureAction :=
  match w.creatures[self]? with
  | some c => c.actionQueue
  | none => []

/-- The tile `t` lies at an offset `(dx, dy) ≠ (0, 0)` from `(xBase, yBase)`
with `dx² + dy² < r²` and the line of sight to it is clear for a flying
object. -/
def seenFrom (env : Env) (tiles : List Tile) (r : ℚ) (xBase yBase : Int) (t : Nat) : Prop :=
  ∃ dx dy : Int, (dx ≠ 0 ∨ dy ≠ 0) ∧ ((dx * dx + dy * dy : Int) : ℚ) < r * r ∧
    getTile tiles (xBase + dx) (yBase + dy) = some t ∧
    env.pathIsClear tiles (env.lineOfSight tiles xBase yBase (xBase + dx) (yBase + dy)) .flyableTile = true

/-- The tile `t` lies at an offset `(dx, dy) ≠ (0, 0)` from `(xBase, yBase)`
that passes the test of the scan, and the line of sight to it is clear for a
flying object.  On an axis the test is `dx² + dy² < r²` (the bound
`i < sightRadius` of the ray loop); off the axes it is the comparison of line
720 on doubles, `fl (dx² + dy²) < fl (r * r)`. -/
def scannedFrom (env : Env) (tiles : List Tile) (r : ℚ) (xBase yBase : Int) (t : Nat) : Prop :=
  ∃ dx dy : Int, (dx ≠ 0 ∨ dy ≠ 0) ∧
    (dx = 0 ∨ dy = 0 → ((dx * dx + dy * dy : Int) : ℚ) < r * r) ∧
    (dx ≠ 0 → dy ≠ 0 →
      roundDouble ((dx * dx + dy * dy : Int) : ℚ) < roundDouble (r * r)) ∧
    getTile tiles (xBase + dx) (yBase + dy) = some t ∧
    env.pathIsClear tiles (env.lineOfSight tiles xBase yBase (xBase + dx) (yBase + dy)) .flyableTile = true

/-- The changes one pass of the loop of `doTurn` can make to the action
queue: nothing, a push, a pop of an action that is not `idle`, or the
replacement of such an action. -/
def StackStep (q q' : List CreatureAction) : Prop :=
  q' = q ∨ (∃ a, q' = a :: q) ∨
    ∃ a rest, q = a :: rest ∧ a.type ≠ .idle ∧ (q' = rest ∨ ∃ b, q' = b :: rest)

/-! ## Concrete scenes -/

deriving instance DecidableEq for Except

/-- Collaborators of the scenes: the four existing axis neighbours, no path
is ever found, every line of sight is clear, the random numbers are the
midpoints of their ranges. -/
def plainEnv : Env where
  randomDouble := fun _ lo hi => (lo + hi) / 2
  gaussianRandomDouble := fun _ => 0
  neighborTiles := fun tiles x y =>
    [(x - 1, y), (x + 1, y), (x, y - 1), (x, y + 1)].filterMap fun p => getTile tiles p.1 p.2
  path := fun _ _ _ _ _ _ => []
  cutCorners := fun _ p _ => p
  lineOfSight := fun _ _ _ _ _ => []
  pathIsClear := fun _ _ _ => true
  fieldMin := fun _ => (0, 0)
  uninitMyTile := some (0, 0)
  walkQueuePastEnd := ⟨0, 0, 0⟩

/-- A corridor of five dug-out tiles `(0,0) … (4,0)`. -/
def corridorTiles : List Tile :=
  [⟨0, 0, 0, [], [0]⟩, ⟨1, 0, 0, [], []⟩, ⟨2, 0, 0, [], []⟩, ⟨3, 0, 0, [], [1]⟩, ⟨4, 0, 0, [], []⟩]

/-- The scene of the attack scenario: the agent (creature 0, colour 1) at
`(0,0)` with sight radius 5 and weapons of range 4 and 1, attacking; an enemy
(creature 1, colour 2) at `(3,0)`; one destination `(4,0)` in the walk queue
of the agent. -/
def attackScene : World where
  tiles := corridorTiles
  creatures := [
    { position := ⟨0, 0, 0⟩, color := 1, sightRadius := 5,
      weaponL := some ⟨4, 2⟩, weaponR := some ⟨1, 3⟩,
      actionQueue := [⟨.attackCreature, some 1⟩, ⟨.idle, none⟩], walkQueue := [⟨4, 0, 0⟩] },
    { position := ⟨3, 0, 0⟩, color := 2, hp := 10, actionQueue := [⟨.idle, none⟩] }]
  me := ⟨0, 1⟩

/-- A creature standing at `(7,7)`, off the corridor. -/
def offGridScene : World where
  tiles := corridorTiles
  creatures := [
    { position := ⟨7, 7, 0⟩, color := 1, sightRadius := 5,
      actionQueue := [⟨.digTile, none⟩, ⟨.idle, none⟩], walkQueue := [⟨4, 0, 0⟩] }]
  me := ⟨0, 1⟩

/-- A creature at `(0,0)` with sight radius 5, used for the visibility
examples. -/
def watcher : Creature := { position := ⟨0, 0, 0⟩, color := 1, sightRadius := 5 }

/-- The corridor with the creature `watcher`. -/
def corridorScene : World where
  tiles := corridorTiles
  creatures := [watcher]
  me := ⟨0, 1⟩

/-- A wall tile `(1,0)` of fullness 10 marked by player 0 next to the dug-out
tile `(0,0)`, and a digger of dig rate 4 standing on `(0,0)`. -/
def digScene : World where
  tiles := [⟨0, 0, 0, [], [0]⟩, ⟨1, 0, 10, [0], []⟩]
  creatures := [
    { position := ⟨0, 0, 0⟩, color := 1, sightRadius := 2, digRate := 4,
      actionQueue := [⟨.digTile, none⟩, ⟨.idle, none⟩] }]
  me := ⟨0, 1⟩

/-- A digger whose dig rate is the double nearest to 0.1,
`3602879701896397 / 2 ^ 55`. -/
def stoneDigger : Creature :=
  { position := ⟨0, 0, 0⟩, color := 1, sightRadius := 2,
    digRate := mkRat 3602879701896397 36028797018963968,
    actionQueue := [⟨.digTile, none⟩, ⟨.idle, none⟩] }

/-- A wall tile `(1,0)` of fullness 1 marked by player 0 next to the dug-out
tile `(0,0)`, on which `stoneDigger` stands. -/
def stoneScene : World where
  tiles := [⟨0, 0, 0, [], [0]⟩, ⟨1, 0, 1, [0], []⟩]
  creatures := [stoneDigger]
  me := ⟨0, 1⟩

/-- The digger of `digScene`. -/
def digger : Creature :=
  { position := ⟨0, 0, 0⟩, color := 1, sightRadius := 2, digRate := 4,
    actionQueue := [⟨.digTile, none⟩, ⟨.idle, none⟩] }

/-- The walking scenario: the agent has reached `(1,0)`, the walk queue holds
`(2,0)`, `walkToTile` lies above `idle`. -/
def walker : Creature :=
  { position := ⟨1, 0, 0⟩, color := 1, sightRadius := 3,
    actionQueue := [⟨.walkToTile, none⟩, ⟨.idle, none⟩], walkQueue := [⟨2, 0, 0⟩] }

/-- The corridor with the creature `walker` on `(1,0)`. -/
def walkScene : World where
  tiles := [⟨0, 0, 0, [], []⟩, ⟨1, 0, 0, [], [0]⟩, ⟨2, 0, 0, [], []⟩]
  creatures := [walker]
  me := ⟨0, 1⟩

/-- An attacking creature that sees no enemy. -/
def victor : Creature :=
  { position := ⟨0, 0, 0⟩, color := 1, sightRadius := 3, hp := 7,
    actionQueue := [⟨.attackCreature, some 1⟩, ⟨.digTile, none⟩, ⟨.idle, none⟩],
    walkQueue := [⟨2, 0, 0⟩] }

/-- The corridor with the creature `victor`. -/
def victorScene : World where
  tiles := corridorTiles
  creatures := [victor]
  me := ⟨0, 1⟩

/-- A digger with `digTile` above `idle`. -/
def quitter : Creature :=
  { position := ⟨0, 0, 0⟩, color := 1, sightRadius := 3,
    actionQueue := [⟨.digTile, none⟩, ⟨.idle, none⟩] }

/-- The corridor, where no tile is marked for digging, with the creature
`quitter` alone. -/
def quitScene : World where
  tiles := corridorTiles
  creatures := [quitter]
  me := ⟨0, 1⟩

/-- The states a tick passes through after a digging creature `c0` with the
queue `[digTile, b]` has found nothing to dig in the world `w0`: map and
players are those of `w0`, the creature still sees `vis` from the same place,
and its queue is `[b]` or `[digTile, b]`. -/
def abandonInv (w0 : World) (c0 : Creature) (vis : List Nat) (b : CreatureAction) (self : Nat)
    (w : World) : Prop :=
  w.tiles = w0.tiles ∧ w.me = w0.me ∧ w.players = w0.players ∧
    ∃ c, w.creatures[self]? = some c ∧ c.visibleTiles = vis ∧ c.position = c0.position ∧
      c.color = c0.color ∧
      (c.actionQueue = [b] ∨ ∃ a, a.type = .digTile ∧ c.actionQueue = [a, b])

/-! ## Construction and transport of creatures -/

/-- `Creature::Creature()` (lines 14-40).  `u` holds the values of the
members the constructor does not assign; strings and containers start
empty. -/
def newCreature (u : Creature) : Creature :=
  { u with
    className := "", meshName := "", name := "",
    hasVisualDebuggingEntities := false,
    position := ⟨0, 0, 0⟩, scale := ⟨1, 1, 1⟩,
    destinationX := 0, destinationY := 0,
    hp := 10, mana := 10, sightRadius := 10, digRate := 10, moveSpeed := 1,
    tilePassability := .walkableTile,
    weaponL := none, weaponR := none,
    actionQueue := ([] : List CreatureAction) ++ [⟨.idle, none⟩],
    walkQueue := [], visibleTiles := [], visualDebugEntityTiles := [],
    battleField := [] }

/-- `Creature::Creature(nClassName, nMeshName, nScale, nHP, nMana,
nSightRadius, nDigRate, nMoveSpeed)` (lines 42-55), "meant to be used to
initialize a creature class".  `u` holds the values of the members the
constructor does not assign; strings and containers start empty. -/
def newCreatureClass (u : Creature) (nClassName nMeshName : String) (nScale : Vector3)
    (nHP nMana : Int) (nSightRadius nDigRate nMoveSpeed : ℚ) : Creature :=
  { u with
    className := nClassName, meshName := nMeshName, scale := nScale,
    hp := nHP, mana := nMana, sightRadius := nSightRadius, digRate := nDigRate,
    moveSpeed := nMoveSpeed, tilePassability := .walkableTile,
    name := "", actionQueue := [], walkQueue := [], visibleTiles := [],
    visualDebugEntityTiles := [] }

/-- One whitespace-separated field of a stream, with the type it was written
at: numbers are read back exactly as written, and a `Weapon` is one field (its
stream operators, in Weapon.cpp, are taken to be a round trip). -/
inductive StreamItem where
  | text (s : String)
  | real (q : ℚ)
  | int (i : Int)
  | weapon (w : Weapon)
deriving DecidableEq, Repr

/-- `operator<<(ostream&, Creature*)` (lines 60-68): the fields written, in
order. -/
def writeCreature (c : Creature) : Except Fault (List StreamItem) :=
  match c.weaponR, c.weaponL with
  | some weaponR, some weaponL =>
    .ok [.text c.className, .text c.name, .real c.position.x, .real c.position.y,
      .real c.position.z, .int c.color, .weapon weaponR, .weapon weaponL]
  | _, _ => .error .nullPointer

/-- The name `snprintf(tempArray, 255, "%s_%04i", className, uniqueNumber)`
of lines 84-86. -/
def autoName (className : String) (uniqueNumber : Nat) : String :=
  (className ++ "_" ++ "".pushn '0' (4 - (toString uniqueNumber).length)
    ++ toString uniqueNumber).take 254

/-- `operator>>(istream&, Creature*)` (lines 73-120): the creature read into
`c`, the new value of the static counter `uniqueNumber` and the rest of the
stream; `none` when a field is missing or of another type.  The hand strings
and parent pointers of the weapons are left out. -/
def readCreature (getClassDescription : String → Option Creature) (uniqueNumber : Nat)
    (c : Creature) : List StreamItem → Option (Creature × Nat × List StreamItem)
  | .text className :: .text tempString :: .real xLocation :: .real yLocation ::
      .real zLocation :: .int color :: .weapon first :: .weapon second :: rest =>
    let named : String × Nat :=
      if tempString = "autoname" then (autoName className uniqueNumber, uniqueNumber + 1)
      else (tempString, uniqueNumber)
    let c1 : Creature :=
      { c with
        className := className, name := named.1,
        position := ⟨xLocation, yLocation, zLocation⟩, color := color,
        weaponL := some first, weaponR := some second }
    let c2 : Creature :=
      match getClassDescription className with
      | some creatureClass =>
        { c1 with
          meshName := creatureClass.meshName, scale := creatureClass.scale,
          sightRadius := creatureClass.sightRadius, digRate := creatureClass.digRate,
          hp := creatureClass.hp, mana := creatureClass.mana,
          moveSpeed := creatureClass.moveSpeed }
      | none => c1
    some (c2, named.2, rest)
  | _ => none

/-! ## Camera and goals -/

/-- The members of `CameraManager` behind the speed accessors
(CameraManager.h, lines 79-103 and 186-189). -/
structure CameraManager where
  moveSpeed : ℚ
  moveSpeedAccel : ℚ
  rotateSpeed : ℚ
deriving DecidableEq, Repr

/-- `CameraManager::getMoveSpeed`. -/
def CameraManager.getMoveSpeed (cm : CameraManager) : ℚ := cm.moveSpeed

/-- `CameraManager::setMoveSpeed`. -/
def CameraManager.setMoveSpeed (cm : CameraManager) (newMoveSpeed : ℚ) : CameraManager :=
  { cm with moveSpeed := newMoveSpeed }

/-- `CameraManager::getMoveSpeedAccel`. -/
def CameraManager.getMoveSpeedAccel (cm : CameraManager) : ℚ := cm.moveSpeedAccel

/-- `CameraManager::setMoveSpeedAccel` (lines 92-94), which assigns
`moveSpeed`. -/
def CameraManager.setMoveSpeedAccel (cm : CameraManager) (newMoveSpeedAccel : ℚ) :
    CameraManager :=
  { cm with moveSpeed := newMoveSpeedAccel }

/-- `CameraManager::getRotateSpeed`. -/
def CameraManager.getRotateSpeed (cm : CameraManager) : ℚ := cm.rotateSpeed

/-- `CameraManager::setRotateSpeed`. -/
def CameraManager.setRotateSpeed (cm : CameraManager) (newRotateSpeed : ℚ) : CameraManager :=
  { cm with rotateSpeed := newRotateSpeed }

/-- Modelled from the spec: a `Seat` with the count returned by
`getNumClaimedTiles` (Seat.h is not among the sources). -/
structure Seat where
  numClaimedTiles : Int
deriving DecidableEq, Repr

/-- The class `GoalClaimNTiles`: the goal name and `numberOfTiles`. -/
structure GoalClaimNTiles where
  name : String
  numberOfTiles : Int
deriving DecidableEq, Repr

/-- `GoalClaimNTiles::isMet`. -/
def GoalClaimNTiles.isMet (g : GoalClaimNTiles) (s : Seat) : Bool :=
  decide (s.numClaimedTiles ≥ g.numberOfTiles)

/-- `GoalClaimNTiles::getSuccessMessage`. -/
def GoalClaimNTiles.getSuccessMessage (g : GoalClaimNTiles) : String :=
  "You have claimed more than " ++ toString g.numberOfTiles ++ " tiles."

/-- `GoalClaimNTiles::getFailedMessage`. -/
def GoalClaimNTiles.getFailedMessage (g : GoalClaimNTiles) : String :=
  "You have failed to claim more than " ++ toString g.numberOfTiles ++ " tiles."

/-! ## More concrete scenes -/

/-- A class description built by the second constructor. -/
def koboldClass : Creature := newCreatureClass {} "Kobold" "Kobold.mesh" ⟨1, 1, 1⟩ 10 10 3 10 1

/-- The corridor with the class description `koboldClass` standing in for a
creature. -/
def classScene : World where
  tiles := corridorTiles
  creatures := [koboldClass]
  me := ⟨0, 1⟩

/-- A creature with two different weapons. -/
def knight : Creature :=
  { className := "Knight", name := "Lancelot", position := ⟨3, 4, 0⟩, color := 2,
    weaponL := some ⟨1, 5⟩, weaponR := some ⟨3, 2⟩, actionQueue := [⟨.idle, none⟩] }

/-- A path of `n` tiles. -/
def pathOfLength (n : Nat) : List Nat := List.replicate n 0

/-- Candidate paths of lengths 2, 10, 8, 3, 3, 3. -/
def candidatePaths : List (List Nat) := [2, 10, 8, 3, 3, 3].map pathOfLength

/-- The collaborators `plainEnv` with every random number equal to 0.3. -/
def lowRollEnv : Env := { plainEnv with randomDouble := fun _ _ _ => 3 / 10 }

/-- The corridor with the creature `quitter` given the queue `[idle]`. -/
def idleDiggerScene : World where
  tiles := corridorTiles
  creatures := [{ quitter with actionQueue := [⟨.idle, none⟩] }]
  me := ⟨0, 1⟩

/-- A creature walking toward a dig site: `walkToTile` above `digTile`, one
destination `(1,0)` in the walk queue. -/
def sapper : Creature :=
  { position := ⟨0, 0, 0⟩, color := 1, sightRadius := 3,
    actionQueue := [⟨.walkToTile, none⟩, ⟨.digTile, none⟩, ⟨.idle, none⟩],
    walkQueue := [⟨1, 0, 0⟩] }

/-- Tiles `(0,0)`, `(1,0)`, `(2,0)`, `(3,0)`; player 0 has marked `(1,0)` and
not `(3,0)`. -/
def sapperScene : World where
  tiles := [⟨0, 0, 0, [], [0]⟩, ⟨1, 0, 10, [0], []⟩, ⟨2, 0, 0, [], []⟩, ⟨3, 0, 10, [], []⟩]
  creatures := [sapper]
  me := ⟨0, 1⟩

/-- The invariant `abandonInv` for a creature whose dig rate stays that of
`c0`. -/
def diggerInv (w0 : World) (c0 : Creature) (vis : List Nat) (b : CreatureAction) (self : Nat)
    (w : World) : Prop :=
  abandonInv w0 c0 vis b self w ∧ ∃ c, w.creatures[self]? = some c ∧ c.digRate = c0.digRate

/-! ## The offsets scanned by `updateVisibleTiles` -/

/-- The offsets from the position tile looked at by the ray loop (lines
687-711), in order. -/
def axisOffsets (r : ℚ) : Nat → Int → List (Int × Int)
  | 0, _ => []
  | fuel + 1, i =>
    if (i : ℚ) < r then [(i, 0), (-i, 0), (0, i), (0, -i)] ++ axisOffsets r fuel (i + 1) else []

/-- The offsets looked at by the inner loop of the sector scan (lines
716-751) for a fixed `i`, in order. -/
def rowOffsets (r : ℚ) (i : Int) : Nat → Int → List (Int × Int)
  | 0, _ => []
  | fuel + 1, j =>
    if (j : ℚ) < r then
      if roundDouble ((i * i + j * j : Int) : ℚ) < roundDouble (r * r) then
        [(i, j), (i, -j), (-i, j), (-i, -j)] ++ rowOffsets r i fuel (j + 1)
      else rowOffsets r i fuel (toInt r + 1)
    else []

/-- The offsets looked at by the sector scan (lines 714-752), in order. -/
def sectorOffsets (r : ℚ) : Nat → Int → List (Int × Int)
  | 0, _ => []
  | fuel + 1, i =>
    if (i : ℚ) < r then
      rowOffsets r i ((toInt r).toNat + 2) 1 ++ sectorOffsets r fuel (i + 1)
    else []

/-- All offsets looked at by `updateVisibleTiles` for the sight radius `r`,
in order. -/
def scanOffsets (r : ℚ) : List (Int × Int) :=
  axisOffsets r ((toInt r).toNat + 1) 1 ++ sectorOffsets r ((toInt r).toNat + 1) 1

/-- The tile found at the offset `d` from `(xBase, yBase)`, when it exists
and the line of sight to it is clear for a flying object. -/
def seeAt (env : Env) (tiles : List Tile) (xBase yBase : Int) (d : Int × Int) : Option Nat :=
  match getTile tiles (xBase + d.1) (yBase + d.2) with
  | none => none
  | some t =>
    if env.pathIsClear tiles (env.lineOfSight tiles xBase yBase (xBase + d.1) (yBase + d.2))
        .flyableTile
    then some t else none

/-- The coordinates of the tiles behind a list of tile handles. -/
def tileCoords (tiles : List Tile) (vis : List Nat) : List (Int × Int) :=
  vis.filterMap fun t => tiles[t]?.map fun tile => (tile.x, tile.y)

/-- A map of sixteen dug-out tiles `(0,0) … (3,3)`. -/
def openTiles : List Tile := (List.range 16).map fun k => ⟨k % 4, k / 4, 0, [], []⟩

/-- A creature at `(1,1)` with sight radius 2. -/
def scoutA : Creature := { position := ⟨1, 1, 0⟩, color := 1, sightRadius := 2 }

/-- A creature at `(2,2)` with sight radius 2. -/
def scoutB : Creature := { position := ⟨2, 2, 0⟩, color := 1, sightRadius := 2 }

/-- The map `openTiles` with the creatures `scoutA` and `scoutB`. -/
def openScene : World where
  tiles := openTiles
  creatures := [scoutA, scoutB]
  me := ⟨0, 1⟩

/-- A creature in the corner `(0,0)` with sight radius 3.25. -/
def sentry : Creature := { position := ⟨0, 0, 0⟩, color := 1, sightRadius := 13 / 4 }

/-- A map of ten dug-out tiles `(0,0) … (4,1)`. -/
def wideTiles : List Tile := (List.range 10).map fun k => ⟨k % 5, k / 5, 0, [], []⟩

/-- A creature in the corner `(0,0)` whose sight radius is the double
`4.123105625617661`, that is `4642204239785223 / 2 ^ 50`, the double nearest
to the square root of 17. -/
def lookout : Creature :=
  { position := ⟨0, 0, 0⟩, color := 1,
    sightRadius := mkRat 4642204239785223 1125899906842624 }

/-- The map `wideTiles` with the creature `lookout`. -/
def wideScene : World where
  tiles := wideTiles
  creatures := [lookout]
  me := ⟨0, 1⟩

/-! ## The battle field -/

/-- The number `r` is the value stored in the battle field for the summands
`v` (lines 576-608): every enemy adds `factor * sqrt(rSquared)` with
`factor = 1.0 / (sqrt(rSquared) + 1.0)`, every ally adds
`15.0 / sqrt(rSquared + 1.0)`, and the sum with the jitter is multiplied by
`tileScaleFactor`. -/
def TileValue.Denotes (v : TileValue) (r : ℝ) : Prop :=
  r = ((v.enemyTerms.map fun (p : Int × Int) => 1 / (Real.sqrt (p.1 : ℝ) + 1) * Real.sqrt (p.2 : ℝ)).sum
        + (v.allyTerms.map fun (b : Int) => 15 / Real.sqrt ((b : ℝ) + 1)).sum
        + (v.jitter : ℝ)) * (v.tileScaleFactor : ℝ)

/-- A corridor of six dug-out tiles `(0,0) … (5,0)`; creature 1 is registered
in `(3,0)`, no creature in the other tiles. -/
def duelTiles : List Tile :=
  [⟨0, 0, 0, [], []⟩, ⟨1, 0, 0, [], []⟩, ⟨2, 0, 0, [], []⟩, ⟨3, 0, 0, [], [1]⟩,
    ⟨4, 0, 0, [], []⟩, ⟨5, 0, 0, [], []⟩]

/-- An attacking creature at `(0,0)` with sight radius 7, weapons of range 1
and two destinations in its walk queue. -/
def duellist : Creature :=
  { position := ⟨0, 0, 0⟩, color := 1, sightRadius := 7,
    weaponL := some ⟨1, 2⟩, weaponR := some ⟨1, 3⟩,
    actionQueue := [⟨.attackCreature, some 1⟩, ⟨.idle, none⟩],
    walkQueue := [⟨1, 0, 0⟩, ⟨2, 0, 0⟩] }

/-- The corridor `duelTiles` with the creature `duellist` (creature 0, colour
1) and one enemy (creature 1, colour 2) at `(3,0)`. -/
def duelScene : World where
  tiles := duelTiles
  creatures := [duellist, { position := ⟨3, 0, 0⟩, color := 2, actionQueue := [⟨.idle, none⟩] }]
  me := ⟨0, 1⟩

/-- The collaborators `plainEnv` with a path finder that answers with the
six tiles of the corridor `duelTiles`. -/
def corridorPathEnv : Env := { plainEnv with path := fun _ _ _ _ _ _ => [0, 1, 2, 3, 4, 5] }

/-- The entry `e` of a battle field with one more ally term in front: the
squared distance between the tile of the entry and the tile `allyTile`. -/
def withAlly (allyTile : Tile) (e : (Int × Int) × TileValue) : (Int × Int) × TileValue :=
  (e.1, { e.2 with allyTerms := ((e.1.1 - allyTile.x) ^ 2 + (e.1.2 - allyTile.y) ^ 2) :: e.2.allyTerms })

/-- The scene `duelScene` with an ally of the agent (creature 2, colour 1)
standing in `(5,0)`. -/
def alliedScene : World where
  tiles := [⟨0, 0, 0, [], []⟩, ⟨1, 0, 0, [], []⟩, ⟨2, 0, 0, [], []⟩, ⟨3, 0, 0, [], [1]⟩,
    ⟨4, 0, 0, [], []⟩, ⟨5, 0, 0, [], [2]⟩]
  creatures := [duellist, { position := ⟨3, 0, 0⟩, color := 2, actionQueue := [⟨.idle, none⟩] },
    { position := ⟨5, 0, 0⟩, color := 1, actionQueue := [⟨.idle, none⟩] }]
  me := ⟨0, 1⟩

/-- The corridor with the tile `(3,0)` marked for digging by player 0 and a
digger on `(0,0)` that sees the whole corridor; the marked tile is not a
neighbour of the digger. -/
def farMarkScene : World where
  tiles := [⟨0, 0, 0, [], [0]⟩, ⟨1, 0, 0, [], []⟩, ⟨2, 0, 0, [], []⟩, ⟨3, 0, 10, [0], []⟩,
    ⟨4, 0, 0, [], []⟩]
  creatures := [{ quitter with visibleTiles := [0, 1, 2, 3, 4], walkQueue := [] }]
  me := ⟨0, 1⟩

/-- The collaborators `plainEnv` with a path finder that answers with the
start tile alone. -/
def onePathEnv : Env := { plainEnv with path := fun tiles x y _ _ _ => (getTile tiles x y).toList }

/-! ## The shape of the action queue -/

/-- The action queue reads, from the bottom up: `idle`, then at most one
`digTile`, then at most one `walkToTile`, then at most one `attackCreature`
(the lists are written top first, as the queue is). -/
def stackShape (q : List CreatureAction) : Prop :=
  q.map (fun a => a.type) ∈
    [[.idle], [.digTile, .idle], [.walkToTile, .idle], [.walkToTile, .digTile, .idle],
      [.attackCreature, .idle], [.attackCreature, .digTile, .idle],
      [.attackCreature, .walkToTile, .idle], [.attackCreature, .walkToTile, .digTile, .idle]]

instance (q : List CreatureAction) : Decidable (stackShape q) := by
  unfold stackShape; infer_instance

/-- Every creature of the world has an action queue of the shape
`stackShape`. -/
def allShaped (w : World) : Prop :=
  ∀ (i : Nat) (q : List CreatureAction),
    w.creatures[i]?.map (fun c : Creature => c.actionQueue) = some q → stackShape q

/-- What happens to the creatures between two observations of the world: a
tick of the creature `who` with its collaborators and its bound on the passes
of the loop, or a call of `clearActionQueue` on the creature `who`. -/
inductive Event where
  | tick (who : Nat) (env : Env) (fuel : Nat)
  | clear (who : Nat)

/-- The events of a list applied one after the other. -/
def runEvents : List Event → World → Except Fault World
  | [], w => .ok w
  | .tick who env fuel :: rest, w =>
    match doTurn env fuel w who with
    | .error f => .error f
    | .ok w1 => runEvents rest w1
  | .clear who :: rest, w => runEvents rest (modifyCreature w who clearActionQueue)

/-! ## Rooms (`rooms/Room.cpp`) -/

/-- The collaborators of `Room::updateActiveSpots` whose code is not among
the sources (`GameMap`, the `Tile` class of the room code, `Building`).  A
`Tile*` is a natural number, `nullptr` is `none`.  `getX`, `getY` are
`Tile::getX`, `Tile::getY`; `getTile` is `GameMap::getTile`;
`isWallClaimedForSeat t` is `t->isWallClaimedForSeat(getSeat())` and
`coveredByThis t` is `t->getCoveringBuilding() == this` for the room at
hand. -/
structure RoomMap where
  isServerGameMap : Bool
  getX : Nat → Int
  getY : Nat → Int
  getTile : Int → Int → Option Nat
  isWallClaimedForSeat : Nat → Bool
  coveredByThis : Nat → Bool

/-- The members of `Room` used by `Room::updateActiveSpots`.  The tiles of
`mCoveredTiles` are dereferenced without a test, so they are handles of
tiles; the wall lists can receive the result of `getTile` as it is. -/
structure Room where
  mCoveredTiles : List Nat
  mCentralActiveSpotTiles : List Nat := []
  mLeftWallsActiveSpotTiles : List (Option Nat) := []
  mRightWallsActiveSpotTiles : List (Option Nat) := []
  mTopWallsActiveSpotTiles : List (Option Nat) := []
  mBottomWallsActiveSpotTiles : List (Option Nat) := []
  mNumActiveSpots : Nat := 0
deriving DecidableEq, Repr

/-- The eight flags `foundTop … foundBottom` of lines 231-238. -/
structure Found where
  top : Bool := false
  topLeft : Bool := false
  topRight : Bool := false
  left : Bool := false
  right : Bool := false
  bottomLeft : Bool := false
  bottomRight : Bool := false
  bottom : Bool := false
deriving DecidableEq, Repr

/-- Lines 255-282: the flags after the tile `t2` has been compared with
the tile at `(tileX, tileY)`. -/
def checkOther (m : RoomMap) (tileX tileY : Int) (t2 : Nat) (f : Found) : Found :=
  let tile2X := m.getX t2
  let tile2Y := m.getY t2
  if tile2X = tileX - 1 then
    if tile2Y = tileY + 1 then { f with topLeft := true }
    else if tile2Y = tileY then { f with left := true }
    else if tile2Y = tileY - 1 then { f with bottomLeft := true }
    else f
  else if tile2X = tileX then
    if tile2Y = tileY + 1 then { f with top := true }
    else if tile2Y = tileY - 1 then { f with bottom := true }
    else f
  else if tile2X = tileX + 1 then
    if tile2Y = tileY + 1 then { f with topRight := true }
    else if tile2Y = tileY then { f with right := true }
    else if tile2Y = tileY - 1 then { f with bottomRight := true }
    else f
  else f

/-- The inner loop of lines 244-283 over `mCoveredTiles[j]`: the tile
itself and the tiles that are already central spots are skipped. -/
def scanOthers (m : RoomMap) (central : List Nat) (tile : Nat) (tileX tileY : Int) :
    List Nat → Found → Found
  | [], f => f
  | t2 :: rest, f =>
    if tile = t2 then scanOthers m central tile tileX tileY rest f
    else if t2 ∈ central then scanOthers m central tile tileX tileY rest f
    else scanOthers m central tile tileX tileY rest (checkOther m tileX tileY t2 f)

/-- The test of lines 286-287. -/
def Found.all (f : Found) : Bool :=
  f.top && f.topLeft && f.topRight && f.left && f.right && f.bottomLeft && f.bottomRight
    && f.bottom

/-- The outer loop of lines 229-291 over `mCoveredTiles[i]`, with the
central spots found so far. -/
def detectCentres (m : RoomMap) (covered : List Nat) : List Nat → List Nat → List Nat
  | [], central => central
  | tile :: rest, central =>
    let f := scanOthers m central tile (m.getX tile) (m.getY tile) covered {}
    if f.all then detectCentres m covered rest (central ++ [tile])
    else detectCentres m covered rest central

/-- The test `testTile != nullptr && testTile->isWallClaimedForSeat(getSeat())`. -/
def wallAt (m : RoomMap) (x y : Int) : Bool :=
  match m.getTile x y with
  | none => false
  | some testTile => m.isWallClaimedForSeat testTile

/-- The loop `for(int k = 0; k < 3; ++k)` of the tests for a room four tiles
wide: `pos k` are the coordinates looked at in round `k`; the value is
`isFound`. -/
def threeCovered (m : RoomMap) (pos : Int → Int × Int) : Bool :=
  [0, 1, 2].all fun k =>
    match m.getTile (pos k).1 (pos k).2 with
    | none => false
    | some testTile2 => m.coveredByThis testTile2

/-- One of the four blocks of lines 301-420 for a central tile at `(x, y)`
and the direction `(dx, dy)`: the wall spots it appends.  `row k` are the
coordinates tested in round `k` of its inner loop. -/
def wallSpots (m : RoomMap) (x y dx dy : Int) (row : Int → Int × Int) : List (Option Nat) :=
  let near : List (Option Nat) :=
    if wallAt m (x + 2 * dx) (y + 2 * dy) then
      match m.getTile (x + dx) (y + dy) with
      | none => []
      | some t => [some t]
    else []
  let far : List (Option Nat) :=
    if wallAt m (x + 3 * dx) (y + 3 * dy) then
      if threeCovered m row then [m.getTile (x + 2 * dx) (y + 2 * dy)] else []
    else []
  near ++ far

/-- The wall spots of one direction for all central tiles (lines 294-421). -/
def wallsOf (m : RoomMap) (central : List Nat) (dx dy : Int)
    (row : Int → Int → Int → Int × Int) : List (Option Nat) :=
  central.flatMap fun centerTile =>
    wallSpots m (m.getX centerTile) (m.getY centerTile) dx dy
      (row (m.getX centerTile) (m.getY centerTile))

/-- `Room::updateActiveSpots` (lines 215-439).  The calls of
`activeSpotCheckChange` create and remove building objects and do not touch
the members modelled here; they are left out. -/
def updateActiveSpots (m : RoomMap) (r : Room) : Room :=
  if !m.isServerGameMap then r
  else
    let centralActiveSpotTiles := detectCentres m r.mCoveredTiles r.mCoveredTiles []
    let topWallsActiveSpotTiles :=
      wallsOf m centralActiveSpotTiles 0 1 fun x y k => (x + k - 1, y + 2)
    let bottomWallsActiveSpotTiles :=
      wallsOf m centralActiveSpotTiles 0 (-1) fun x y k => (x + k - 1, y - 2)
    let leftWallsActiveSpotTiles :=
      wallsOf m centralActiveSpotTiles (-1) 0 fun x y k => (x - 2, y + k - 1)
    let rightWallsActiveSpotTiles :=
      wallsOf m centralActiveSpotTiles 1 0 fun x y k => (x + 2, y + k - 1)
    { r with
      mCentralActiveSpotTiles := centralActiveSpotTiles,
      mLeftWallsActiveSpotTiles := leftWallsActiveSpotTiles,
      mRightWallsActiveSpotTiles := rightWallsActiveSpotTiles,
      mTopWallsActiveSpotTiles := topWallsActiveSpotTiles,
      mBottomWallsActiveSpotTiles := bottomWallsActiveSpotTiles,
      mNumActiveSpots := centralActiveSpotTiles.length + leftWallsActiveSpotTiles.length
        + rightWallsActiveSpotTiles.length + topWallsActiveSpotTiles.length
        + bottomWallsActiveSpotTiles.length }

/-- Among the tiles of `l` there is one, other than `tile` and not a central
spot, at the coordinates `(x, y)`. -/
def otherAt (m : RoomMap) (central : List Nat) (tile : Nat) (l : List Nat) (x y : Int) : Prop :=
  ∃ t2 ∈ l, tile ≠ t2 ∧ t2 ∉ central ∧ m.getX t2 = x ∧ m.getY t2 = y

/-- The tiles `a` and `b` are next to one another, horizontally, vertically
or diagonally, or at the same place. -/
def nextTo (m : RoomMap) (a b : Nat) : Prop :=
  -1 ≤ m.getX a - m.getX b ∧ m.getX a - m.getX b ≤ 1 ∧
    -1 ≤ m.getY a - m.getY b ∧ m.getY a - m.getY b ≤ 1

/-- A server map of 8 x 8 tiles with the coordinates `(-2,-2) … (5,5)`; the
tile at `(x, y)` has the handle `(x + 2) + 8 * (y + 2)`.  The tiles with
`0 ≤ x ≤ 3` and `0 ≤ y ≤ 2` are covered by the room, all others are walls
claimed for its seat. -/
def hallMap : RoomMap where
  isServerGameMap := true
  getX := fun t => (t % 8 : Nat) - 2
  getY := fun t => (t / 8 : Nat) - 2
  getTile := fun x y =>
    if -2 ≤ x ∧ x ≤ 5 ∧ -2 ≤ y ∧ y ≤ 5 then some ((x + 2) + 8 * (y + 2)).toNat else none
  isWallClaimedForSeat := fun t =>
    !(decide (2 ≤ t % 8 ∧ t % 8 ≤ 5 ∧ 2 ≤ t / 8 ∧ t / 8 ≤ 4))
  coveredByThis := fun t => decide (2 ≤ t % 8 ∧ t % 8 ≤ 5 ∧ 2 ≤ t / 8 ∧ t / 8 ≤ 4)

/-- The room of 4 x 3 tiles on `hallMap`, its tiles listed row by row. -/
def hall : Room :=
  { mCoveredTiles := [18, 19, 20, 21, 26, 27, 28, 29, 34, 35, 36, 37] }

/-! ## Lemmas on the rounding of doubles -/

theorem roundHalfEven_bounds (m : ℚ) : ⌊m⌋ ≤ roundHalfEven m ∧ roundHalfEven m ≤ ⌊m⌋ + 1 ∧
    (roundHalfEven m = ⌊m⌋ + 1 → (1 : ℚ) / 2 ≤ m - ⌊m⌋) := by
  unfold roundHalfEven
  dsimp only
  split_ifs with h1 h2 h3
  · exact ⟨le_refl _, by omega, fun h => by omega⟩
  · exact ⟨by omega, le_refl _, fun _ => le_of_lt h2⟩
  · exact ⟨le_refl _, by omega, fun h => by omega⟩
  · exact ⟨by omega, le_refl _, fun _ => not_lt.1 h1⟩

theorem roundHalfEven_intCast (n : Int) : roundHalfEven (n : ℚ) = n := by
  unfold roundHalfEven
  simp

theorem roundHalfEven_le_of_le {m : ℚ} {n : Int} (h : m ≤ n) : roundHalfEven m ≤ n := by
  obtain ⟨_, h2, h3⟩ := roundHalfEven_bounds m
  have hf : ⌊m⌋ ≤ n := by exact_mod_cast le_trans (Int.floor_le m) h
  rcases lt_or_eq_of_le hf with hlt | heq
  · omega
  · by_contra hgt
    have he : roundHalfEven m = ⌊m⌋ + 1 := by omega
    have := h3 he
    have hm : m ≤ (⌊m⌋ : ℚ) := by rw [heq]; exact h
    linarith

theorem roundHalfEven_ge_of_ge {m : ℚ} {n : Int} (h : (n : ℚ) ≤ m) : n ≤ roundHalfEven m :=
  le_trans (Int.le_floor.2 h) (roundHalfEven_bounds m).1

theorem roundHalfEven_mono {a b : ℚ} (h : a ≤ b) : roundHalfEven a ≤ roundHalfEven b := by
  have hf : ⌊a⌋ ≤ ⌊b⌋ := Int.floor_mono h
  obtain ⟨a1, a2, _⟩ := roundHalfEven_bounds a
  obtain ⟨b1, b2, _⟩ := roundHalfEven_bounds b
  rcases lt_or_eq_of_le hf with hlt | heq
  · omega
  · have hfr : a - ⌊a⌋ ≤ b - ⌊b⌋ := by rw [heq]; linarith
    unfold roundHalfEven
    dsimp only
    rw [heq] at hfr ⊢
    split_ifs <;> first | omega | (exfalso; linarith)

theorem twoPow_eq (z : Int) : twoPow z = (2 : ℚ) ^ z := by
  unfold twoPow
  split_ifs with h
  · obtain ⟨n, rfl⟩ := Int.eq_ofNat_of_zero_le h
    simp
  · obtain ⟨n, hn⟩ := Int.eq_ofNat_of_zero_le (show 0 ≤ -z by omega)
    have hz : z = -(n : Int) := by omega
    subst hz
    simp

theorem twoPow_pos (z : Int) : 0 < twoPow z := by
  rw [twoPow_eq]
  positivity

theorem twoPow_add (a b : Int) : twoPow (a + b) = twoPow a * twoPow b := by
  simp only [twoPow_eq]
  exact zpow_add₀ (by norm_num) a b

theorem twoPow_le {a b : Int} (h : a ≤ b) : twoPow a ≤ twoPow b := by
  simp only [twoPow_eq]
  exact zpow_le_zpow_right₀ (by norm_num) h

theorem roundMagnitude_zero : roundMagnitude 0 = 0 := by
  unfold roundMagnitude
  simp [roundHalfEven]

theorem roundMagnitude_nonneg {a : ℚ} (h : 0 ≤ a) : 0 ≤ roundMagnitude a := by
  unfold roundMagnitude
  dsimp only
  have hu := twoPow_pos (max (Int.log 2 a) (-1022) - 52)
  have h0 : (0 : Int) ≤ roundHalfEven (a / twoPow (max (Int.log 2 a) (-1022) - 52)) :=
    roundHalfEven_ge_of_ge (by simpa using div_nonneg h (le_of_lt hu))
  have h1 : (0 : ℚ) ≤ (roundHalfEven (a / twoPow (max (Int.log 2 a) (-1022) - 52)) : ℚ) := by
    exact_mod_cast h0
  exact mul_nonneg h1 (le_of_lt hu)

/-- A positive rational rounds to no more than the power of two above it. -/
theorem roundMagnitude_le_pow (a : ℚ) :
    roundMagnitude a ≤ twoPow (max (Int.log 2 a) (-1022) + 1) := by
  unfold roundMagnitude
  dsimp only
  generalize he : max (Int.log 2 a) (-1022) = e
  have hu := twoPow_pos (e - 52)
  have hlt : a < twoPow (e + 1) := by
    have h1 : a < (2 : ℚ) ^ (Int.log 2 a + 1) := by
      exact_mod_cast Int.lt_zpow_succ_log_self (by norm_num : 1 < 2) a
    rw [← twoPow_eq] at h1
    exact lt_of_lt_of_le h1 (twoPow_le (by rw [← he]; have := le_max_left (Int.log 2 a) (-1022); omega))
  have hsplit : twoPow (e + 1) = twoPow 53 * twoPow (e - 52) := by
    rw [← twoPow_add]
    congr 1
    omega
  have h53 : twoPow 53 = ((9007199254740992 : Int) : ℚ) := by
    rw [twoPow_eq]
    norm_num
  have hq : a / twoPow (e - 52) ≤ ((9007199254740992 : Int) : ℚ) := by
    rw [div_le_iff₀ hu, ← h53, ← hsplit]
    exact le_of_lt hlt
  have hr : (roundHalfEven (a / twoPow (e - 52)) : ℚ) ≤ ((9007199254740992 : Int) : ℚ) := by
    exact_mod_cast roundHalfEven_le_of_le hq
  rw [hsplit, h53]
  exact mul_le_mul_of_nonneg_right hr (le_of_lt hu)

/-- A rational at or above the smallest normal double rounds to no less than
the power of two below it. -/
theorem pow_le_roundMagnitude {a : ℚ} (ha : 0 < a) (hn : -1022 ≤ Int.log 2 a) :
    twoPow (Int.log 2 a) ≤ roundMagnitude a := by
  unfold roundMagnitude
  dsimp only
  rw [max_eq_left hn]
  generalize he : Int.log 2 a = e
  have hu := twoPow_pos (e - 52)
  have hle : twoPow e ≤ a := by
    have h1 : (2 : ℚ) ^ (Int.log 2 a) ≤ a := by
      exact_mod_cast Int.zpow_log_le_self (by norm_num : 1 < 2) ha
    rw [← twoPow_eq, he] at h1
    exact h1
  have hsplit : twoPow e = twoPow 52 * twoPow (e - 52) := by
    rw [← twoPow_add]
    congr 1
    omega
  have h52 : twoPow 52 = ((4503599627370496 : Int) : ℚ) := by
    rw [twoPow_eq]
    norm_num
  have hq : ((4503599627370496 : Int) : ℚ) ≤ a / twoPow (e - 52) := by
    rw [le_div_iff₀ hu, ← h52, ← hsplit]
    exact hle
  have hr : ((4503599627370496 : Int) : ℚ) ≤ (roundHalfEven (a / twoPow (e - 52)) : ℚ) := by
    exact_mod_cast roundHalfEven_ge_of_ge hq
  rw [hsplit, h52]
  exact mul_le_mul_of_nonneg_right hr (le_of_lt hu)

theorem roundMagnitude_mono {a b : ℚ} (ha : 0 ≤ a) (h : a ≤ b) :
    roundMagnitude a ≤ roundMagnitude b := by
  rcases eq_or_lt_of_le ha with h0 | hpos
  · rw [← h0, roundMagnitude_zero]
    exact roundMagnitude_nonneg (le_trans ha h)
  · have hlog : Int.log 2 a ≤ Int.log 2 b := Int.log_mono_right hpos h
    rcases lt_or_eq_of_le (max_le_max hlog (le_refl (-1022 : Int))) with hlt | heq
    · have hb : -1022 ≤ Int.log 2 b := by
        by_contra hc
        rw [max_eq_right (by omega : Int.log 2 b ≤ -1022)] at hlt
        have := le_max_right (Int.log 2 a) (-1022)
        omega
      have hlt2 : max (Int.log 2 a) (-1022) + 1 ≤ Int.log 2 b := by
        rw [max_eq_left hb] at hlt
        omega
      exact le_trans (roundMagnitude_le_pow a)
        (le_trans (twoPow_le hlt2) (pow_le_roundMagnitude (lt_of_lt_of_le hpos h) hb))
    · unfold roundMagnitude
      dsimp only
      rw [heq]
      have hu := twoPow_pos (max (Int.log 2 b) (-1022) - 52)
      have hr : (roundHalfEven (a / twoPow (max (Int.log 2 b) (-1022) - 52)) : ℚ) ≤
          (roundHalfEven (b / twoPow (max (Int.log 2 b) (-1022) - 52)) : ℚ) := by
        exact_mod_cast roundHalfEven_mono (div_le_div_of_nonneg_right h (le_of_lt hu))
      exact mul_le_mul_of_nonneg_right hr (le_of_lt hu)

theorem roundDouble_nonneg {q : ℚ} (h : 0 ≤ q) : 0 ≤ roundDouble q := by
  unfold roundDouble
  rw [if_neg (not_lt.2 h)]
  exact roundMagnitude_nonneg h

theorem roundDouble_nonpos {q : ℚ} (h : q ≤ 0) : roundDouble q ≤ 0 := by
  unfold roundDouble
  split_ifs with hq
  · have := roundMagnitude_nonneg (show (0 : ℚ) ≤ -q by linarith)
    linarith
  · have h0 : q = 0 := le_antisymm h (not_lt.1 hq)
    rw [h0, roundMagnitude_zero]

/-- Rounding to the nearest double keeps the order. -/
theorem roundDouble_mono {a b : ℚ} (h : a ≤ b) : roundDouble a ≤ roundDouble b := by
  rcases lt_or_le a 0 with ha | ha
  · rcases lt_or_le b 0 with hb | hb
    · unfold roundDouble
      rw [if_pos ha, if_pos hb]
      have := roundMagnitude_mono (show (0 : ℚ) ≤ -b by linarith) (show -b ≤ -a by linarith)
      linarith
    · exact le_trans (roundDouble_nonpos (le_of_lt ha)) (roundDouble_nonneg hb)
  · unfold roundDouble
    rw [if_neg (not_lt.2 ha), if_neg (not_lt.2 (le_trans ha h))]
    exact roundMagnitude_mono ha h

/-- An integer of at most 53 bits is a double. -/
theorem roundMagnitude_natCast (n : Nat) (h : n ≤ 9007199254740992) :
    roundMagnitude (n : ℚ) = n := by
  rcases Nat.eq_zero_or_pos n with h0 | hpos
  · subst h0
    simpa using roundMagnitude_zero
  · unfold roundMagnitude
    dsimp only
    have hlog : Int.log 2 (n : ℚ) = (Nat.log 2 n : Int) := Int.log_natCast 2 n
    have hl : Nat.log 2 n ≤ 53 := by
      by_contra hc
      have h1 : 2 ^ 54 ≤ n := by
        have := Nat.pow_log_le_self 2 (Nat.pos_iff_ne_zero.1 hpos)
        exact le_trans (Nat.pow_le_pow_right (by norm_num) (by omega)) this
      omega
    rw [hlog, max_eq_left (by omega)]
    rcases Nat.lt_or_ge (Nat.log 2 n) 53 with hlt | hge
    · obtain ⟨k, hk⟩ : ∃ k : Nat, (Nat.log 2 n : Int) - 52 = -(k : Int) := ⟨52 - Nat.log 2 n, by omega⟩
      have hu := twoPow_pos (-(k : Int))
      have hinv : twoPow (-(k : Int)) * ((2 ^ k : Nat) : ℚ) = 1 := by
        have : ((2 ^ k : Nat) : ℚ) = twoPow (k : Int) := by
          rw [twoPow_eq]
          simp
        rw [this, ← twoPow_add]
        simp [twoPow]
      have hdiv : (n : ℚ) / twoPow (-(k : Int)) = (((n * 2 ^ k : Nat) : Int) : ℚ) := by
        rw [div_eq_iff (ne_of_gt hu)]
        push_cast
        push_cast at hinv
        rw [mul_assoc, mul_comm ((2 : ℚ) ^ k), hinv, mul_one]
      rw [hk, hdiv, roundHalfEven_intCast]
      push_cast
      push_cast at hinv
      rw [mul_assoc, mul_comm ((2 : ℚ) ^ k), hinv, mul_one]
    · have h53 : Nat.log 2 n = 53 := by omega
      have hn : n = 9007199254740992 := by
        have := Nat.pow_log_le_self 2 (Nat.pos_iff_ne_zero.1 hpos)
        rw [h53] at this
        omega
      rw [h53, hn]
      have h1 : twoPow (((53 : Nat) : Int) - 52) = 2 := by
        rw [twoPow_eq]
        norm_num
      rw [h1]
      have h2 : ((9007199254740992 : Nat) : ℚ) / 2 = ((4503599627370496 : Int) : ℚ) := by
        norm_num
      rw [h2, roundHalfEven_intCast]
      norm_num

theorem roundDouble_intCast (n : Int) (h : n.natAbs ≤ 9007199254740992) :
    roundDouble (n : ℚ) = n := by
  unfold roundDouble
  split_ifs with hn
  · have hneg : n < 0 := by exact_mod_cast hn
    have hc : -(n : ℚ) = ((n.natAbs : Nat) : ℚ) := by
      have h1 : ((n.natAbs : Nat) : Int) = -n := by omega
      rw [← Int.cast_natCast, h1, Int.cast_neg]
    rw [hc, roundMagnitude_natCast _ h, ← hc]
    ring
  · have hpos : 0 ≤ n := by exact_mod_cast not_lt.1 hn
    have hc : (n : ℚ) = ((n.natAbs : Nat) : ℚ) := by
      have h1 : ((n.natAbs : Nat) : Int) = n := by omega
      rw [← Int.cast_natCast, h1]
    rw [hc, roundMagnitude_natCast _ h]

/-- An integer of at most 53 bits whose double lies below the double of a
rational lies below the rational. -/
theorem lt_of_roundDouble_lt {n : Int} {q : ℚ} (h : roundDouble (n : ℚ) < roundDouble q) :
    (n : ℚ) < q := by
  by_contra hc
  exact absurd (roundDouble_mono (not_lt.1 hc)) (not_le.2 h)

/-- A number with a significand of 53 bits and an exponent in the range of
the normal doubles is a double. -/
theorem roundMagnitude_normal (m : Nat) (e : Int) (h1 : 4503599627370496 ≤ m)
    (h2 : m < 9007199254740992) (he : -1074 ≤ e) :
    roundMagnitude ((m : ℚ) * twoPow e) = (m : ℚ) * twoPow e := by
  have hu := twoPow_pos e
  have hm : (0 : ℚ) < (m : ℚ) := by exact_mod_cast (by omega : 0 < m)
  have hpos : 0 < (m : ℚ) * twoPow e := mul_pos hm hu
  have h52 : twoPow 52 = 4503599627370496 := by
    rw [twoPow_eq]
    norm_num
  have h53 : twoPow 53 = 9007199254740992 := by
    rw [twoPow_eq]
    norm_num
  have hlo : ((2 : Nat) : ℚ) ^ (e + 52) ≤ (m : ℚ) * twoPow e := by
    have e1 : ((2 : Nat) : ℚ) ^ (e + 52) = twoPow 52 * twoPow e := by
      rw [← twoPow_add, twoPow_eq]
      norm_num [add_comm]
    rw [e1, h52]
    exact mul_le_mul_of_nonneg_right (by exact_mod_cast h1) (le_of_lt hu)
  have hhi : (m : ℚ) * twoPow e < ((2 : Nat) : ℚ) ^ (e + 53) := by
    have e1 : ((2 : Nat) : ℚ) ^ (e + 53) = twoPow 53 * twoPow e := by
      rw [← twoPow_add, twoPow_eq]
      norm_num [add_comm]
    rw [e1, h53]
    exact mul_lt_mul_of_pos_right (by exact_mod_cast h2) hu
  have hlog : Int.log 2 ((m : ℚ) * twoPow e) = e + 52 := by
    have a1 := (Int.zpow_le_iff_le_log (by norm_num : 1 < 2) hpos).1 hlo
    have a2 := (Int.lt_zpow_iff_log_lt (by norm_num : 1 < 2) hpos).1 hhi
    omega
  unfold roundMagnitude
  dsimp only
  rw [hlog, max_eq_left (by omega), show e + 52 - 52 = e by ring,
    mul_div_assoc, div_self (ne_of_gt hu), mul_one]
  have hc : (m : ℚ) = ((m : Int) : ℚ) := by norm_cast
  rw [hc, roundHalfEven_intCast]

theorem roundDouble_normal (m : Nat) (e : Int) (h1 : 4503599627370496 ≤ m)
    (h2 : m < 9007199254740992) (he : -1074 ≤ e) :
    roundDouble ((m : ℚ) * twoPow e) = (m : ℚ) * twoPow e := by
  have hpos : 0 ≤ (m : ℚ) * twoPow e :=
    mul_nonneg (Nat.cast_nonneg m) (le_of_lt (twoPow_pos e))
  unfold roundDouble
  rw [if_neg (not_lt.2 hpos)]
  exact roundMagnitude_normal m e h1 h2 he

/-! ## Lemmas on the tile lookup and on visibility -/

theorem getTileFrom_some {ts : List Tile} {k n : Nat} {x y : Int}
    (h : getTileFrom ts k x y = some n) :
    k ≤ n ∧ ∃ tile, ts[n - k]? = some tile ∧ tile.x = x ∧ tile.y = y := by
  induction ts generalizing k with
  | nil => simp [getTileFrom] at h
  | cons t ts ih =>
    unfold getTileFrom at h
    split at h
    · next hc =>
      cases h
      exact ⟨le_refl _, t, by simp, hc.1, hc.2⟩
    · obtain ⟨hk, tile, ht, hx, hy⟩ := ih h
      refine ⟨by omega, tile, ?_, hx, hy⟩
      have e : n - k = (n - (k + 1)) + 1 := by omega
      rw [e]
      simpa using ht

theorem getTile_some {tiles : List Tile} {n : Nat} {x y : Int} (h : getTile tiles x y = some n) :
    ∃ tile, tiles[n]? = some tile ∧ tile.x = x ∧ tile.y = y := by
  obtain ⟨_, tile, ht, hx, hy⟩ := getTileFrom_some h
  exact ⟨tile, by simpa using ht, hx, hy⟩

theorem addIfVisible_mem {env : Env} {tiles : List Tile} {xb yb xl yl : Int} {vis : List Nat}
    {t : Nat} (h : t ∈ addIfVisible env tiles xb yb xl yl vis) :
    t ∈ vis ∨ (getTile tiles xl yl = some t ∧
      env.pathIsClear tiles (env.lineOfSight tiles xb yb xl yl) .flyableTile = true) := by
  unfold addIfVisible at h
  split at h
  · exact Or.inl h
  · next t' ht' =>
    split at h
    · next hc =>
      rcases List.mem_append.1 h with h | h
      · exact Or.inl h
      · simp at h
        subst h
        exact Or.inr ⟨ht', hc⟩
    · exact Or.inl h

theorem seenFrom_of_offset {env : Env} {tiles : List Tile} {r : ℚ} {xb yb xl yl : Int} {t : Nat}
    (hne : xl - xb ≠ 0 ∨ yl - yb ≠ 0)
    (hd : (((xl - xb) * (xl - xb) + (yl - yb) * (yl - yb) : Int) : ℚ) < r * r)
    (h : getTile tiles xl yl = some t ∧
      env.pathIsClear tiles (env.lineOfSight tiles xb yb xl yl) .flyableTile = true) :
    seenFrom env tiles r xb yb t := by
  refine ⟨xl - xb, yl - yb, hne, hd, ?_, ?_⟩
  · rw [add_sub_cancel, add_sub_cancel]; exact h.1
  · rw [add_sub_cancel, add_sub_cancel]; exact h.2

theorem axisRays_mem {env : Env} {tiles : List Tile} {r : ℚ} {xb yb : Int} {t : Nat} :
    ∀ (fuel : Nat) (i : Int) (vis : List Nat), 1 ≤ i →
      t ∈ axisRays env tiles r xb yb fuel i vis → t ∈ vis ∨ seenFrom env tiles r xb yb t := by
  intro fuel
  induction fuel with
  | zero => intro i vis _ h; exact Or.inl (by simpa [axisRays] using h)
  | succ fuel ih =>
    intro i vis hi h
    unfold axisRays at h
    split at h
    · next hlt =>
      have hi0 : (0 : ℚ) < (i : ℚ) := by exact_mod_cast (by omega : 0 < i)
      have hsq : (i : ℚ) * i < r * r := by nlinarith
      have hne : i ≠ 0 := by omega
      rcases ih (i + 1) _ (by omega) h with h | h
      · rcases addIfVisible_mem h with h | h
        · rcases addIfVisible_mem h with h | h
          · rcases addIfVisible_mem h with h | h
            · rcases addIfVisible_mem h with h | h
              · exact Or.inl h
              · refine Or.inr (seenFrom_of_offset (Or.inl (by omega)) ?_ h)
                have e : (xb + i - xb) * (xb + i - xb) + (yb - yb) * (yb - yb) = i * i := by ring
                rw [e]; push_cast; exact hsq
            · refine Or.inr (seenFrom_of_offset (Or.inl (by omega)) ?_ h)
              have e : (xb - i - xb) * (xb - i - xb) + (yb - yb) * (yb - yb) = i * i := by ring
              rw [e]; push_cast; exact hsq
          · refine Or.inr (seenFrom_of_offset (Or.inr (by omega)) ?_ h)
            have e : (xb - xb) * (xb - xb) + (yb + i - yb) * (yb + i - yb) = i * i := by ring
            rw [e]; push_cast; exact hsq
        · refine Or.inr (seenFrom_of_offset (Or.inr (by omega)) ?_ h)
          have e : (xb - xb) * (xb - xb) + (yb - i - yb) * (yb - i - yb) = i * i := by ring
          rw [e]; push_cast; exact hsq
      · exact Or.inr h
    · exact Or.inl h

theorem sectorRow_mem {env : Env} {tiles : List Tile} {r : ℚ} {xb yb i : Int} {t : Nat}
    (hi : 1 ≤ i) :
    ∀ (fuel : Nat) (j : Int) (vis : List Nat),
      t ∈ sectorRow env tiles r xb yb i fuel j vis → t ∈ vis ∨ seenFrom env tiles r xb yb t := by
  intro fuel
  induction fuel with
  | zero => intro j vis h; exact Or.inl (by simpa [sectorRow] using h)
  | succ fuel ih =>
    intro j vis h
    unfold sectorRow at h
    split at h
    · split at h
      · next hd =>
        rcases ih (j + 1) _ h with h | h
        · rcases addIfVisible_mem h with h | h
          · rcases addIfVisible_mem h with h | h
            · rcases addIfVisible_mem h with h | h
              · rcases addIfVisible_mem h with h | h
                · exact Or.inl h
                · refine Or.inr (seenFrom_of_offset (Or.inl (by omega)) ?_ h)
                  have e : (xb + i - xb) * (xb + i - xb) + (yb + j - yb) * (yb + j - yb)
                      = i * i + j * j := by ring
                  rw [e]; exact lt_of_roundDouble_lt hd
              · refine Or.inr (seenFrom_of_offset (Or.inl (by omega)) ?_ h)
                have e : (xb + i - xb) * (xb + i - xb) + (yb - j - yb) * (yb - j - yb)
                    = i * i + j * j := by ring
                rw [e]; exact lt_of_roundDouble_lt hd
            · refine Or.inr (seenFrom_of_offset (Or.inl (by omega)) ?_ h)
              have e : (xb - i - xb) * (xb - i - xb) + (yb + j - yb) * (yb + j - yb)
                  = i * i + j * j := by ring
              rw [e]; exact lt_of_roundDouble_lt hd
          · refine Or.inr (seenFrom_of_offset (Or.inl (by omega)) ?_ h)
            have e : (xb - i - xb) * (xb - i - xb) + (yb - j - yb) * (yb - j - yb)
                = i * i + j * j := by ring
            rw [e]; exact lt_of_roundDouble_lt hd
        · exact Or.inr h
      · exact ih _ _ h
    · exact Or.inl h

theorem sectors_mem {env : Env} {tiles : List Tile} {r : ℚ} {xb yb : Int} {t : Nat} :
    ∀ (fuel : Nat) (i : Int) (vis : List Nat), 1 ≤ i →
      t ∈ sectors env tiles r xb yb fuel i vis → t ∈ vis ∨ seenFrom env tiles r xb yb t := by
  intro fuel
  induction fuel with
  | zero => intro i vis _ h; exact Or.inl (by simpa [sectors] using h)
  | succ fuel ih =>
    intro i vis hi h
    unfold sectors at h
    split at h
    · rcases ih (i + 1) _ (by omega) h with h | h
      · exact sectorRow_mem hi _ _ _ h
      · exact Or.inr h
    · exact Or.inl h

/-- Every tile in the result of `updateVisibleTiles` is the position tile or
is seen from it. -/
theorem updateVisibleTiles_mem {env : Env} {w : World} {c : Creature} {p : Nat} {origin : Tile}
    {vis : List Nat} (hp : positionTile w c = some p) (ho : w.tiles[p]? = some origin)
    (h : updateVisibleTiles env w c = .ok vis) {t : Nat} (ht : t ∈ vis) :
    t = p ∨ seenFrom env w.tiles c.sightRadius origin.x origin.y t := by
  unfold updateVisibleTiles at h
  rw [hp] at h
  simp only [ho] at h
  cases h
  rcases sectors_mem _ _ _ (le_refl _) ht with h | h
  · rcases axisRays_mem _ _ _ (le_refl _) h with h | h
    · simp at h; exact Or.inl h
    · exact Or.inr h
  · exact Or.inr h

theorem updateVisibleTiles_ok (env : Env) {w : World} {c : Creature} {p : Nat}
    (hp : positionTile w c = some p) : ∃ vis, updateVisibleTiles env w c = .ok vis := by
  obtain ⟨tile, ht, _, _⟩ := getTile_some hp
  unfold updateVisibleTiles
  rw [hp]
  simp only [ht]
  exact ⟨_, rfl⟩

/-! ## Lemmas on the action queue -/

theorem bottomIdle_cons {a : CreatureAction} {q : List CreatureAction} (h : bottomIdle q) :
    bottomIdle (a :: q) := by
  unfold bottomIdle at *
  cases q with
  | nil => simp at h
  | cons b q => simpa [List.getLast?_cons_cons] using h

theorem bottomIdle_tail {a : CreatureAction} {q : List CreatureAction} (h : bottomIdle (a :: q))
    (ha : a.type ≠ .idle) : bottomIdle q := by
  unfold bottomIdle at *
  cases q with
  | nil => simp at h; exact absurd h ha
  | cons b q => simpa [List.getLast?_cons_cons] using h

theorem bottomIdle_step {q q' : List CreatureAction} (h : bottomIdle q) (s : StackStep q q') :
    bottomIdle q' := by
  rcases s with s | ⟨a, s⟩ | ⟨a, rest, hq, ha, s | ⟨b, s⟩⟩
  · rw [s]; exact h
  · rw [s]; exact bottomIdle_cons h
  · rw [s]; rw [hq] at h; exact bottomIdle_tail h ha
  · rw [s]; rw [hq] at h; exact bottomIdle_cons (bottomIdle_tail h ha)

theorem getElem?_updateAt {α : Type} (f : α → α) :
    ∀ (l : List α) (i j : Nat), (updateAt f l i)[j]? = if j = i then l[j]?.map f else l[j]? := by
  intro l
  induction l with
  | nil => intro i j; simp [updateAt]
  | cons a l ih =>
    intro i j
    cases i with
    | zero =>
      cases j with
      | zero => simp [updateAt]
      | succ j => simp [updateAt]
    | succ i =>
      cases j with
      | zero => simp [updateAt]
      | succ j => simp [updateAt, ih]

theorem length_updateAt {α : Type} (f : α → α) :
    ∀ (l : List α) (i : Nat), (updateAt f l i).length = l.length := by
  intro l
  induction l with
  | nil => intro i; simp [updateAt]
  | cons a l ih =>
    intro i
    cases i with
    | zero => simp [updateAt]
    | succ i => simp [updateAt, ih]

theorem creatureOf_ok {w : World} {i : Nat} {c : Creature} (h : creatureOf w i = .ok c) :
    w.creatures[i]? = some c := by
  unfold creatureOf at h
  split at h
  · next c' hc => cases h; exact hc
  · cases h

theorem tileOf_ok {w : World} {t : Nat} {tile : Tile} (h : tileOf w t = .ok tile) :
    w.tiles[t]? = some tile := by
  unfold tileOf at h
  split at h
  · next c' hc => cases h; exact hc
  · cases h

theorem addDestinations_fields {w : World} :
    ∀ (ts : List Nat) (c c' : Creature), addDestinations w c ts = .ok c' →
      c'.actionQueue = c.actionQueue ∧ c'.visibleTiles = c.visibleTiles ∧
      c'.hp = c.hp ∧ c'.battleField = c.battleField := by
  intro ts
  induction ts with
  | nil => intro c c' h; simp [addDestinations] at h; subst h; simp
  | cons t ts ih =>
    intro c c' h
    unfold addDestinations at h
    split at h
    · cases h
    · have := ih _ _ h
      simpa [addDestination] using this

theorem idleBranch_step {env : Env} {w w1 : World} {c c1 : Creature} {r : ℚ} {lb : Bool}
    (h : idleBranch env w c r = .ok (w1, c1, lb)) :
    StackStep c.actionQueue c1.actionQueue ∧ w1.creatures = w.creatures ∧ w1.tiles = w.tiles := by
  unfold idleBranch at h
  split at h
  · cases h; exact ⟨Or.inr (Or.inl ⟨_, rfl⟩), rfl, rfl⟩
  · split at h
    · split at h
      · cases h; exact ⟨Or.inr (Or.inl ⟨_, rfl⟩), rfl, rfl⟩
      · split at h
        · cases h
        · dsimp only at h
          split at h
          · split at h
            · cases h
            · next c2 hc2 =>
              cases h
              exact ⟨Or.inr (Or.inl ⟨_, (addDestinations_fields _ _ _ hc2).1⟩), rfl, rfl⟩
          · cases h; exact ⟨Or.inr (Or.inl ⟨_, rfl⟩), rfl, rfl⟩
    · cases h; exact ⟨Or.inl rfl, rfl, rfl⟩

theorem abortOnStaleGoal_fields (env : Env) (w : World) (c : Creature) :
    (abortOnStaleGoal env w c).actionQueue = c.actionQueue ∧
    (abortOnStaleGoal env w c = c ∨ abortOnStaleGoal env w c = clearDestinations c) := by
  unfold abortOnStaleGoal
  dsimp only
  split
  · exact ⟨rfl, Or.inl rfl⟩
  · split
    · split
      · exact ⟨rfl, Or.inr rfl⟩
      · exact ⟨rfl, Or.inl rfl⟩
    · exact ⟨rfl, Or.inl rfl⟩

theorem walkToTileBranch_step {env : Env} {w w1 : World} {c c1 : Creature} {lb : Bool}
    {a : CreatureAction} {rest : List CreatureAction} (hq : c.actionQueue = a :: rest)
    (ha : a.type ≠ .idle) (h : walkToTileBranch env w c = .ok (w1, c1, lb)) :
    StackStep c.actionQueue c1.actionQueue ∧ w1 = w := by
  unfold walkToTileBranch at h
  split at h
  · cases h
  · next below hb =>
    have key : ∀ c0 : Creature, c0.actionQueue = c.actionQueue →
        (if c0.walkQueue.length = 0 then
            (Except.ok (w, { c0 with actionQueue := c0.actionQueue.tail }, true) :
              Except Fault (World × Creature × Bool))
          else .ok (w, c0, false)) = .ok (w1, c1, lb) →
        StackStep c.actionQueue c1.actionQueue ∧ w1 = w := by
      intro c0 h0 h
      split at h
      · cases h
        refine ⟨Or.inr (Or.inr ⟨a, rest, hq, ha, Or.inl ?_⟩), rfl⟩
        simp [h0, hq]
      · cases h
        exact ⟨Or.inl h0, rfl⟩
    split at h
    · exact key _ (abortOnStaleGoal_fields env w c).1 h
    · exact key _ rfl h

/-! ## Lemmas on the `digTile` case -/

theorem updateAt_eq_self {α : Type} (f : α → α) :
    ∀ (l : List α) (n : Nat), (∀ a, l[n]? = some a → f a = a) → updateAt f l n = l := by
  intro l
  induction l with
  | nil => intro n _; simp [updateAt]
  | cons a l ih =>
    intro n h
    cases n with
    | zero => simp [updateAt, h a (by simp)]
    | succ n =>
      simp only [updateAt]
      rw [ih n (fun b hb => h b (by simpa using hb))]

theorem updateAt_updateAt {α : Type} (f g : α → α) :
    ∀ (l : List α) (n : Nat), updateAt g (updateAt f l n) n = updateAt (fun a => g (f a)) l n := by
  intro l
  induction l with
  | nil => intro n; simp [updateAt]
  | cons a l ih =>
    intro n
    cases n with
    | zero => simp [updateAt]
    | succ n => simp [updateAt, ih]

theorem setFullness_getFullness (w : World) (n : Nat) : setFullness w n (getFullness w n) = w := by
  unfold setFullness
  have : updateAt (fun tile : Tile => { tile with fullness := getFullness w n }) w.tiles n = w.tiles := by
    apply updateAt_eq_self
    intro a ha
    simp [getFullness, ha]
  rw [this]

theorem refreshNeighbors_eq (w : World) : ∀ ns : List Nat, refreshNeighbors w ns = w := by
  intro ns
  induction ns with
  | nil => rfl
  | cons n ns ih => simp [refreshNeighbors, setFullness_getFullness, ih]

theorem getFullness_setFullness {w : World} {t : Nat} {tile : Tile} (h : w.tiles[t]? = some tile)
    (f : ℚ) : getFullness (setFullness w t f) t = f := by
  simp [getFullness, setFullness, getElem?_updateAt, h]

theorem setFullness_setFullness (w : World) (t : Nat) (f g : ℚ) :
    setFullness (setFullness w t f) t g = setFullness w t g := by
  simp [setFullness, updateAt_updateAt]

/-- The fullness left by one dig of a tile with fullness `f` at dig rate
`digRate` (lines 418 and 428-431): the rounded difference, or 0 when it is
negative. -/
theorem digNeighbor_eq {env : Env} {w : World} {c : Creature} {t : Nat} {tile : Tile}
    (ht : w.tiles[t]? = some tile) :
    digNeighbor env w c t =
      .ok (setFullness w t (max 0 (roundDouble (tile.fullness - c.digRate))),
        if roundDouble (tile.fullness - c.digRate) ≤ 0 then
          { addDestination c tile.x tile.y with
            actionQueue := ⟨.walkToTile, none⟩ :: c.actionQueue.tail }
        else c) := by
  unfold digNeighbor tileOf
  simp only [ht, refreshNeighbors_eq]
  have hF : getFullness w t = tile.fullness := by simp [getFullness, ht]
  rw [hF]
  generalize roundDouble (tile.fullness - c.digRate) = d
  by_cases hneg : d < 0
  · have hle : d ≤ 0 := le_of_lt hneg
    simp only [getFullness_setFullness ht, hneg, if_true, setFullness_setFullness, hle,
      max_eq_left hle]
    rfl
  · have hge : 0 ≤ d := not_lt.1 hneg
    simp only [getFullness_setFullness ht, hneg, if_false, max_eq_right hge]
    by_cases hz : d = 0
    · simp only [hz, le_refl, if_true]
      rfl
    · have : ¬ d ≤ 0 := fun h => hz (le_antisymm h hge)
      simp only [hz, this, if_false]

theorem firstMarkedNeighbor_some {w : World} {p : Player} {t : Nat} {tile : Tile} :
    ∀ ns : List Nat, firstMarkedNeighbor w p ns = .ok (some (t, tile)) →
      t ∈ ns ∧ w.tiles[t]? = some tile ∧ getMarkedForDigging tile p = true := by
  intro ns
  induction ns with
  | nil => intro h; simp [firstMarkedNeighbor] at h
  | cons n ns ih =>
    intro h
    unfold firstMarkedNeighbor at h
    split at h
    · cases h
    · next nt hnt =>
      split at h
      · next hm =>
        cases h
        exact ⟨List.mem_cons_self _ _, tileOf_ok hnt, hm⟩
      · obtain ⟨h1, h2, h3⟩ := ih h
        exact ⟨List.mem_cons_of_mem _ h1, h2, h3⟩

theorem finishDigging_step (w : World) (c : Creature) {a : CreatureAction}
    {rest : List CreatureAction} (hq : c.actionQueue = a :: rest) (ha : a.type ≠ .idle) :
    StackStep c.actionQueue (finishDigging w c).2.1.actionQueue ∧ (finishDigging w c).1 = w := by
  unfold finishDigging
  rw [hq]
  dsimp only
  split
  · exact ⟨Or.inr (Or.inr ⟨a, rest, rfl, ha, Or.inl rfl⟩), rfl⟩
  · exact ⟨Or.inl hq, rfl⟩

theorem finishDigging_out {w0 w w1 : World} {c c1 : Creature} {lb : Bool}
    (s : StackStep c.actionQueue (finishDigging w0 c).2.1.actionQueue ∧ (finishDigging w0 c).1 = w0)
    (hw : w0.creatures = w.creatures ∧ w0.tiles = w.tiles)
    (h : (Except.ok (finishDigging w0 c) : Except Fault (World × Creature × Bool)) = .ok (w1, c1, lb)) :
    StackStep c.actionQueue c1.actionQueue ∧ w1.creatures = w.creatures ∧ w1.tiles = w.tiles := by
  have e := Except.ok.inj h
  have e1 : (finishDigging w0 c).1 = w1 := by rw [e]
  have e2 : (finishDigging w0 c).2.1 = c1 := by rw [e]
  rw [← e1, ← e2, s.2]
  exact ⟨s.1, hw.1, hw.2⟩

theorem approachMarkedTile_step {env : Env} {w w1 : World} {c c1 : Creature} {marked : List Nat}
    {lb : Bool} {a : CreatureAction} {rest : List CreatureAction}
    (hq : c.actionQueue = a :: rest) (ha : a.type ≠ .idle)
    (h : approachMarkedTile env w c marked = .ok (w1, c1, lb)) :
    StackStep c.actionQueue c1.actionQueue ∧ w1.creatures = w.creatures ∧ w1.tiles = w.tiles := by
  unfold approachMarkedTile at h
  split at h
  · cases h
  · split at h
    · dsimp only at h
      split at h
      · split at h
        · cases h
        · split at h
          · cases h
          · split at h
            · split at h
              · cases h
              · next c2 hc2 =>
                cases h
                refine ⟨Or.inr (Or.inl ⟨⟨.walkToTile, none⟩, ?_⟩), rfl, rfl⟩
                simp [(addDestinations_fields _ _ _ hc2).1]
            · exact finishDigging_out (finishDigging_step { w with randomCalls := w.randomCalls + 1 } c hq ha) ⟨rfl, rfl⟩ h
      · exact finishDigging_out (finishDigging_step w c hq ha) ⟨rfl, rfl⟩ h
    · exact finishDigging_out (finishDigging_step w c hq ha) ⟨rfl, rfl⟩ h

theorem digTileBranch_step {env : Env} {w w1 : World} {c c1 : Creature} {lb : Bool}
    {a : CreatureAction} {rest : List CreatureAction}
    (hq : c.actionQueue = a :: rest) (ha : a.type ≠ .idle)
    (h : digTileBranch env w c = .ok (w1, c1, lb)) :
    StackStep c.actionQueue c1.actionQueue ∧ w1.creatures = w.creatures := by
  unfold digTileBranch at h
  dsimp only at h
  split at h
  · cases h
  · next t tile hfound =>
    have ht : w.tiles[t]? = some tile := by
      split at hfound
      · cases hfound
      · exact (firstMarkedNeighbor_some _ hfound).2.1
    rw [digNeighbor_eq ht] at h
    dsimp only at h
    cases h
    refine ⟨?_, rfl⟩
    split
    · exact Or.inr (Or.inr ⟨a, rest, hq, ha, Or.inr ⟨⟨.walkToTile, none⟩, by simp [addDestination, hq]⟩⟩)
    · exact Or.inl rfl
  · have := approachMarkedTile_step hq ha h
    exact ⟨this.1, this.2.1⟩

/-! ## Lemmas on the `attackCreature` case -/

theorem attackFirstInRange_cases {env : Env} {w w1 : World} {c : Creature} :
    ∀ ve : List Nat, attackFirstInRange env w c ve = .ok w1 →
      w1 = w ∨ ∃ e weaponL weaponR, e ∈ ve ∧ c.weaponL = some weaponL ∧ c.weaponR = some weaponR ∧
        w1 = modifyCreature w e fun enemy =>
          { enemy with hp := enemy.hp - (weaponL.damage + weaponR.damage) } := by
  intro ve
  induction ve with
  | nil => intro h; simp [attackFirstInRange] at h; exact Or.inl h.symm
  | cons e es ih =>
    intro h
    unfold attackFirstInRange at h
    split at h
    · cases h
    · split at h
      · cases h
      · split at h
        · cases h
        · cases h
        · next tempTile my weaponL weaponR _ _ hL hR =>
          dsimp only at h
          split at h
          · cases h
            exact Or.inr ⟨e, weaponL, weaponR, List.mem_cons_self _ _, hL, hR, rfl⟩
          · rcases ih h with h | ⟨e', wl, wr, he, h1, h2, h3⟩
            · exact Or.inl h
            · exact Or.inr ⟨e', wl, wr, List.mem_cons_of_mem _ he, h1, h2, h3⟩
        · cases h

theorem attackFirstInRange_queue {env : Env} {w w1 : World} {c : Creature} {ve : List Nat}
    (h : attackFirstInRange env w c ve = .ok w1) (i : Nat) :
    w1.creatures[i]?.map (fun c => c.actionQueue) = w.creatures[i]?.map (fun c => c.actionQueue) ∧
    w1.tiles = w.tiles := by
  rcases attackFirstInRange_cases ve h with h | ⟨e, wl, wr, _, _, _, h⟩
  · rw [h]; exact ⟨rfl, rfl⟩
  · rw [h]
    refine ⟨?_, rfl⟩
    simp only [modifyCreature, getElem?_updateAt]
    split
    · cases w.creatures[i]? <;> simp
    · rfl

theorem attackCreatureBranch_step {env : Env} {w w1 : World} {self : Nat} {c c1 : Creature}
    {ve va : List Nat} {lb : Bool} {a : CreatureAction} {rest : List CreatureAction}
    (hc : w.creatures[self]? = some c)
    (hq : c.actionQueue = a :: rest) (ha : a.type ≠ .idle)
    (h : attackCreatureBranch env w self c ve va = .ok (w1, c1, lb)) :
    StackStep c.actionQueue c1.actionQueue ∧ w1.creatures.length = w.creatures.length := by
  unfold attackCreatureBranch at h
  split at h
  · cases h
    exact ⟨Or.inr (Or.inr ⟨a, rest, hq, ha, Or.inl (by simp [hq])⟩), rfl⟩
  · split at h
    · cases h
    · next w' hw' =>
      have hlen : w'.creatures.length = w.creatures.length := by
        rcases attackFirstInRange_cases ve hw' with e | ⟨e, wl, wr, _, _, _, e'⟩
        · rw [e]
        · rw [e']; simp [modifyCreature, length_updateAt]
      split at h
      · cases h
      · next c' hc' =>
        have hq' : c'.actionQueue = c.actionQueue := by
          have := (attackFirstInRange_queue hw' self).1
          rw [creatureOf_ok hc', hc] at this
          simpa using this
        dsimp only at h
        split at h
        · cases h
        · split at h
          · cases h
          · split at h
            · split at h
              · cases h
              · split at h
                · cases h
                · cases h
                  exact ⟨Or.inl (by simp [addDestination, clearDestinations, hq']), hlen⟩
            · cases h
              exact ⟨Or.inl (by simp [clearDestinations, hq']), hlen⟩

/-! ## The action queue across a pass of the loop and across a tick -/

theorem queueOf_modifyCreature_const {w : World} {self : Nat} {c0 : Creature} (c1 : Creature)
    (h : w.creatures[self]? = some c0) :
    (modifyCreature w self (fun _ => c1)).creatures[self]? = some c1 := by
  simp [modifyCreature, getElem?_updateAt, h]

theorem getElem?_isSome_of_length {w : World} (w1 : World) {self : Nat} {c : Creature}
    (h : w.creatures[self]? = some c) (hl : w1.creatures.length = w.creatures.length) :
    ∃ c0, w1.creatures[self]? = some c0 := by
  have hlt : self < w.creatures.length := by
    rcases List.getElem?_eq_some_iff.1 h with ⟨hlt, _⟩
    exact hlt
  exact ⟨w1.creatures[self], List.getElem?_eq_getElem (by omega)⟩

/-- One pass of the loop changes the action queue of the acting creature by
a `StackStep`. -/
theorem doTurnIter_step {env : Env} {w w' : World} {self : Nat} {ve va : List Nat} {lb : Bool}
    (h : doTurnIter env w self ve va = .ok (w', lb)) :
    ∃ c c', w.creatures[self]? = some c ∧ w'.creatures[self]? = some c' ∧
      StackStep c.actionQueue c'.actionQueue := by
  unfold doTurnIter at h
  split at h
  · cases h
  · next c hc =>
    have hc := creatureOf_ok hc
    dsimp only at h
    split at h
    · cases h
    · next a rest hq =>
      split at h
      · cases h
      · next w1 c1 lb1 hr =>
        cases h
        have key : StackStep c.actionQueue c1.actionQueue ∧ w1.creatures.length = w.creatures.length := by
          cases hty : a.type with
          | idle =>
            simp only [hty] at hr
            have := idleBranch_step hr
            exact ⟨this.1, by rw [this.2.1]⟩
          | walkToTile =>
            simp only [hty] at hr
            have := walkToTileBranch_step hq (by rw [hty]; decide) hr
            exact ⟨this.1, by rw [this.2]⟩
          | digTile =>
            simp only [hty] at hr
            have := digTileBranch_step hq (by rw [hty]; decide) hr
            exact ⟨this.1, by rw [this.2]⟩
          | attackCreature =>
            simp only [hty] at hr
            exact attackCreatureBranch_step (w := { w with randomCalls := w.randomCalls + 1 })
              hc hq (by rw [hty]; decide) hr
        obtain ⟨c0, hc0⟩ := getElem?_isSome_of_length w1 hc key.2
        exact ⟨c, c1, hc, queueOf_modifyCreature_const c1 hc0, key.1⟩

theorem perceive_queue (env : Env) {w : World} {self : Nat} (c0 : Creature) {c : Creature}
    (ve : List Nat) (h : w.creatures[self]? = some c) :
    ∃ c2, (perceive env w self c0 ve).creatures[self]? = some c2 ∧
      StackStep c.actionQueue c2.actionQueue := by
  cases ve with
  | nil => exact ⟨c, by simpa [perceive] using h, Or.inl rfl⟩
  | cons e es =>
    unfold perceive
    dsimp only
    split
    · exact ⟨c, h, Or.inl rfl⟩
    · split
      · split
        · refine ⟨{ c with actionQueue := ⟨.attackCreature, some e⟩ :: c.actionQueue }, ?_,
            Or.inr (Or.inl ⟨⟨.attackCreature, some e⟩, rfl⟩)⟩
          simp [modifyCreature, getElem?_updateAt, h]
        · exact ⟨c, h, Or.inl rfl⟩
      · exact ⟨c, h, Or.inl rfl⟩

theorem queueOf_eq {w : World} {self : Nat} {c : Creature} (h : w.creatures[self]? = some c) :
    queueOf w self = c.actionQueue := by
  simp [queueOf, h]

theorem doTurnIter_bottomIdle {env : Env} {w w' : World} {self : Nat} {ve va : List Nat}
    {lb : Bool} (hb : bottomIdle (queueOf w self))
    (h : doTurnIter env w self ve va = .ok (w', lb)) : bottomIdle (queueOf w' self) := by
  obtain ⟨c, c', hc, hc', s⟩ := doTurnIter_step h
  rw [queueOf_eq hc] at hb
  rw [queueOf_eq hc']
  exact bottomIdle_step hb s

theorem doTurnLoop_bottomIdle {env : Env} {self : Nat} {ve va : List Nat} :
    ∀ (fuel : Nat) (w w' : World), bottomIdle (queueOf w self) →
      doTurnLoop env self ve va fuel w = .ok w' → bottomIdle (queueOf w' self) := by
  intro fuel
  induction fuel with
  | zero => intro w w' _ h; simp [doTurnLoop] at h
  | succ fuel ih =>
    intro w w' hb h
    unfold doTurnLoop at h
    split at h
    · cases h
    · next w1 lb hiter =>
      have hb1 := doTurnIter_bottomIdle hb hiter
      split at h
      · exact ih _ _ hb1 h
      · cases h; exact hb1

theorem updateVisualDebug_queue {env : Env} {w w' : World} {self : Nat}
    (h : updateVisualDebug env w self = .ok w') : queueOf w' self = queueOf w self := by
  unfold updateVisualDebug at h
  split at h
  · cases h
  · next c hc =>
    have hc := creatureOf_ok hc
    split at h
    · unfold destroyVisualDebugEntities createVisualDebugEntities at h
      split at h
      · cases h
      · next c1 h1 =>
        split at h1
        · cases h1
        · cases h1
          dsimp only at h
          split at h
          · cases h
          · next c2 h2 =>
            split at h2
            · cases h2
            · cases h2
              cases h
              rw [queueOf_eq (queueOf_modifyCreature_const _ hc), queueOf_eq hc]
    · cases h; rfl

theorem doTurn_bottomIdle {env : Env} {fuel : Nat} {w w' : World} {self : Nat}
    (hb : bottomIdle (queueOf w self)) (h : doTurn env fuel w self = .ok w') :
    bottomIdle (queueOf w' self) := by
  unfold doTurn at h
  split at h
  · cases h
  · next c hc =>
    have hc := creatureOf_ok hc
    split at h
    · cases h; exact hb
    · split at h
      · cases h
      · next vis _ =>
        dsimp only at h
        split at h
        · cases h
        · next w3 hloop =>
          rw [updateVisualDebug_queue h]
          refine doTurnLoop_bottomIdle _ _ _ ?_ hloop
          obtain ⟨c2, hc2, s⟩ := perceive_queue env { c with visibleTiles := vis }
            (getVisibleEnemies (modifyCreature w self fun _ => { c with visibleTiles := vis })
              { c with visibleTiles := vis })
            (queueOf_modifyCreature_const { c with visibleTiles := vis } hc)
          rw [queueOf_eq hc2]
          rw [queueOf_eq hc] at hb
          exact bottomIdle_step hb s

theorem doTurns_bottomIdle {self : Nat} :
    ∀ (ticks : List (Env × Nat)) (w w' : World), bottomIdle (queueOf w self) →
      doTurns self ticks w = .ok w' → bottomIdle (queueOf w' self) := by
  intro ticks
  induction ticks with
  | nil => intro w w' hb h; simp [doTurns] at h; subst h; exact hb
  | cons tick ticks ih =>
    intro w w' hb h
    obtain ⟨env, fuel⟩ := tick
    unfold doTurns at h
    split at h
    · cases h
    · next w1 h1 => exact ih _ _ (doTurn_bottomIdle hb h1) h

theorem bottomIdle_ne_nil {q : List CreatureAction} (h : bottomIdle q) : q ≠ [] := by
  intro e
  rw [e] at h
  simp [bottomIdle] at h

/-! ## The claims -/

/-- C1. Action-stack invariant.  If the action queue of the creature `self`
ends in an `idle` action, then it is non-empty and ends in an `idle` action
after every sequence of `doTurn` ticks, after every single tick and after
every pass through the loop-back loop of a tick (whatever the random numbers,
the map and the path finder answer); and `clearActionQueue` leaves a non-empty
queue that ends in `idle`. -/
theorem actionQueue_bottom_idle (self : Nat) (w : World) (h : bottomIdle (queueOf w self)) :
    (∀ ticks w', doTurns self ticks w = .ok w' →
      queueOf w' self ≠ [] ∧ bottomIdle (queueOf w' self)) ∧
    (∀ env fuel w', doTurn env fuel w self = .ok w' →
      queueOf w' self ≠ [] ∧ bottomIdle (queueOf w' self)) ∧
    (∀ env ve va w' lb, doTurnIter env w self ve va = .ok (w', lb) →
      queueOf w' self ≠ [] ∧ bottomIdle (queueOf w' self)) ∧
    (∀ c : Creature, (clearActionQueue c).actionQueue ≠ [] ∧
      bottomIdle (clearActionQueue c).actionQueue) := by
  refine ⟨?_, ?_, ?_, ?_⟩
  · intro ticks w' hr
    have := doTurns_bottomIdle ticks w w' h hr
    exact ⟨bottomIdle_ne_nil this, this⟩
  · intro env fuel w' hr
    have := doTurn_bottomIdle h hr
    exact ⟨bottomIdle_ne_nil this, this⟩
  · intro env ve va w' lb hr
    have := doTurnIter_bottomIdle h hr
    exact ⟨bottomIdle_ne_nil this, this⟩
  · intro c
    have : bottomIdle (clearActionQueue c).actionQueue := by
      simp [clearActionQueue, bottomIdle]
    exact ⟨bottomIdle_ne_nil this, this⟩

/-- Witness of C1: two ticks of the attacking agent of `attackScene`. -/
theorem actionQueue_bottom_idle_witness :
    bottomIdle (queueOf attackScene 0) ∧
    (doTurns 0 [(plainEnv, 3), (plainEnv, 3)] attackScene).toOption.isSome = true ∧
    ∀ w', doTurns 0 [(plainEnv, 3), (plainEnv, 3)] attackScene = .ok w' →
      queueOf w' 0 ≠ [] ∧ bottomIdle (queueOf w' 0) :=
  ⟨by decide, by with_unfolding_all decide,
    (actionQueue_bottom_idle 0 attackScene (by decide)).1 [(plainEnv, 3), (plainEnv, 3)]⟩

/-- C2. Off-grid soft no-op.  For a creature whose position tile is `NULL`,
`doTurn` returns the world it was given: action queue, walk queue, visible
tiles, every creature's hp, every tile's fullness and the count of random
numbers drawn are as before. -/
theorem doTurn_off_grid (env : Env) (fuel : Nat) (w : World) (self : Nat) (c : Creature)
    (hc : w.creatures[self]? = some c) (hp : positionTile w c = none) :
    doTurn env fuel w self = .ok w := by
  unfold doTurn creatureOf
  simp only [hc, hp]

/-- Witness of C2: the creature of `offGridScene` at `(7,7)`. -/
theorem doTurn_off_grid_witness : doTurn plainEnv 0 offGridScene 0 = .ok offGridScene :=
  doTurn_off_grid plainEnv 0 offGridScene 0
    { position := ⟨7, 7, 0⟩, color := 1, sightRadius := 5,
      actionQueue := [⟨.digTile, none⟩, ⟨.idle, none⟩], walkQueue := [⟨4, 0, 0⟩] }
    rfl (by with_unfolding_all decide)

/-- C3. Visibility is distance-limited.  For a creature standing on the tile
`origin` with a sight radius `R > 0`, `updateVisibleTiles` returns, and every
tile `T` it puts into `visibleTiles` satisfies
`(T.x - origin.x)² + (T.y - origin.y)² < R²`. -/
theorem updateVisibleTiles_within_radius (env : Env) (w : World) (c : Creature) (p : Nat)
    (origin : Tile) (hp : positionTile w c = some p) (ho : w.tiles[p]? = some origin)
    (hR : 0 < c.sightRadius) :
    ∃ vis, updateVisibleTiles env w c = .ok vis ∧
      ∀ t ∈ vis, ∃ tile, w.tiles[t]? = some tile ∧
        (((tile.x - origin.x) ^ 2 + (tile.y - origin.y) ^ 2 : Int) : ℚ) < c.sightRadius ^ 2 := by
  obtain ⟨vis, hvis⟩ := updateVisibleTiles_ok env hp
  refine ⟨vis, hvis, ?_⟩
  intro t ht
  rcases updateVisibleTiles_mem hp ho hvis ht with h | ⟨dx, dy, _, hd, hg, _⟩
  · subst h
    refine ⟨origin, ho, ?_⟩
    have : (0 : ℚ) < c.sightRadius ^ 2 := by positivity
    simpa using this
  · obtain ⟨tile, htile, hx, hy⟩ := getTile_some hg
    refine ⟨tile, htile, ?_⟩
    rw [hx, hy]
    have e : (origin.x + dx - origin.x) ^ 2 + (origin.y + dy - origin.y) ^ 2 = dx * dx + dy * dy := by
      ring
    rw [e, pow_two]
    exact hd

/-- Witness of C3: the creature `watcher` in the corridor. -/
theorem updateVisibleTiles_within_radius_witness :
    ∃ vis, updateVisibleTiles plainEnv corridorScene watcher = .ok vis ∧
      ∀ t ∈ vis, ∃ tile, corridorScene.tiles[t]? = some tile ∧
        (((tile.x - 0) ^ 2 + (tile.y - 0) ^ 2 : Int) : ℚ) < watcher.sightRadius ^ 2 :=
  updateVisibleTiles_within_radius plainEnv corridorScene watcher 0 ⟨0, 0, 0, [], [0]⟩
    (by with_unfolding_all decide) rfl (by with_unfolding_all decide)

/-- C4. Visibility is occlusion-limited.  Every tile `T` other than the
position tile that `updateVisibleTiles` puts into `visibleTiles` satisfies
`pathIsClear(lineOfSight(origin, T), flyableTile)`.  Hence, when `pathIsClear`
rejects every path that contains a tile of a set `blocks`, no tile other than
the position tile is visible whose line of sight contains a tile of
`blocks`. -/
theorem updateVisibleTiles_line_of_sight (env : Env) (w : World) (c : Creature) (p : Nat)
    (origin : Tile) (vis : List Nat) (hp : positionTile w c = some p)
    (ho : w.tiles[p]? = some origin) (hvis : updateVisibleTiles env w c = .ok vis) :
    (∀ t ∈ vis, t ≠ p → ∃ tile, w.tiles[t]? = some tile ∧
      env.pathIsClear w.tiles (env.lineOfSight w.tiles origin.x origin.y tile.x tile.y)
        .flyableTile = true) ∧
    ∀ blocks : Nat → Prop,
      (∀ path : List Nat, (∃ b ∈ path, blocks b) →
        env.pathIsClear w.tiles path .flyableTile = false) →
      ∀ t tile, t ≠ p → w.tiles[t]? = some tile →
        (∃ b ∈ env.lineOfSight w.tiles origin.x origin.y tile.x tile.y, blocks b) → t ∉ vis := by
  have main : ∀ t ∈ vis, t ≠ p → ∃ tile, w.tiles[t]? = some tile ∧
      env.pathIsClear w.tiles (env.lineOfSight w.tiles origin.x origin.y tile.x tile.y)
        .flyableTile = true := by
    intro t ht hne
    rcases updateVisibleTiles_mem hp ho hvis ht with h | ⟨dx, dy, _, _, hg, hclear⟩
    · exact absurd h hne
    · obtain ⟨tile, htile, hx, hy⟩ := getTile_some hg
      exact ⟨tile, htile, by rw [hx, hy]; exact hclear⟩
  refine ⟨main, ?_⟩
  intro blocks hblocks t tile hne htile hb hmem
  obtain ⟨tile', htile', hclear⟩ := main t hmem hne
  rw [htile] at htile'
  cases htile'
  rw [hblocks _ hb] at hclear
  cases hclear

/-- Witness of C4: the creature `watcher` in the corridor and the visible
tile `(3,0)`. -/
theorem updateVisibleTiles_line_of_sight_witness :
    ∃ tile, corridorScene.tiles[3]? = some tile ∧
      plainEnv.pathIsClear corridorScene.tiles
        (plainEnv.lineOfSight corridorScene.tiles 0 0 tile.x tile.y) .flyableTile = true :=
  (updateVisibleTiles_line_of_sight plainEnv corridorScene watcher 0 ⟨0, 0, 0, [], [0]⟩
    [0, 1, 2, 3, 4] (by with_unfolding_all decide) rfl (by with_unfolding_all decide)).1
    3 (by decide) (by decide)

/-- C5, evaluated at the failing input.  For the creature of `offGridScene`,
whose position tile is `NULL`, `updateVisibleTiles` dereferences the position
tile (line 674) before `visibleTiles` is cleared and before the `NULL` tests
of lines 681, 705 and 738. -/
theorem updateVisibleTiles_off_grid :
    positionTile offGridScene { position := ⟨7, 7, 0⟩, color := 1, sightRadius := 5 } = none ∧
    updateVisibleTiles plainEnv offGridScene { position := ⟨7, 7, 0⟩, color := 1, sightRadius := 5 }
      = .error .nullPointer := by
  constructor <;> with_unfolding_all decide

/-! ## Digging -/

theorem getElem?_setFullness {w : World} {t : Nat} {tile : Tile} (h : w.tiles[t]? = some tile)
    (f : ℚ) : (setFullness w t f).tiles[t]? = some { tile with fullness := f } := by
  simp [setFullness, getElem?_updateAt, h]

theorem digNeighbor_digRate (c : Creature) (x y : Int) (b : Prop) [Decidable b] :
    (if b then
        { addDestination c x y with actionQueue := ⟨.walkToTile, none⟩ :: c.actionQueue.tail }
      else c).digRate = c.digRate := by
  split <;> rfl

/-- However the differences round, `k` digs in a row return and leave a
fullness that is not negative. -/
theorem digTimes_nonneg (env : Env) (t : Nat) :
    ∀ (k : Nat) (w : World) (c : Creature) (tile : Tile), w.tiles[t]? = some tile →
      0 ≤ tile.fullness →
      ∃ wk ck, digTimes env t k w c = .ok (wk, ck) ∧ 0 ≤ getFullness wk t := by
  intro k
  induction k with
  | zero =>
    intro w c tile ht hF
    refine ⟨w, c, rfl, ?_⟩
    simp [getFullness, ht, hF]
  | succ k ih =>
    intro w c tile ht hF
    unfold digTimes
    rw [digNeighbor_eq ht]
    dsimp only
    exact ih _ _ _ (getElem?_setFullness ht _) (le_max_left _ _)

/-- While the differences `F - j * R` that are positive are doubles, `k` digs
in a row leave the fullness `max 0 (F - k * R)`. -/
theorem digTimes_spec (env : Env) (t : Nat) :
    ∀ (k : Nat) (w : World) (c : Creature) (tile : Tile), w.tiles[t]? = some tile →
      0 ≤ tile.fullness → 0 < c.digRate →
      (∀ j : Nat, 1 ≤ j → j ≤ k → 0 < tile.fullness - j * c.digRate →
        roundDouble (tile.fullness - j * c.digRate) = tile.fullness - j * c.digRate) →
      ∃ wk ck, digTimes env t k w c = .ok (wk, ck) ∧
        getFullness wk t = max 0 (tile.fullness - k * c.digRate) := by
  intro k
  induction k with
  | zero =>
    intro w c tile ht hF _ _
    refine ⟨w, c, rfl, ?_⟩
    simp [getFullness, ht, hF]
  | succ k ih =>
    intro w c tile ht hF hR hex
    unfold digTimes
    rw [digNeighbor_eq ht]
    dsimp only
    have ht1 := getElem?_setFullness ht (max 0 (roundDouble (tile.fullness - c.digRate)))
    have hrate := digNeighbor_digRate c tile.x tile.y (roundDouble (tile.fullness - c.digRate) ≤ 0)
    have hkR : 0 ≤ (k : ℚ) * c.digRate := mul_nonneg (Nat.cast_nonneg k) (le_of_lt hR)
    rcases le_or_lt (tile.fullness - c.digRate) 0 with hle | hgt
    · have hd : max 0 (roundDouble (tile.fullness - c.digRate)) = 0 :=
        max_eq_left (roundDouble_nonpos hle)
      rw [hd] at ht1 ⊢
      obtain ⟨wk, ck, hk, hf⟩ := ih _ _ _ ht1 (le_refl _) (by rw [hrate]; exact hR) (by
        intro j hj _ hpos
        rw [hrate] at hpos
        dsimp only at hpos
        have : 0 ≤ (j : ℚ) * c.digRate := mul_nonneg (Nat.cast_nonneg j) (le_of_lt hR)
        linarith)
      refine ⟨wk, ck, hk, ?_⟩
      rw [hf, hrate]
      dsimp only
      push_cast
      rw [max_eq_left (by linarith), max_eq_left (by linarith)]
    · have hone : roundDouble (tile.fullness - c.digRate) = tile.fullness - c.digRate := by
        have := hex 1 (le_refl _) (by omega) (by simpa using hgt)
        simpa using this
      have hd : max 0 (roundDouble (tile.fullness - c.digRate)) = tile.fullness - c.digRate := by
        rw [hone]
        exact max_eq_right (le_of_lt hgt)
      rw [hd] at ht1 ⊢
      obtain ⟨wk, ck, hk, hf⟩ := ih _ _ _ ht1 (le_of_lt hgt) (by rw [hrate]; exact hR) (by
        intro j hj hjk hpos
        rw [hrate] at hpos ⊢
        dsimp only at hpos ⊢
        have e : tile.fullness - c.digRate - (j : ℚ) * c.digRate
            = tile.fullness - ((j + 1 : Nat) : ℚ) * c.digRate := by
          push_cast
          ring
        rw [e] at hpos ⊢
        exact hex (j + 1) (by omega) (by omega) hpos)
      refine ⟨wk, ck, hk, ?_⟩
      rw [hf, hrate]
      dsimp only
      push_cast
      congr 1
      ring

/-- C7, amended.  Digging arithmetic.  For a tile `t` of fullness `F > 0` and
a dig rate `R > 0`: one dig (lines 417-445, which the `digTile` case applies
to the first marked neighbour) leaves the fullness `max 0 (fl (F - R))`, with
`fl` the rounding to the nearest double, which is never negative; any number
of digs returns with a fullness that is not negative; and when the
differences `F - j * R` for `1 ≤ j < ⌈F / R⌉` are doubles, so that no
subtraction rounds, the fullness after `k` digs is `max 0 (F - k * R)`: it is
`0` after `⌈F / R⌉` digs and positive after fewer. -/
theorem dig_arithmetic (env : Env) (w : World) (c : Creature) (t : Nat) (tile : Tile)
    (ht : w.tiles[t]? = some tile) (hF : 0 < tile.fullness) (hR : 0 < c.digRate) :
    (∃ w1 c1, digNeighbor env w c t = .ok (w1, c1) ∧
      getFullness w1 t = max 0 (roundDouble (tile.fullness - c.digRate)) ∧
      0 ≤ getFullness w1 t) ∧
    (∀ p, getControllingPlayer w c = some p →
      firstMarkedNeighbor w p (env.neighborTiles w.tiles (toInt c.position.x) (toInt c.position.y))
        = .ok (some (t, tile)) →
      ∃ w1 c1, digTileBranch env w c = .ok (w1, c1, false) ∧
        getFullness w1 t = max 0 (roundDouble (tile.fullness - c.digRate))) ∧
    (∀ k : Nat, ∃ wk ck, digTimes env t k w c = .ok (wk, ck) ∧ 0 ≤ getFullness wk t) ∧
    ((∀ j : Nat, 1 ≤ j → j < ⌈tile.fullness / c.digRate⌉.toNat →
        roundDouble (tile.fullness - j * c.digRate) = tile.fullness - j * c.digRate) →
      (∀ k : Nat, ∃ wk ck, digTimes env t k w c = .ok (wk, ck) ∧
        getFullness wk t = max 0 (tile.fullness - k * c.digRate)) ∧
      (∃ wk ck, digTimes env t ⌈tile.fullness / c.digRate⌉.toNat w c = .ok (wk, ck) ∧
        getFullness wk t = 0) ∧
      (∀ k : Nat, k < ⌈tile.fullness / c.digRate⌉.toNat →
        ∃ wk ck, digTimes env t k w c = .ok (wk, ck) ∧ 0 < getFullness wk t)) := by
  have one : getFullness (setFullness w t (max 0 (roundDouble (tile.fullness - c.digRate)))) t
      = max 0 (roundDouble (tile.fullness - c.digRate)) := getFullness_setFullness ht _
  have hceil : (0 : Int) ≤ ⌈tile.fullness / c.digRate⌉ :=
    Int.ceil_nonneg (le_of_lt (div_pos hF hR))
  have below : ∀ j : Nat, 0 < tile.fullness - j * c.digRate →
      j < ⌈tile.fullness / c.digRate⌉.toNat := by
    intro j hpos
    have h1 : (j : ℚ) < tile.fullness / c.digRate := (lt_div_iff₀ hR).2 (by linarith)
    have h2 : ((j : Int) : ℚ) < tile.fullness / c.digRate := by exact_mod_cast h1
    have h3 : (j : Int) < ⌈tile.fullness / c.digRate⌉ := Int.lt_ceil.2 h2
    omega
  refine ⟨⟨_, _, digNeighbor_eq ht, one, ?_⟩, ?_, ?_, ?_⟩
  · rw [one]; exact le_max_left _ _
  · intro p hp hfound
    have hb : digTileBranch env w c
        = .ok (setFullness w t (max 0 (roundDouble (tile.fullness - c.digRate))),
        (if roundDouble (tile.fullness - c.digRate) ≤ 0 then
          { addDestination c tile.x tile.y with
            actionQueue := ⟨.walkToTile, none⟩ :: c.actionQueue.tail }
        else c), false) := by
      unfold digTileBranch
      simp only [hp, hfound, digNeighbor_eq ht]
    exact ⟨_, _, hb, one⟩
  · intro k
    exact digTimes_nonneg env t k w c tile ht (le_of_lt hF)
  · intro hex
    have spec : ∀ k : Nat, ∃ wk ck, digTimes env t k w c = .ok (wk, ck) ∧
        getFullness wk t = max 0 (tile.fullness - k * c.digRate) := fun k =>
      digTimes_spec env t k w c tile ht (le_of_lt hF) hR
        (fun j hj _ hpos => hex j hj (below j hpos))
    refine ⟨spec, ?_, ?_⟩
    · obtain ⟨wk, ck, hk, hf⟩ := spec ⌈tile.fullness / c.digRate⌉.toNat
      refine ⟨wk, ck, hk, ?_⟩
      rw [hf]
      apply max_eq_left
      have h1 : tile.fullness / c.digRate ≤ (⌈tile.fullness / c.digRate⌉ : ℚ) := Int.le_ceil _
      have h2 : ((⌈tile.fullness / c.digRate⌉.toNat : Int) : ℚ)
          = (⌈tile.fullness / c.digRate⌉ : ℚ) := by
        rw [Int.toNat_of_nonneg hceil]
      have h3 : tile.fullness ≤ (⌈tile.fullness / c.digRate⌉ : ℚ) * c.digRate :=
        (div_le_iff₀ hR).1 h1
      have h4 : ((⌈tile.fullness / c.digRate⌉.toNat : ℕ) : ℚ)
          = (⌈tile.fullness / c.digRate⌉ : ℚ) := by
        rw [← h2]; norm_cast
      rw [h4]
      linarith
    · intro k hk
      obtain ⟨wk, ck, hkk, hf⟩ := spec k
      refine ⟨wk, ck, hkk, ?_⟩
      rw [hf]
      apply lt_max_of_lt_right
      have h1 : (k : Int) < ⌈tile.fullness / c.digRate⌉ := by omega
      have h2 : ((k : Int) : ℚ) < tile.fullness / c.digRate := Int.lt_ceil.1 h1
      have h3 : ((k : Int) : ℚ) * c.digRate < tile.fullness := (lt_div_iff₀ hR).1 h2
      have h4 : ((k : Int) : ℚ) = (k : ℚ) := by norm_cast
      rw [h4] at h3
      linarith

/-- Witness of C7 (amended): the wall tile of `digScene` (fullness 10) and the
digger of dig rate 4; the differences 6 and 2 are doubles, and the fullness is
0 after `⌈10 / 4⌉ = 3` digs. -/
theorem dig_arithmetic_witness :
    ∃ wk ck, digTimes plainEnv 1 ⌈(10 : ℚ) / 4⌉.toNat digScene digger = .ok (wk, ck) ∧
      getFullness wk 1 = 0 :=
  ((dig_arithmetic plainEnv digScene digger 1 ⟨1, 0, 10, [0], []⟩ rfl
    (by with_unfolding_all decide) (by with_unfolding_all decide)).2.2.2
    (by
      intro j hj hlt
      have hc : ⌈(10 : ℚ) / 4⌉.toNat = 3 := by with_unfolding_all decide
      have hlt3 : j < 3 := by
        have : j < ⌈(10 : ℚ) / 4⌉.toNat := hlt
        omega
      have e : (⟨1, 0, 10, [0], []⟩ : Tile).fullness - (j : ℚ) * digger.digRate
          = (((10 - 4 * (j : Int)) : Int) : ℚ) := by
        show (10 : ℚ) - (j : ℚ) * 4 = _
        push_cast
        ring
      rw [e]
      exact roundDouble_intCast _ (by omega))).2.1

theorem iterate_ten {α : Type} (f : α → α) (x : α) :
    f^[10] x = f (f (f (f (f (f (f (f (f (f x))))))))) := rfl

/-- The fullness after `k` digs in a row is the `k`-th iterate of
`F ↦ max 0 (fl (F - R))`. -/
theorem digTimes_iterate (env : Env) (t : Nat) :
    ∀ (k : Nat) (w : World) (c : Creature) (tile : Tile), w.tiles[t]? = some tile →
      ∃ wk ck, digTimes env t k w c = .ok (wk, ck) ∧
        getFullness wk t = (fun F => max 0 (roundDouble (F - c.digRate)))^[k] tile.fullness := by
  intro k
  induction k with
  | zero =>
    intro w c tile ht
    refine ⟨w, c, rfl, ?_⟩
    simp [getFullness, ht]
  | succ k ih =>
    intro w c tile ht
    unfold digTimes
    rw [digNeighbor_eq ht]
    dsimp only
    have ht1 := getElem?_setFullness ht (max 0 (roundDouble (tile.fullness - c.digRate)))
    have hrate := digNeighbor_digRate c tile.x tile.y (roundDouble (tile.fullness - c.digRate) ≤ 0)
    obtain ⟨wk, ck, hk, hf⟩ := ih _ _ _ ht1
    refine ⟨wk, ck, hk, ?_⟩
    rw [hf, hrate, Function.iterate_succ_apply]

/-- The fullness of the wall tile of `stoneScene` after ten digs. -/
theorem stoneScene_ten :
    (fun F => max 0 (roundDouble (F - stoneDigger.digRate)))^[10] 1
      = mkRat 5 36028797018963968 := by
  have s1 : max 0 (roundDouble (1 - stoneDigger.digRate))
      = mkRat 8106479329266893 9007199254740992 := by with_unfolding_all rfl
  have s2 : max 0 (roundDouble (mkRat 8106479329266893 9007199254740992 - stoneDigger.digRate))
      = mkRat 3602879701896397 4503599627370496 := by with_unfolding_all rfl
  have s3 : max 0 (roundDouble (mkRat 3602879701896397 4503599627370496 - stoneDigger.digRate))
      = mkRat 6305039478318695 9007199254740992 := by with_unfolding_all rfl
  have s4 : max 0 (roundDouble (mkRat 6305039478318695 9007199254740992 - stoneDigger.digRate))
      = mkRat 1351079888211149 2251799813685248 := by with_unfolding_all rfl
  have s5 : max 0 (roundDouble (mkRat 1351079888211149 2251799813685248 - stoneDigger.digRate))
      = mkRat 4503599627370497 9007199254740992 := by with_unfolding_all rfl
  have s6 : max 0 (roundDouble (mkRat 4503599627370497 9007199254740992 - stoneDigger.digRate))
      = mkRat 1801439850948199 4503599627370496 := by with_unfolding_all rfl
  have s7 : max 0 (roundDouble (mkRat 1801439850948199 4503599627370496 - stoneDigger.digRate))
      = mkRat 2702159776422299 9007199254740992 := by with_unfolding_all rfl
  have s8 : max 0 (roundDouble (mkRat 2702159776422299 9007199254740992 - stoneDigger.digRate))
      = mkRat 7205759403792799 36028797018963968 := by with_unfolding_all rfl
  have s9 : max 0 (roundDouble (mkRat 7205759403792799 36028797018963968 - stoneDigger.digRate))
      = mkRat 1801439850948201 18014398509481984 := by with_unfolding_all rfl
  have d10 : mkRat 1801439850948201 18014398509481984 - stoneDigger.digRate
      = ((5629499534213120 : Nat) : ℚ) * twoPow (-105) := by with_unfolding_all rfl
  have s10 : max 0 (roundDouble (mkRat 1801439850948201 18014398509481984 - stoneDigger.digRate))
      = mkRat 5 36028797018963968 := by
    rw [d10, roundDouble_normal _ _ (by norm_num) (by norm_num) (by norm_num)]
    with_unfolding_all rfl
  rw [iterate_ten]
  rw [s1, s2, s3, s4, s5, s6, s7, s8, s9, s10]

/-- C7, counterexample.  A wall tile of fullness 1 and a digger whose dig
rate is the double nearest to 0.1 (`stoneDigger` in `stoneScene`): the first
dig leaves the double nearest to 0.9, which is not `1 - R`, and after
`⌈F / R⌉ = 10` digs the fullness is `5 / 2 ^ 55`, about `1.39e-16`, and not
0. -/
theorem dig_arithmetic_counterexample :
    stoneScene.tiles[1]? = some ⟨1, 0, 1, [0], []⟩ ∧
    firstMarkedNeighbor stoneScene ⟨0, 1⟩ (plainEnv.neighborTiles stoneScene.tiles 0 0)
      = .ok (some (1, ⟨1, 0, 1, [0], []⟩)) ∧
    roundDouble stoneDigger.digRate = stoneDigger.digRate ∧
    (0 : ℚ) < (⟨1, 0, 1, [0], []⟩ : Tile).fullness ∧ 0 < stoneDigger.digRate ∧
    ⌈(⟨1, 0, 1, [0], []⟩ : Tile).fullness / stoneDigger.digRate⌉.toNat = 10 ∧
    (digNeighbor plainEnv stoneScene stoneDigger 1).toOption.map (fun r => getFullness r.1 1)
      ≠ some (max 0 (1 - stoneDigger.digRate)) ∧
    (digTimes plainEnv 1 10 stoneScene stoneDigger).toOption.map (fun r => getFullness r.1 1)
      = some (mkRat 5 36028797018963968) ∧
    (digTimes plainEnv 1 10 stoneScene stoneDigger).toOption.map (fun r => getFullness r.1 1)
      ≠ some 0 := by
  obtain ⟨wk, ck, hk, hf⟩ :=
    digTimes_iterate plainEnv 1 10 stoneScene stoneDigger ⟨1, 0, 1, [0], []⟩ rfl
  have hv : getFullness wk 1 = mkRat 5 36028797018963968 := hf.trans stoneScene_ten
  have hten : (digTimes plainEnv 1 10 stoneScene stoneDigger).toOption.map
      (fun r => getFullness r.1 1) = some (mkRat 5 36028797018963968) := by
    rw [hk]
    show some (getFullness wk 1) = _
    rw [hv]
  refine ⟨rfl, ?_, ?_, ?_, ?_, ?_, ?_, hten, ?_⟩
  · with_unfolding_all decide
  · with_unfolding_all rfl
  · with_unfolding_all decide
  · with_unfolding_all decide
  · with_unfolding_all decide
  · with_unfolding_all decide
  · rw [hten]
    with_unfolding_all decide

/-! ## Single passes of the loop -/

theorem modifyCreature_self {w : World} {self : Nat} {c : Creature}
    (h : w.creatures[self]? = some c) : modifyCreature w self (fun _ => c) = w := by
  unfold modifyCreature
  rw [updateAt_eq_self]
  intro a ha
  rw [h] at ha
  cases ha
  rfl

theorem getElem?_modifyCreature_ne {w : World} {self i : Nat} (f : Creature → Creature)
    (h : i ≠ self) : (modifyCreature w self f).creatures[i]? = w.creatures[i]? := by
  simp [modifyCreature, getElem?_updateAt, h]

/-- The pass of the loop for an attacking creature that sees no enemy. -/
theorem doTurnIter_attack_no_enemy {env : Env} {w : World} {self : Nat} {c : Creature}
    {a : CreatureAction} {rest : List CreatureAction} (va : List Nat)
    (hc : w.creatures[self]? = some c) (hq : c.actionQueue = a :: rest)
    (ha : a.type = .attackCreature) :
    doTurnIter env w self [] va =
      .ok (modifyCreature { w with randomCalls := w.randomCalls + 1 } self
        (fun _ => { c with actionQueue := rest }), true) := by
  unfold doTurnIter creatureOf
  simp only [hc, hq, ha, attackCreatureBranch, List.length_nil, if_true, List.tail_cons]

/-- The pass of the loop for a walking creature whose action beneath
`walkToTile` is not `digTile`. -/
theorem doTurnIter_walk (env : Env) {w : World} {self : Nat} {c : Creature}
    {a b : CreatureAction} {rest : List CreatureAction} (ve va : List Nat)
    (hc : w.creatures[self]? = some c) (hq : c.actionQueue = a :: b :: rest)
    (ha : a.type = .walkToTile) (hb : b.type ≠ .digTile) :
    doTurnIter env w self ve va =
      if c.walkQueue.length = 0 then
        .ok (modifyCreature { w with randomCalls := w.randomCalls + 1 } self
          (fun _ => { c with actionQueue := b :: rest }), true)
      else
        .ok (modifyCreature { w with randomCalls := w.randomCalls + 1 } self (fun _ => c), false) := by
  unfold doTurnIter creatureOf
  by_cases hw : c.walkQueue.length = 0
  · simp only [hc, hq, ha, walkToTileBranch, List.getElem?_cons_succ, List.getElem?_cons_zero, hb,
      if_false, List.tail_cons, hw, if_true]
  · simp only [hc, hq, ha, walkToTileBranch, List.getElem?_cons_succ, List.getElem?_cons_zero, hb,
      if_false, List.tail_cons, hw]

/-- Lines 648-659 rewrite only the visual debugging members and the visible
tiles of the acting creature. -/
theorem updateVisualDebug_ok (env : Env) {w : World} {self : Nat} {c : Creature} {p : Nat}
    (hc : w.creatures[self]? = some c) (hp : positionTile w c = some p) :
    ∃ b v1 v2, updateVisualDebug env w self = .ok (modifyCreature w self fun _ =>
      { c with hasVisualDebuggingEntities := b, visualDebugEntityTiles := v1, visibleTiles := v2 }) := by
  unfold updateVisualDebug creatureOf
  simp only [hc]
  split
  · obtain ⟨vis, hvis⟩ := updateVisibleTiles_ok env hp
    have hp' : positionTile w { c with hasVisualDebuggingEntities := false, visibleTiles := vis }
        = some p := hp
    obtain ⟨vis', hvis'⟩ := updateVisibleTiles_ok env hp'
    unfold destroyVisualDebugEntities createVisualDebugEntities
    simp only [hvis, hvis']
    exact ⟨true, vis', vis', rfl⟩
  · refine ⟨c.hasVisualDebuggingEntities, c.visualDebugEntityTiles, c.visibleTiles, ?_⟩
    exact congrArg Except.ok (modifyCreature_self hc).symm

/-- C9. Combat over.  When the active behaviour of the creature `self` is
`attackCreature` and no enemy is visible, the pass of the loop returns the
world in which only the action queue of `self` has changed, to the entries
beneath the top (and one random number has been drawn): hp, walk queue and
battle field of `self`, all other creatures and all tiles are as before; and
`loopBack` is set, so that the tick goes on with the behaviour beneath. -/
theorem attack_combat_over (env : Env) (w : World) (self : Nat) (c : Creature)
    (a : CreatureAction) (rest : List CreatureAction) (va : List Nat)
    (hc : w.creatures[self]? = some c) (hq : c.actionQueue = a :: rest)
    (ha : a.type = .attackCreature) :
    ∃ w', doTurnIter env w self [] va = .ok (w', true) ∧
      w'.creatures[self]? = some { c with actionQueue := rest } ∧
      (∀ i, i ≠ self → w'.creatures[i]? = w.creatures[i]?) ∧
      w'.tiles = w.tiles ∧
      ∀ fuel, doTurnLoop env self [] va (fuel + 1) w = doTurnLoop env self [] va fuel w' := by
  refine ⟨_, doTurnIter_attack_no_enemy va hc hq ha, ?_, ?_, rfl, ?_⟩
  · exact queueOf_modifyCreature_const _ hc
  · intro i hi
    exact getElem?_modifyCreature_ne _ hi
  · intro fuel
    conv => lhs; unfold doTurnLoop
    simp only [doTurnIter_attack_no_enemy va hc hq ha, if_true]

/-- Witness of C9: the creature `victor` with `attackCreature` above
`digTile` and `idle`. -/
theorem attack_combat_over_witness :
    ∃ w', doTurnIter plainEnv victorScene 0 [] [] = .ok (w', true) ∧
      w'.creatures[0]? = some { victor with actionQueue := [⟨.digTile, none⟩, ⟨.idle, none⟩] } ∧
      (∀ i, i ≠ 0 → w'.creatures[i]? = victorScene.creatures[i]?) ∧
      w'.tiles = victorScene.tiles ∧
      ∀ fuel, doTurnLoop plainEnv 0 [] [] (fuel + 1) victorScene
        = doTurnLoop plainEnv 0 [] [] fuel w' :=
  attack_combat_over plainEnv victorScene 0 victor ⟨.attackCreature, some 1⟩
    [⟨.digTile, none⟩, ⟨.idle, none⟩] [] rfl rfl rfl

/-! ## Ticks without a visible enemy -/

/-- A tick of a creature that stands on a tile and sees no enemy: the loop
runs on the world with the new visible tiles, then lines 648-659 follow. -/
theorem doTurn_no_enemy {env : Env} {w : World} {self : Nat} {c : Creature} {p : Nat}
    {vis : List Nat} (fuel : Nat) (hc : w.creatures[self]? = some c)
    (hp : positionTile w c = some p) (hvis : updateVisibleTiles env w c = .ok vis)
    (hve : getVisibleEnemies (modifyCreature w self fun _ => { c with visibleTiles := vis })
      { c with visibleTiles := vis } = []) :
    doTurn env fuel w self =
      match doTurnLoop env self []
          (getVisibleAllies (modifyCreature w self fun _ => { c with visibleTiles := vis })
            { c with visibleTiles := vis })
          fuel (modifyCreature w self fun _ => { c with visibleTiles := vis }) with
      | .error f => .error f
      | .ok w3 => updateVisualDebug env w3 self := by
  unfold doTurn creatureOf
  simp only [hc, hp, hvis, hve, perceive]

/-- C10. `walkToTile` is purely reactive.  For a creature on the grid that
sees no enemy, with `walkToTile` on top and an action other than `digTile`
beneath: if the walk queue is not empty, a tick returns and leaves the action
queue and the walk queue as they were; if the walk queue is empty, the pass of
the loop pops `walkToTile` and sets `loopBack`, so that the tick goes on with
the action beneath. -/
theorem walkToTile_reactive (env : Env) (w : World) (self : Nat) (c : Creature) (p : Nat)
    (vis : List Nat) (a b : CreatureAction) (rest : List CreatureAction)
    (hc : w.creatures[self]? = some c) (hp : positionTile w c = some p)
    (hvis : updateVisibleTiles env w c = .ok vis)
    (hve : getVisibleEnemies (modifyCreature w self fun _ => { c with visibleTiles := vis })
      { c with visibleTiles := vis } = [])
    (hq : c.actionQueue = a :: b :: rest) (ha : a.type = .walkToTile) (hb : b.type ≠ .digTile) :
    (c.walkQueue ≠ [] → ∀ fuel, ∃ w' c', doTurn env (fuel + 1) w self = .ok w' ∧
      w'.creatures[self]? = some c' ∧ c'.actionQueue = c.actionQueue ∧
      c'.walkQueue = c.walkQueue) ∧
    (c.walkQueue = [] → ∀ va, ∃ w',
      doTurnIter env (modifyCreature w self fun _ => { c with visibleTiles := vis }) self [] va
        = .ok (w', true) ∧
      w'.creatures[self]? = some { c with visibleTiles := vis, actionQueue := b :: rest } ∧
      ∀ fuel, doTurnLoop env self [] va (fuel + 1)
          (modifyCreature w self fun _ => { c with visibleTiles := vis })
        = doTurnLoop env self [] va fuel w') := by
  have hc1 := queueOf_modifyCreature_const { c with visibleTiles := vis } hc
  have hq1 : ({ c with visibleTiles := vis } : Creature).actionQueue = a :: b :: rest := hq
  constructor
  · intro hw fuel
    have hlen : ¬ ({ c with visibleTiles := vis } : Creature).walkQueue.length = 0 := by
      intro h0
      exact hw (List.length_eq_zero.1 h0)
    have hiter := fun va => doTurnIter_walk env [] va hc1 hq1 ha hb
    simp only [hlen, if_false] at hiter
    rw [doTurn_no_enemy (fuel + 1) hc hp hvis hve]
    unfold doTurnLoop
    simp only [hiter]
    have hc3 : (modifyCreature
        { modifyCreature w self (fun _ => { c with visibleTiles := vis }) with
          randomCalls := (modifyCreature w self fun _ => { c with visibleTiles := vis }).randomCalls + 1 }
        self fun _ => { c with visibleTiles := vis }).creatures[self]?
        = some { c with visibleTiles := vis } := queueOf_modifyCreature_const _ hc1
    obtain ⟨b', v1, v2, hdbg⟩ := updateVisualDebug_ok env hc3 (p := p) hp
    exact ⟨_, _, hdbg, queueOf_modifyCreature_const _ hc3, rfl, rfl⟩
  · intro hw va
    have hlen : ({ c with visibleTiles := vis } : Creature).walkQueue.length = 0 := by
      show c.walkQueue.length = 0
      rw [hw]; rfl
    have hiter := doTurnIter_walk env [] va hc1 hq1 ha hb
    simp only [hlen, if_true] at hiter
    refine ⟨_, hiter, queueOf_modifyCreature_const _ hc1, ?_⟩
    intro fuel
    conv => lhs; unfold doTurnLoop
    simp only [hiter, if_true]

/-- Witness of C10: the agent has reached `(1,0)` and `(2,0)` is left in the
walk queue. -/
theorem walkToTile_reactive_witness :
    ∃ w' c', doTurn plainEnv 1 walkScene 0 = .ok w' ∧ w'.creatures[0]? = some c' ∧
      c'.actionQueue = [⟨.walkToTile, none⟩, ⟨.idle, none⟩] ∧ c'.walkQueue = [⟨2, 0, 0⟩] :=
  (walkToTile_reactive plainEnv walkScene 0 walker 1 [1, 2, 0] ⟨.walkToTile, none⟩ ⟨.idle, none⟩ []
    rfl (by with_unfolding_all decide) (by with_unfolding_all decide)
    (by with_unfolding_all decide) rfl rfl (by decide)).1 (by decide) 0

/-! ## Giving up digging -/

theorem firstMarkedNeighbor_none {w : World} {p : Player} :
    ∀ ns : List Nat,
      (∀ t ∈ ns, ∃ tile, w.tiles[t]? = some tile ∧ getMarkedForDigging tile p = false) →
      firstMarkedNeighbor w p ns = .ok none := by
  intro ns
  induction ns with
  | nil => intro _; rfl
  | cons n ns ih =>
    intro h
    obtain ⟨tile, ht, hm⟩ := h n (List.mem_cons_self _ _)
    unfold firstMarkedNeighbor tileOf
    simp only [ht, hm]
    exact ih fun t ht => h t (List.mem_cons_of_mem _ ht)

theorem markedTiles_nil {w : World} {c : Creature} {tp : Option Player}
    (h : ∀ pl, tp = some pl → ∀ t ∈ c.visibleTiles, ∀ tile, w.tiles[t]? = some tile →
      getMarkedForDigging tile pl = false) : markedTiles w c tp = [] := by
  unfold markedTiles
  rw [List.filter_eq_nil_iff]
  intro t ht
  cases tp with
  | none => simp
  | some pl =>
    cases htile : w.tiles[t]? with
    | none => simp
    | some tile => simp [h pl rfl t ht tile htile]

/-- The pass of the loop for a digging creature without a marked tile in
sight or next to it: `digTile` is popped and `loopBack` is set. -/
theorem doTurnIter_dig_abandon (env : Env) {w : World} {self : Nat} {c : Creature}
    {a : CreatureAction} {rest : List CreatureAction} (ve va : List Nat)
    (hc : w.creatures[self]? = some c) (hq : c.actionQueue = a :: rest) (ha : a.type = .digTile)
    (hv : ∀ pl, getControllingPlayer w c = some pl → ∀ t ∈ c.visibleTiles, ∀ tile,
      w.tiles[t]? = some tile → getMarkedForDigging tile pl = false)
    (hn : ∀ pl, getControllingPlayer w c = some pl →
      ∀ t ∈ env.neighborTiles w.tiles (toInt c.position.x) (toInt c.position.y),
        ∃ tile, w.tiles[t]? = some tile ∧ getMarkedForDigging tile pl = false) :
    doTurnIter env w self ve va =
      .ok (modifyCreature { w with randomCalls := w.randomCalls + 1 } self
        (fun _ => { c with actionQueue := rest }), true) := by
  have hbranch : digTileBranch env { w with randomCalls := w.randomCalls + 1 } c
      = .ok ({ w with randomCalls := w.randomCalls + 1 }, { c with actionQueue := rest }, true) := by
    unfold digTileBranch
    have hm : markedTiles { w with randomCalls := w.randomCalls + 1 } c
        (getControllingPlayer { w with randomCalls := w.randomCalls + 1 } c) = [] :=
      markedTiles_nil hv
    have hf : (match getControllingPlayer { w with randomCalls := w.randomCalls + 1 } c with
        | none => (Except.ok none : Except Fault (Option (Nat × Tile)))
        | some p => firstMarkedNeighbor { w with randomCalls := w.randomCalls + 1 } p
            (env.neighborTiles w.tiles (toInt c.position.x) (toInt c.position.y))) = .ok none := by
      cases hpl : getControllingPlayer { w with randomCalls := w.randomCalls + 1 } c with
      | none => rfl
      | some pl => exact firstMarkedNeighbor_none _ (hn pl hpl)
    simp only [hm, hf, approachMarkedTile, possiblePaths, List.length_nil, gt_iff_lt,
      lt_self_iff_false, if_false, finishDigging, hq, ha, if_true]
  unfold doTurnIter creatureOf
  simp only [hc, hq, ha, hbranch]

/-- The pass of the loop for an idle creature whose roll is at least 0.6:
nothing but the count of random numbers changes. -/
theorem doTurnIter_idle_stay (env : Env) {w : World} {self : Nat} {c : Creature}
    {a : CreatureAction} {rest : List CreatureAction} (ve va : List Nat)
    (hc : w.creatures[self]? = some c) (hq : c.actionQueue = a :: rest) (ha : a.type = .idle)
    (hroll : 6 / 10 ≤ env.randomDouble w.randomCalls 0 1) :
    doTurnIter env w self ve va =
      .ok (modifyCreature { w with randomCalls := w.randomCalls + 1 } self (fun _ => c), false) := by
  have h1 : ¬ (env.randomDouble w.randomCalls 0 1 < 4 / 10 ∧ c.digRate > 1 / 10) := by
    intro h
    have := h.1
    linarith
  have h2 : ¬ env.randomDouble w.randomCalls 0 1 < 6 / 10 := not_lt.2 hroll
  unfold doTurnIter creatureOf
  simp only [hc, hq, ha, idleBranch, h1, h2, if_false]

theorem idleBranch_loopBack {env : Env} {w w1 : World} {c c1 : Creature} {r : ℚ}
    (h : idleBranch env w c r = .ok (w1, c1, true)) :
    w1 = w ∧ c1 = { c with actionQueue := ⟨.digTile, none⟩ :: c.actionQueue } := by
  unfold idleBranch at h
  split at h
  · cases h; exact ⟨rfl, rfl⟩
  · split at h
    · split at h
      · cases h
      · split at h
        · cases h
        · dsimp only at h
          split at h
          · split at h
            · cases h
            · cases h
          · cases h
    · cases h

theorem updateVisualDebug_tiles {env : Env} {w w' : World} {self : Nat}
    (h : updateVisualDebug env w self = .ok w') : w'.tiles = w.tiles := by
  unfold updateVisualDebug at h
  split at h
  · cases h
  · split at h
    · split at h
      · cases h
      · split at h
        · cases h
        · cases h; rfl
    · cases h; rfl

theorem abandon_pass {env : Env} {w0 w w' : World} {c0 : Creature} {vis : List Nat}
    {b : CreatureAction} {self : Nat} {va : List Nat} {lb : Bool} (hb : b.type = .idle)
    (hv : ∀ pl, getControllingPlayer w0 c0 = some pl → ∀ t ∈ vis, ∀ tile,
      w0.tiles[t]? = some tile → getMarkedForDigging tile pl = false)
    (hn : ∀ pl, getControllingPlayer w0 c0 = some pl →
      ∀ t ∈ env.neighborTiles w0.tiles (toInt c0.position.x) (toInt c0.position.y),
        ∃ tile, w0.tiles[t]? = some tile ∧ getMarkedForDigging tile pl = false)
    (hinv : abandonInv w0 c0 vis b self w)
    (h : doTurnIter env w self [] va = .ok (w', lb)) :
    w'.tiles = w0.tiles ∧ (lb = true → abandonInv w0 c0 vis b self w') := by
  obtain ⟨ht, hme, hpl, c, hc, hcv, hcp, hcc, hq | ⟨a, ha, hq⟩⟩ := hinv
  · unfold doTurnIter creatureOf at h
    simp only [hc, hq, hb] at h
    split at h
    · cases h
    · next w1 c1 lb1 hr =>
      cases h
      have hstep := idleBranch_step hr
      refine ⟨by rw [← ht]; exact hstep.2.2, ?_⟩
      intro hlb
      subst hlb
      obtain ⟨hw1, hc1⟩ := idleBranch_loopBack hr
      subst hw1 hc1
      refine ⟨ht, hme, hpl, _, queueOf_modifyCreature_const _ hc, hcv, hcp, hcc, Or.inr ?_⟩
      exact ⟨⟨.digTile, none⟩, rfl, by simp [hq]⟩
  · have hgp : getControllingPlayer w c = getControllingPlayer w0 c0 := by
      unfold getControllingPlayer
      rw [hme, hpl, hcc]
    rw [doTurnIter_dig_abandon env [] va hc hq ha
      (by rw [hgp, hcv, ht]; exact hv) (by rw [hgp, hcp, ht]; exact hn)] at h
    cases h
    refine ⟨ht, fun _ => ⟨ht, hme, hpl, _, queueOf_modifyCreature_const _ hc, hcv, hcp, hcc,
      Or.inl rfl⟩⟩

theorem abandon_loop {env : Env} {w0 : World} {c0 : Creature} {vis : List Nat}
    {b : CreatureAction} {self : Nat} {va : List Nat} (hb : b.type = .idle)
    (hv : ∀ pl, getControllingPlayer w0 c0 = some pl → ∀ t ∈ vis, ∀ tile,
      w0.tiles[t]? = some tile → getMarkedForDigging tile pl = false)
    (hn : ∀ pl, getControllingPlayer w0 c0 = some pl →
      ∀ t ∈ env.neighborTiles w0.tiles (toInt c0.position.x) (toInt c0.position.y),
        ∃ tile, w0.tiles[t]? = some tile ∧ getMarkedForDigging tile pl = false) :
    ∀ (fuel : Nat) (w w' : World), abandonInv w0 c0 vis b self w →
      doTurnLoop env self [] va fuel w = .ok w' → w'.tiles = w0.tiles := by
  intro fuel
  induction fuel with
  | zero => intro w w' _ h; simp [doTurnLoop] at h
  | succ fuel ih =>
    intro w w' hinv h
    unfold doTurnLoop at h
    split at h
    · cases h
    · next w1 lb hiter =>
      obtain ⟨ht1, hinv1⟩ := abandon_pass hb hv hn hinv hiter
      split at h
      · next hlb => exact ih _ _ (hinv1 hlb) h
      · cases h; exact ht1

/-- Two passes of the loop for a digging creature that finds nothing to dig
and whose roll in the second pass is at least 0.6. -/
theorem abandon_two_passes (env : Env) {w : World} {self : Nat} {c : Creature}
    {a b : CreatureAction} (va : List Nat) (n : Nat)
    (hc : w.creatures[self]? = some c) (hq : c.actionQueue = a :: [b]) (ha : a.type = .digTile)
    (hb : b.type = .idle)
    (hv : ∀ pl, getControllingPlayer w c = some pl → ∀ t ∈ c.visibleTiles, ∀ tile,
      w.tiles[t]? = some tile → getMarkedForDigging tile pl = false)
    (hn : ∀ pl, getControllingPlayer w c = some pl →
      ∀ t ∈ env.neighborTiles w.tiles (toInt c.position.x) (toInt c.position.y),
        ∃ tile, w.tiles[t]? = some tile ∧ getMarkedForDigging tile pl = false)
    (hroll : 6 / 10 ≤ env.randomDouble (w.randomCalls + 1) 0 1) :
    ∃ w3, doTurnLoop env self [] va (n + 2) w = .ok w3 ∧
      w3.creatures[self]? = some { c with actionQueue := [b] } ∧ w3.tiles = w.tiles := by
  have hpass1 := doTurnIter_dig_abandon env [] va hc hq ha hv hn
  have hc2 := queueOf_modifyCreature_const (w := { w with randomCalls := w.randomCalls + 1 })
    { c with actionQueue := [b] } hc
  have hq2 : ({ c with actionQueue := [b] } : Creature).actionQueue = b :: [] := rfl
  have hpass2 := doTurnIter_idle_stay env [] va hc2 hq2 hb hroll
  unfold doTurnLoop
  simp only [hpass1, if_true]
  unfold doTurnLoop
  simp only [hpass2, Bool.false_eq_true, if_false]
  exact ⟨_, rfl, queueOf_modifyCreature_const _ hc2, rfl⟩

/-- C8, counterexample.  The creature `quitter` of `quitScene` stands on the
grid with the queue `[digTile, idle]`, sees no other creature and no tile of
the map is marked for digging; with the rolls of `plainEnv` (0.5 in every
pass) its tick ends with the queue `[walkToTile, idle]`, not `[idle]`. -/
theorem abandon_digging_counterexample :
    quitScene.creatures[0]? = some quitter ∧
    quitter.actionQueue = [⟨.digTile, none⟩, ⟨.idle, none⟩] ∧
    (∀ tile ∈ quitScene.tiles, tile.markedForDigging = []) ∧
    (doTurn plainEnv 5 quitScene 0).toOption.map (fun w => queueOf w 0)
      = some [⟨.walkToTile, none⟩, ⟨.idle, none⟩] := by
  refine ⟨rfl, rfl, by decide, by with_unfolding_all decide⟩

/-- C8, amended.  For a creature on the grid with the queue `[digTile, idle]`
that sees no enemy and has no tile marked by its controlling player among its
visible tiles or its neighbour tiles: the first pass of the loop of a tick
pops `digTile`, leaves `[idle]`, changes no tile and loops back; when the roll
of the pass that follows is at least 0.6 the tick ends with the queue `[idle]`
and all tiles unchanged; and whenever the tick ends, whatever the rolls, no
tile has changed. -/
theorem abandon_digging (env : Env) (w : World) (self : Nat) (c : Creature) (p : Nat)
    (vis : List Nat) (a b : CreatureAction)
    (hc : w.creatures[self]? = some c) (hp : positionTile w c = some p)
    (hvis : updateVisibleTiles env w c = .ok vis)
    (hve : getVisibleEnemies (modifyCreature w self fun _ => { c with visibleTiles := vis })
      { c with visibleTiles := vis } = [])
    (hq : c.actionQueue = [a, b]) (ha : a.type = .digTile) (hb : b.type = .idle)
    (hv : ∀ pl, getControllingPlayer w c = some pl → ∀ t ∈ vis, ∀ tile,
      w.tiles[t]? = some tile → getMarkedForDigging tile pl = false)
    (hn : ∀ pl, getControllingPlayer w c = some pl →
      ∀ t ∈ env.neighborTiles w.tiles (toInt c.position.x) (toInt c.position.y),
        ∃ tile, w.tiles[t]? = some tile ∧ getMarkedForDigging tile pl = false) :
    (∀ va, ∃ w',
      doTurnIter env (modifyCreature w self fun _ => { c with visibleTiles := vis }) self [] va
        = .ok (w', true) ∧
      queueOf w' self = [b] ∧ w'.tiles = w.tiles) ∧
    (6 / 10 ≤ env.randomDouble (w.randomCalls + 1) 0 1 →
      ∀ n, ∃ w', doTurn env (n + 2) w self = .ok w' ∧ queueOf w' self = [b] ∧
        w'.tiles = w.tiles) ∧
    (∀ fuel w', doTurn env fuel w self = .ok w' → w'.tiles = w.tiles) := by
  have hc1 := queueOf_modifyCreature_const { c with visibleTiles := vis } hc
  have hq1 : ({ c with visibleTiles := vis } : Creature).actionQueue = a :: [b] := hq
  have hpass1 := fun va => doTurnIter_dig_abandon env
    (w := modifyCreature w self fun _ => { c with visibleTiles := vis }) [] va hc1 hq1 ha hv hn
  refine ⟨?_, ?_, ?_⟩
  · intro va
    exact ⟨_, hpass1 va, queueOf_eq (queueOf_modifyCreature_const _ hc1), rfl⟩
  · intro hroll n
    rw [doTurn_no_enemy (n + 2) hc hp hvis hve]
    obtain ⟨w3, hloop, hc3, ht3⟩ := abandon_two_passes env
      (getVisibleAllies (modifyCreature w self fun _ => { c with visibleTiles := vis })
        { c with visibleTiles := vis }) n hc1 hq1 ha hb hv hn hroll
    have hp3 : positionTile w3 { c with visibleTiles := vis, actionQueue := [b] } = some p := by
      unfold positionTile
      rw [ht3]
      exact hp
    obtain ⟨b', v1, v2, hdbg⟩ := updateVisualDebug_ok env hc3 hp3
    rw [hloop]
    exact ⟨_, hdbg, queueOf_eq (queueOf_modifyCreature_const _ hc3), ht3⟩
  · intro fuel w' h
    rw [doTurn_no_enemy fuel hc hp hvis hve] at h
    split at h
    · cases h
    · next w3 hloop =>
      rw [updateVisualDebug_tiles h]
      have hinv : abandonInv w c vis b self
          (modifyCreature w self fun _ => { c with visibleTiles := vis }) :=
        ⟨rfl, rfl, rfl, _, hc1, rfl, rfl, rfl, Or.inr ⟨a, ha, hq⟩⟩
      exact abandon_loop hb hv hn fuel _ _ hinv hloop

/-- Witness of C8 (amended): the creature `quitter` with collaborators whose
rolls are all 0.7. -/
theorem abandon_digging_witness :
    ∃ w', doTurn { plainEnv with randomDouble := fun _ _ _ => 7 / 10 } 2 quitScene 0 = .ok w' ∧
      queueOf w' 0 = [⟨.idle, none⟩] ∧ w'.tiles = quitScene.tiles :=
  (abandon_digging { plainEnv with randomDouble := fun _ _ _ => 7 / 10 } quitScene 0 quitter 0
    [0, 1, 2] ⟨.digTile, none⟩ ⟨.idle, none⟩ rfl (by with_unfolding_all decide)
    (by with_unfolding_all decide) (by with_unfolding_all decide) rfl rfl rfl
    (by with_unfolding_all decide) (by with_unfolding_all decide)).2.1
    (by with_unfolding_all decide) 0

/-- C6, evaluated at the scenario of the claim: agent at `(0,0)` with sight
radius 5 and weapon ranges 4 and 1 (damage 2 + 3), attacking; enemy at `(3,0)`
with hp 10; walk queue `[(4,0)]`.  Even when the unassigned `myTile` happens to
hold the agent's own tile, the tick subtracts 5 from the enemy's hp and then
clears the walk queue; when the path found has six tiles it also adds the
tile at index 3 of the path as a destination; and when `myTile` holds the
coordinates `(50, 50)` the enemy in range is not hit at all. -/
theorem attack_in_range_moves :
    attackScene.creatures.map (fun c => (c.hp, c.walkQueue)) = [(10, [⟨4, 0, 0⟩]), (10, [])] ∧
    (doTurn plainEnv 3 attackScene 0).toOption.map
        (fun w => w.creatures.map fun c => (c.hp, c.walkQueue))
      = some [(10, []), (5, [])] ∧
    (doTurn { plainEnv with path := fun _ _ _ _ _ _ => [0, 1, 2, 3, 4, 0] } 3 attackScene 0).toOption.map
        (fun w => w.creatures.map fun c => (c.hp, c.walkQueue))
      = some [(10, [⟨3, 0, 0⟩]), (5, [])] ∧
    (doTurn { plainEnv with uninitMyTile := some (50, 50) } 3 attackScene 0).toOption.map
        (fun w => w.creatures.map fun c => (c.hp, c.walkQueue))
      = some [(10, []), (10, [])] := by
  refine ⟨?_, ?_, ?_, ?_⟩ <;> with_unfolding_all decide

/-! ## Constructors, stream operators, camera and goal -/

/-- C12, counterexample.  The class-description constructor leaves the action
queue empty: it is not `[idle]`, and a tick of such an object on the grid
stops at the fatal test for an empty action queue (lines 640-644). -/
theorem constructors_idle_counterexample :
    koboldClass.actionQueue = [] ∧ koboldClass.actionQueue ≠ [⟨.idle, none⟩] ∧
    doTurn plainEnv 3 classScene 0 = .error .emptyActionQueue := by
  refine ⟨rfl, by decide, by with_unfolding_all decide⟩

/-- C12, amended.  The default constructor yields a creature whose action
queue is exactly `[idle]` (so it is not empty and ends in `idle`); the
class-description constructor, which sets nothing that is specific to a
creature, yields an empty action queue. -/
theorem constructors_idle (u : Creature) (nClassName nMeshName : String) (nScale : Vector3)
    (nHP nMana : Int) (nSightRadius nDigRate nMoveSpeed : ℚ) :
    (newCreature u).actionQueue = [⟨.idle, none⟩] ∧ bottomIdle (newCreature u).actionQueue ∧
    (newCreatureClass u nClassName nMeshName nScale nHP nMana nSightRadius nDigRate
      nMoveSpeed).actionQueue = [] := by
  refine ⟨rfl, ?_, rfl⟩
  simp [newCreature, bottomIdle]

/-- C13, evaluated at the creature `knight` (left weapon of range 1 and
damage 5, right weapon of range 3 and damage 2).  `operator<<` writes the
right weapon before the left one, `operator>>` reads the first weapon into
`weaponL` and the second into `weaponR`: class name, name, position and colour
come back, the weapons come back exchanged. -/
theorem stream_round_trip_swaps_weapons :
    (knight.weaponL, knight.weaponR) = (some ⟨1, 5⟩, some ⟨3, 2⟩) ∧
    (writeCreature knight).toOption.bind (fun s =>
        (readCreature (fun _ => none) 1 (newCreature {}) s).map fun r =>
          (r.1.className, r.1.name, r.1.position, r.1.color, r.1.weaponL, r.1.weaponR))
      = some ("Knight", "Lancelot", ⟨3, 4, 0⟩, 2, some ⟨3, 2⟩, some ⟨1, 5⟩) := by
  refine ⟨rfl, by with_unfolding_all rfl⟩

/-- C14, evaluated at a camera with move speed 1, acceleration 2 and rotate
speed 3.  After `setMoveSpeedAccel(5)` the getter `getMoveSpeedAccel` still
returns 2 and `getMoveSpeed` returns 5; `setMoveSpeed` and `setRotateSpeed`
are read back by their getters. -/
theorem setMoveSpeedAccel_sets_moveSpeed :
    ((⟨1, 2, 3⟩ : CameraManager).setMoveSpeedAccel 5).getMoveSpeedAccel = 2 ∧
    ((⟨1, 2, 3⟩ : CameraManager).setMoveSpeedAccel 5).getMoveSpeed = 5 ∧
    ((⟨1, 2, 3⟩ : CameraManager).setMoveSpeed 5).getMoveSpeed = 5 ∧
    ((⟨1, 2, 3⟩ : CameraManager).setRotateSpeed 5).getRotateSpeed = 5 := by
  refine ⟨rfl, rfl, rfl, rfl⟩

/-- C15, evaluated at a goal of 5 tiles and a seat that has claimed exactly 5
tiles: `isMet` holds although 5 is not more than 5, and the message for a goal
that is met says "more than 5". -/
theorem isMet_at_exactly_n :
    (⟨"claim", 5⟩ : GoalClaimNTiles).isMet ⟨5⟩ = true ∧ ¬ ((5 : Int) > 5) ∧
    (⟨"claim", 5⟩ : GoalClaimNTiles).getSuccessMessage = "You have claimed more than 5 tiles." ∧
    (⟨"claim", 5⟩ : GoalClaimNTiles).getFailedMessage
      = "You have failed to claim more than 5 tiles." := by
  refine ⟨by decide, by decide, by decide, by decide⟩

/-! ## Path selection, idle and stale goals -/

/-- C19, evaluated at the candidate lengths 2, 10, 8, 3, 3, 3 of the claim.
When the sixth path is added the scan of lines 486-495 stores the size of the
kept set (6) in `longestLength` after it has met the path of length 10, so the
path of length 8 counts as longer still: index 2 is erased, the kept paths
have lengths 2, 10, 3, 3, 3, and the kept path of length 10 is longer than the
discarded path of length 8. -/
theorem shortPaths_evicts_wrong_path :
    candidatePaths.map List.length = [2, 10, 8, 3, 3, 3] ∧
    longestIndex candidatePaths = 2 ∧
    (selectShortPaths candidatePaths []).map List.length = [2, 10, 3, 3, 3] := by
  refine ⟨by decide, by decide, by decide⟩

/-- C18, evaluated at the creature `sapper`, whose walk queue holds the one
destination `(1,0)`, a tile marked by its player.  The staleness check looks
at `walkQueue[1]`, one past the end.  When the vector read there is `(3,0)`,
an unmarked tile, the pass clears the walk queue (and pops `walkToTile`)
although the destination is still marked; when it is `(1,0)` or names no tile
the walk queue is kept. -/
theorem stale_goal_reads_past_end :
    sapper.walkQueue.length = 1 ∧ sapper.walkQueue[sapper.walkQueue.length]? = none ∧
    (doTurnIter { plainEnv with walkQueuePastEnd := ⟨3, 0, 0⟩ } sapperScene 0 [] []).toOption.map
        (fun r => (r.1.creatures.map (fun c => (c.walkQueue, c.actionQueue.map (fun a => a.type))),
          r.2))
      = some ([([], [.digTile, .idle])], true) ∧
    (doTurnIter { plainEnv with walkQueuePastEnd := ⟨1, 0, 0⟩ } sapperScene 0 [] []).toOption.map
        (fun r => (r.1.creatures.map (fun c => (c.walkQueue, c.actionQueue.map (fun a => a.type))),
          r.2))
      = some ([([⟨1, 0, 0⟩], [.walkToTile, .digTile, .idle])], false) ∧
    (doTurnIter { plainEnv with walkQueuePastEnd := ⟨9, 9, 0⟩ } sapperScene 0 [] []).toOption.map
        (fun r => (r.1.creatures.map (fun c => (c.walkQueue, c.actionQueue.map (fun a => a.type))),
          r.2))
      = some ([([⟨1, 0, 0⟩], [.walkToTile, .digTile, .idle])], false) := by
  refine ⟨rfl, rfl, ?_, ?_, ?_⟩ <;> with_unfolding_all decide

/-- The pass of the loop for an idle creature of dig rate above 0.1 whose
roll is below 0.4: `digTile` is pushed and `loopBack` is set. -/
theorem doTurnIter_idle_dig (env : Env) {w : World} {self : Nat} {c : Creature}
    {a : CreatureAction} {rest : List CreatureAction} (ve va : List Nat)
    (hc : w.creatures[self]? = some c) (hq : c.actionQueue = a :: rest) (ha : a.type = .idle)
    (hroll : env.randomDouble w.randomCalls 0 1 < 4 / 10) (hd : c.digRate > 1 / 10) :
    doTurnIter env w self ve va =
      .ok (modifyCreature { w with randomCalls := w.randomCalls + 1 } self
        (fun _ => { c with actionQueue := ⟨.digTile, none⟩ :: c.actionQueue }), true) := by
  have h1 : env.randomDouble w.randomCalls 0 1 < 4 / 10 ∧ c.digRate > 1 / 10 := ⟨hroll, hd⟩
  unfold doTurnIter creatureOf
  simp only [hc, hq, ha, idleBranch, h1, and_self, if_true]

theorem tileOf_fuel (w : World) (t : Nat) : tileOf w t ≠ .error .outOfFuel := by
  unfold tileOf; split <;> simp

theorem creatureOf_fuel (w : World) (i : Nat) : creatureOf w i ≠ .error .outOfFuel := by
  unfold creatureOf; split <;> simp

theorem addDestinations_fuel (w : World) :
    ∀ (ts : List Nat) (c : Creature), addDestinations w c ts ≠ .error .outOfFuel := by
  intro ts
  induction ts with
  | nil => intro c; simp [addDestinations]
  | cons t ts ih =>
    intro c h
    unfold addDestinations at h
    split at h
    · next f hf => cases h; exact tileOf_fuel _ _ hf
    · exact ih _ h

theorem idleBranch_fuel (env : Env) (w : World) (c : Creature) (r : ℚ) :
    idleBranch env w c r ≠ .error .outOfFuel := by
  intro h
  unfold idleBranch at h
  split at h
  · cases h
  · split at h
    · split at h
      · cases h
      · split at h
        · next f hf => cases h; exact tileOf_fuel _ _ hf
        · dsimp only at h
          split at h
          · split at h
            · next f hf => cases h; exact addDestinations_fuel _ _ _ hf
            · cases h
          · cases h
    · cases h

theorem walkToTileBranch_fuel (env : Env) (w : World) (c : Creature) :
    walkToTileBranch env w c ≠ .error .outOfFuel := by
  intro h
  unfold walkToTileBranch at h
  split at h
  · cases h
  · dsimp only at h
    split at h <;> split at h <;> cases h

theorem firstMarkedNeighbor_fuel (w : World) (p : Player) :
    ∀ ns : List Nat, firstMarkedNeighbor w p ns ≠ .error .outOfFuel := by
  intro ns
  induction ns with
  | nil => simp [firstMarkedNeighbor]
  | cons n ns ih =>
    intro h
    unfold firstMarkedNeighbor at h
    split at h
    · next f hf => cases h; exact tileOf_fuel _ _ hf
    · split at h
      · cases h
      · exact ih h

theorem digNeighbor_fuel (env : Env) (w : World) (c : Creature) (t : Nat) :
    digNeighbor env w c t ≠ .error .outOfFuel := by
  intro h
  unfold digNeighbor at h
  split at h
  · next f hf => cases h; exact tileOf_fuel _ _ hf
  · dsimp only at h
    split at h <;> split at h <;> cases h

theorem pathsToNeighbors_fuel (env : Env) (w : World) (c : Creature) :
    ∀ ns : List Nat, pathsToNeighbors env w c ns ≠ .error .outOfFuel := by
  intro ns
  induction ns with
  | nil => simp [pathsToNeighbors]
  | cons n ns ih =>
    intro h
    unfold pathsToNeighbors at h
    split at h
    · next f hf => cases h; exact tileOf_fuel _ _ hf
    · split at h
      · split at h
        · cases h
        · split at h
          · cases h
          · next f hf => cases h; exact tileOf_fuel _ _ hf
          · cases h; exact ih (by assumption)
      · exact ih h

theorem possiblePaths_fuel (env : Env) (w : World) (c : Creature) :
    ∀ ms : List Nat, possiblePaths env w c ms ≠ .error .outOfFuel := by
  intro ms
  induction ms with
  | nil => simp [possiblePaths]
  | cons m ms ih =>
    intro h
    unfold possiblePaths at h
    split at h
    · next f hf => cases h; exact tileOf_fuel _ _ hf
    · split at h
      · cases h
      · next f hf => cases h; exact pathsToNeighbors_fuel _ _ _ _ hf
      · cases h; exact ih (by assumption)

theorem approachMarkedTile_fuel (env : Env) (w : World) (c : Creature) (marked : List Nat) :
    approachMarkedTile env w c marked ≠ .error .outOfFuel := by
  intro h
  unfold approachMarkedTile at h
  split at h
  · next f hf => cases h; exact possiblePaths_fuel _ _ _ _ hf
  · split at h
    · dsimp only at h
      split at h
      · split at h
        · cases h
        · split at h
          · cases h
          · split at h
            · split at h
              · next f hf => cases h; exact addDestinations_fuel _ _ _ hf
              · cases h
            · cases h
      · cases h
    · cases h

theorem digTileBranch_fuel (env : Env) (w : World) (c : Creature) :
    digTileBranch env w c ≠ .error .outOfFuel := by
  intro h
  unfold digTileBranch at h
  dsimp only at h
  split at h
  · next f hf =>
    cases h
    split at hf
    · cases hf
    · exact firstMarkedNeighbor_fuel _ _ _ hf
  · split at h
    · next f hf => cases h; exact digNeighbor_fuel _ _ _ _ hf
    · cases h
  · exact approachMarkedTile_fuel _ _ _ _ h

theorem attackFirstInRange_fuel (env : Env) (w : World) (c : Creature) :
    ∀ ve : List Nat, attackFirstInRange env w c ve ≠ .error .outOfFuel := by
  intro ve
  induction ve with
  | nil => simp [attackFirstInRange]
  | cons e es ih =>
    intro h
    unfold attackFirstInRange at h
    split at h
    · cases h; exact creatureOf_fuel _ _ (by assumption)
    · split at h
      · cases h
      · split at h
        · cases h; exact tileOf_fuel _ _ (by assumption)
        · cases h
        · dsimp only at h
          split at h
          · cases h
          · exact ih h
        · cases h

theorem enemyTerms_fuel (w : World) (myTile : Option Tile) (tempTile : Tile) :
    ∀ es : List Nat, enemyTerms w myTile tempTile es ≠ .error .outOfFuel := by
  intro es
  induction es with
  | nil => simp [enemyTerms]
  | cons e es ih =>
    intro h
    unfold enemyTerms at h
    split at h
    · cases h; exact creatureOf_fuel _ _ (by assumption)
    · split at h
      · split at h
        · cases h; exact ih (by assumption)
        · cases h
      · cases h

theorem allyTerms_fuel (w : World) (myTile : Option Tile) (tempTile : Tile) :
    ∀ as : List Nat, allyTerms w myTile tempTile as ≠ .error .outOfFuel := by
  intro as
  induction as with
  | nil => simp [allyTerms]
  | cons e es ih =>
    intro h
    unfold allyTerms at h
    split at h
    · cases h; exact creatureOf_fuel _ _ (by assumption)
    · split at h
      · split at h
        · cases h; exact ih (by assumption)
        · cases h
      · cases h

theorem buildField_fuel (env : Env) (w : World) (myTile : Option Tile) (ve va : List Nat) :
    ∀ (ts : List Nat) (k : Nat) (field : List ((Int × Int) × TileValue)),
      buildField env w myTile ve va ts k field ≠ .error .outOfFuel := by
  intro ts
  induction ts with
  | nil => intro k field; simp [buildField]
  | cons t ts ih =>
    intro k field h
    unfold buildField at h
    split at h
    · cases h; exact tileOf_fuel _ _ (by assumption)
    · split at h
      · exact ih _ _ h
      · cases h; exact enemyTerms_fuel _ _ _ _ (by assumption)
      · cases h; exact allyTerms_fuel _ _ _ _ (by assumption)

theorem attackCreatureBranch_fuel (env : Env) (w : World) (self : Nat) (c : Creature)
    (ve va : List Nat) : attackCreatureBranch env w self c ve va ≠ .error .outOfFuel := by
  intro h
  unfold attackCreatureBranch at h
  split at h
  · cases h
  · split at h
    · cases h; exact attackFirstInRange_fuel _ _ _ _ (by assumption)
    · split at h
      · cases h; exact creatureOf_fuel _ _ (by assumption)
      · dsimp only at h
        split at h
        · cases h; exact buildField_fuel _ _ _ _ _ _ _ _ (by assumption)
        · split at h
          · cases h
          · split at h
            · split at h
              · cases h
              · split at h
                · cases h; exact tileOf_fuel _ _ (by assumption)
                · cases h
            · cases h

/-- A pass of the loop never reports that the bound on the passes is
used up: that is reported by `doTurnLoop` alone. -/
theorem doTurnIter_fuel (env : Env) (w : World) (self : Nat) (ve va : List Nat) :
    doTurnIter env w self ve va ≠ .error .outOfFuel := by
  intro h
  unfold doTurnIter at h
  split at h
  · cases h; exact creatureOf_fuel _ _ (by assumption)
  · dsimp only at h
    split at h
    · cases h
    · next a rest hq =>
      split at h
      · next f hr =>
        cases h
        cases hty : a.type with
        | idle => simp only [hty] at hr; exact idleBranch_fuel _ _ _ _ hr
        | walkToTile => simp only [hty] at hr; exact walkToTileBranch_fuel _ _ _ hr
        | digTile => simp only [hty] at hr; exact digTileBranch_fuel _ _ _ hr
        | attackCreature => simp only [hty] at hr; exact attackCreatureBranch_fuel _ _ _ _ _ _ hr
      · cases h

theorem idleBranch_loopBack_roll {env : Env} {w w1 : World} {c c1 : Creature} {r : ℚ}
    (h : idleBranch env w c r = .ok (w1, c1, true)) : r < 4 / 10 := by
  unfold idleBranch at h
  split at h
  · next hc => exact hc.1
  · split at h
    · split at h
      · cases h
      · split at h
        · cases h
        · dsimp only at h
          split at h
          · split at h
            · cases h
            · cases h
          · cases h
    · cases h

theorem walkToTileBranch_loopBack {env : Env} {w w1 : World} {c c1 : Creature}
    (h : walkToTileBranch env w c = .ok (w1, c1, true)) :
    w1 = w ∧ c1.actionQueue = c.actionQueue.tail := by
  unfold walkToTileBranch at h
  split at h
  · cases h
  · dsimp only at h
    split at h
    · split at h
      · cases h
        exact ⟨rfl, by simp [(abortOnStaleGoal_fields env w c).1]⟩
      · cases h
    · split at h
      · cases h; exact ⟨rfl, rfl⟩
      · cases h

theorem finishDigging_loopBack {w0 w1 : World} {c c1 : Creature}
    (h : (Except.ok (finishDigging w0 c) : Except Fault (World × Creature × Bool))
      = .ok (w1, c1, true)) :
    w1 = w0 ∧ ∃ a, c.actionQueue = a :: c1.actionQueue := by
  have e := Except.ok.inj h
  unfold finishDigging at e
  split at e
  · next a rest hq =>
    split at e
    · cases e; exact ⟨rfl, a, hq⟩
    · cases e
  · cases e

theorem approachMarkedTile_loopBack {env : Env} {w w1 : World} {c c1 : Creature}
    {marked : List Nat} (h : approachMarkedTile env w c marked = .ok (w1, c1, true)) :
    w.randomCalls ≤ w1.randomCalls ∧ w1.creatures = w.creatures ∧
      ∃ a, c.actionQueue = a :: c1.actionQueue := by
  unfold approachMarkedTile at h
  split at h
  · cases h
  · split at h
    · dsimp only at h
      split at h
      · split at h
        · cases h
        · split at h
          · cases h
          · split at h
            · split at h
              · cases h
              · cases h
            · obtain ⟨e, ha⟩ := finishDigging_loopBack h
              subst e
              exact ⟨Nat.le_succ _, rfl, ha⟩
      · obtain ⟨e, ha⟩ := finishDigging_loopBack h
        subst e
        exact ⟨le_refl _, rfl, ha⟩
    · obtain ⟨e, ha⟩ := finishDigging_loopBack h
      subst e
      exact ⟨le_refl _, rfl, ha⟩

theorem digTileBranch_loopBack {env : Env} {w w1 : World} {c c1 : Creature}
    (h : digTileBranch env w c = .ok (w1, c1, true)) :
    w.randomCalls ≤ w1.randomCalls ∧ w1.creatures = w.creatures ∧
      ∃ a, c.actionQueue = a :: c1.actionQueue := by
  unfold digTileBranch at h
  dsimp only at h
  split at h
  · cases h
  · split at h
    · cases h
    · cases h
  · exact approachMarkedTile_loopBack h

theorem attackCreatureBranch_loopBack {env : Env} {w w1 : World} {self : Nat} {c c1 : Creature}
    {ve va : List Nat} (h : attackCreatureBranch env w self c ve va = .ok (w1, c1, true)) :
    w1 = w ∧ c1.actionQueue = c.actionQueue.tail := by
  unfold attackCreatureBranch at h
  split at h
  · cases h; exact ⟨rfl, rfl⟩
  · split at h
    · cases h
    · split at h
      · cases h
      · dsimp only at h
        split at h
        · cases h
        · split at h
          · cases h
          · split at h
            · split at h
              · cases h
              · split at h
                · cases h
                · cases h
            · cases h

/-- A pass of the loop that sets `loopBack` draws at least one random number
and either is an idle pass with a roll below 0.4 that pushes `digTile`, or pops
the top of the action queue. -/
theorem doTurnIter_loopBack {env : Env} {w w' : World} {self : Nat} {ve va : List Nat}
    (h : doTurnIter env w self ve va = .ok (w', true)) :
    ∃ c c', w.creatures[self]? = some c ∧ w'.creatures[self]? = some c' ∧
      w.randomCalls < w'.randomCalls ∧
      ((env.randomDouble w.randomCalls 0 1 < 4 / 10 ∧ w'.randomCalls = w.randomCalls + 1 ∧
          c'.actionQueue = ⟨.digTile, none⟩ :: c.actionQueue) ∨
        ∃ a, c.actionQueue = a :: c'.actionQueue) := by
  unfold doTurnIter at h
  split at h
  · cases h
  · next c hc =>
    have hc := creatureOf_ok hc
    dsimp only at h
    split at h
    · cases h
    · next a rest hq =>
      split at h
      · cases h
      · next w1 c1 lb1 hr =>
        cases h
        have key : w1.creatures.length = w.creatures.length ∧ w.randomCalls < w1.randomCalls ∧
            ((env.randomDouble w.randomCalls 0 1 < 4 / 10 ∧ w1.randomCalls = w.randomCalls + 1 ∧
              c1.actionQueue = ⟨.digTile, none⟩ :: c.actionQueue) ∨
            ∃ a, c.actionQueue = a :: c1.actionQueue) := by
          cases hty : a.type with
          | idle =>
            simp only [hty] at hr
            obtain ⟨e1, e2⟩ := idleBranch_loopBack hr
            have hroll := idleBranch_loopBack_roll hr
            subst e1 e2
            exact ⟨rfl, Nat.lt_succ_self _, Or.inl ⟨hroll, rfl, rfl⟩⟩
          | walkToTile =>
            simp only [hty] at hr
            obtain ⟨e1, e2⟩ := walkToTileBranch_loopBack hr
            subst e1
            exact ⟨rfl, Nat.lt_succ_self _, Or.inr ⟨a, by rw [e2, hq]; rfl⟩⟩
          | digTile =>
            simp only [hty] at hr
            obtain ⟨e1, e2, e3⟩ := digTileBranch_loopBack hr
            exact ⟨by rw [e2], Nat.lt_of_lt_of_le (Nat.lt_succ_self _) e1, Or.inr e3⟩
          | attackCreature =>
            simp only [hty] at hr
            obtain ⟨e1, e2⟩ := attackCreatureBranch_loopBack hr
            subst e1
            exact ⟨rfl, Nat.lt_succ_self _, Or.inr ⟨a, by rw [e2, hq]; rfl⟩⟩
        obtain ⟨c0, hc0⟩ := getElem?_isSome_of_length w1 hc key.1
        exact ⟨c, c1, hc, queueOf_modifyCreature_const c1 hc0, key.2.1, key.2.2⟩

theorem doTurnLoop_bounded {env : Env} {self : Nat} {ve va : List Nat} (B : Nat)
    (hroll : ∀ k, B ≤ k → 4 / 10 ≤ env.randomDouble k 0 1) :
    ∀ (fuel : Nat) (w : World), bottomIdle (queueOf w self) →
      (queueOf w self).length + 2 * (B - w.randomCalls) ≤ fuel →
      doTurnLoop env self ve va fuel w ≠ .error .outOfFuel := by
  intro fuel
  induction fuel with
  | zero =>
    intro w hb hf _
    have : queueOf w self = [] := List.length_eq_zero.1 (by omega)
    exact bottomIdle_ne_nil hb this
  | succ fuel ih =>
    intro w hb hf h
    unfold doTurnLoop at h
    split at h
    · cases h; exact doTurnIter_fuel _ _ _ _ _ (by assumption)
    · next w1 lb hiter =>
      split at h
      · next hlb =>
        subst hlb
        have hb1 := doTurnIter_bottomIdle hb hiter
        obtain ⟨c, c', hc, hc', hrc, hcase⟩ := doTurnIter_loopBack hiter
        rw [queueOf_eq hc] at hf
        refine ih w1 hb1 ?_ h
        rw [queueOf_eq hc']
        rcases hcase with ⟨hlow, hrc1, hq⟩ | ⟨a, hq⟩
        · have hlt : w.randomCalls < B := by
            by_contra hge
            have := hroll w.randomCalls (not_lt.1 hge)
            linarith
          rw [hq, hrc1]
          simp only [List.length_cons]
          omega
        · rw [hq] at hf
          simp only [List.length_cons] at hf
          omega
      · cases h

theorem doTurnLoop_more_fuel {env : Env} {self : Nat} {ve va : List Nat} :
    ∀ (fuel : Nat) (w : World), doTurnLoop env self ve va fuel w ≠ .error .outOfFuel →
      ∀ k, doTurnLoop env self ve va (fuel + k) w = doTurnLoop env self ve va fuel w := by
  intro fuel
  induction fuel with
  | zero => intro w h; exact absurd rfl h
  | succ fuel ih =>
    intro w h k
    have e : fuel + 1 + k = (fuel + k) + 1 := by omega
    rw [e]
    unfold doTurnLoop at h ⊢
    split
    · rfl
    · next w1 lb hiter =>
      rw [hiter] at h
      dsimp only at h
      split
      · next hlb =>
        simp only [hlb, if_true] at h
        exact ih w1 h k
      · rfl

theorem digger_pass {env : Env} {w0 w : World} {c0 : Creature} {vis : List Nat}
    {b : CreatureAction} {self : Nat} (va : List Nat) (hb : b.type = .idle)
    (hv : ∀ pl, getControllingPlayer w0 c0 = some pl → ∀ t ∈ vis, ∀ tile,
      w0.tiles[t]? = some tile → getMarkedForDigging tile pl = false)
    (hn : ∀ pl, getControllingPlayer w0 c0 = some pl →
      ∀ t ∈ env.neighborTiles w0.tiles (toInt c0.position.x) (toInt c0.position.y),
        ∃ tile, w0.tiles[t]? = some tile ∧ getMarkedForDigging tile pl = false)
    (hroll : ∀ k, env.randomDouble k 0 1 < 4 / 10) (hd : c0.digRate > 1 / 10)
    (hinv : diggerInv w0 c0 vis b self w) :
    ∃ w', doTurnIter env w self [] va = .ok (w', true) ∧ diggerInv w0 c0 vis b self w' := by
  obtain ⟨⟨ht, hme, hpl, c, hc, hcv, hcp, hcc, hq⟩, c', hc', hdr⟩ := hinv
  rw [hc] at hc'
  cases hc'
  rcases hq with hq | ⟨a, ha, hq⟩
  · refine ⟨_, doTurnIter_idle_dig env [] va hc hq hb (hroll _) (by rw [hdr]; exact hd), ?_, ?_⟩
    · exact ⟨ht, hme, hpl, _, queueOf_modifyCreature_const _ hc, hcv, hcp, hcc,
        Or.inr ⟨⟨.digTile, none⟩, rfl, by simp [hq]⟩⟩
    · exact ⟨_, queueOf_modifyCreature_const _ hc, hdr⟩
  · have hgp : getControllingPlayer w c = getControllingPlayer w0 c0 := by
      unfold getControllingPlayer
      rw [hme, hpl, hcc]
    refine ⟨_, doTurnIter_dig_abandon env [] va hc hq ha
      (by rw [hgp, hcv, ht]; exact hv) (by rw [hgp, hcp, ht]; exact hn), ?_, ?_⟩
    · exact ⟨ht, hme, hpl, _, queueOf_modifyCreature_const _ hc, hcv, hcp, hcc, Or.inl rfl⟩
    · exact ⟨_, queueOf_modifyCreature_const _ hc, hdr⟩

/-- With every roll below 0.4, the loop of a digger of dig rate above 0.1 that
has nothing to dig uses up every bound on its passes. -/
theorem digger_loop_never_ends {env : Env} {w0 : World} {c0 : Creature} {vis : List Nat}
    {b : CreatureAction} {self : Nat} (va : List Nat) (hb : b.type = .idle)
    (hv : ∀ pl, getControllingPlayer w0 c0 = some pl → ∀ t ∈ vis, ∀ tile,
      w0.tiles[t]? = some tile → getMarkedForDigging tile pl = false)
    (hn : ∀ pl, getControllingPlayer w0 c0 = some pl →
      ∀ t ∈ env.neighborTiles w0.tiles (toInt c0.position.x) (toInt c0.position.y),
        ∃ tile, w0.tiles[t]? = some tile ∧ getMarkedForDigging tile pl = false)
    (hroll : ∀ k, env.randomDouble k 0 1 < 4 / 10) (hd : c0.digRate > 1 / 10) :
    ∀ (fuel : Nat) (w : World), diggerInv w0 c0 vis b self w →
      doTurnLoop env self [] va fuel w = .error .outOfFuel := by
  intro fuel
  induction fuel with
  | zero => intro w _; rfl
  | succ fuel ih =>
    intro w hinv
    obtain ⟨w', hpass, hinv'⟩ := digger_pass va hb hv hn hroll hd hinv
    unfold doTurnLoop
    simp only [hpass, if_true]
    exact ih w' hinv'

/-- C16, counterexample.  The creature of `idleDiggerScene` has the queue
`[idle]` and the dig rate 10, and no tile is marked for digging; with every
roll equal to 0.3 its tick pushes `digTile`, pops it and loops back for ever:
whatever bound is put on the passes of the loop, the tick uses it up. -/
theorem loop_back_counterexample :
    bottomIdle (queueOf idleDiggerScene 0) ∧
    ∀ fuel, doTurn lowRollEnv fuel idleDiggerScene 0 = .error .outOfFuel := by
  refine ⟨by decide, ?_⟩
  intro fuel
  have hc : idleDiggerScene.creatures[0]? = some { quitter with actionQueue := [⟨.idle, none⟩] } :=
    rfl
  have hp : positionTile idleDiggerScene { quitter with actionQueue := [⟨.idle, none⟩] } = some 0 := by
    with_unfolding_all decide
  have hvis : updateVisibleTiles lowRollEnv idleDiggerScene
      { quitter with actionQueue := [⟨.idle, none⟩] } = .ok [0, 1, 2] := by
    with_unfolding_all decide
  rw [doTurn_no_enemy fuel hc hp hvis (by with_unfolding_all decide)]
  have hroll : ∀ k, lowRollEnv.randomDouble k 0 1 < 4 / 10 := by
    intro k
    show (3 : ℚ) / 10 < 4 / 10
    norm_num
  rw [digger_loop_never_ends (b := ⟨.idle, none⟩) _ rfl (by with_unfolding_all decide)
    (by with_unfolding_all decide) hroll (by with_unfolding_all decide) fuel _
    ⟨⟨rfl, rfl, rfl, _, rfl, rfl, rfl, rfl, Or.inl rfl⟩, _, rfl, rfl⟩]

/-- C16, amended.  For a state whose action queue has `idle` at the bottom and
`L` entries, and for random numbers none of which is below 0.4 from the `N`-th
draw after the present one on: the loop-back loop ends (it returns, or stops at
a fault of the code) within `L + 2 * N` passes, and a larger bound on the passes
gives the same result. -/
theorem loop_back_bounded (env : Env) (self : Nat) (ve va : List Nat) (w : World) (N fuel : Nat)
    (hb : bottomIdle (queueOf w self))
    (hroll : ∀ k, w.randomCalls + N ≤ k → 4 / 10 ≤ env.randomDouble k 0 1)
    (hfuel : (queueOf w self).length + 2 * N ≤ fuel) :
    doTurnLoop env self ve va fuel w ≠ .error .outOfFuel ∧
    ∀ k, doTurnLoop env self ve va (fuel + k) w = doTurnLoop env self ve va fuel w := by
  have h : doTurnLoop env self ve va fuel w ≠ .error .outOfFuel :=
    doTurnLoop_bounded (w.randomCalls + N) hroll fuel w hb (by omega)
  exact ⟨h, doTurnLoop_more_fuel fuel w h⟩

/-- Witness of C16 (amended): the creature `quitter` (queue of two actions)
with rolls that are all 0.5. -/
theorem loop_back_bounded_witness :
    doTurnLoop plainEnv 0 [] [] 2 quitScene ≠ .error .outOfFuel ∧
    ∀ k, doTurnLoop plainEnv 0 [] [] (2 + k) quitScene = doTurnLoop plainEnv 0 [] [] 2 quitScene :=
  loop_back_bounded plainEnv 0 [] [] quitScene 0 2 (by decide)
    (fun _ _ => by show (4 : ℚ) / 10 ≤ (0 + 1) / 2; norm_num) (by decide)

/-! ## The scan of `updateVisibleTiles` as a list of offsets -/

theorem toInt_eq_floor (r : ℚ) (hr : 0 ≤ r) : toInt r = ⌊r⌋ := by
  unfold toInt
  rw [Rat.floor_def]
  exact Int.tdiv_eq_ediv (Rat.num_nonneg.2 hr) (by exact_mod_cast Nat.zero_le _)

theorem le_toInt {r : ℚ} {i : Int} (hr : 0 ≤ r) (h : (i : ℚ) < r) : i ≤ toInt r := by
  rw [toInt_eq_floor r hr]
  exact Int.le_floor.2 (le_of_lt h)

theorem addIfVisible_offset (env : Env) (tiles : List Tile) (xb yb xl yl dx dy : Int)
    (vis : List Nat) (hx : xl = xb + dx) (hy : yl = yb + dy) :
    addIfVisible env tiles xb yb xl yl vis = vis ++ (seeAt env tiles xb yb (dx, dy)).toList := by
  subst hx hy
  unfold addIfVisible seeAt
  dsimp only
  cases hg : getTile tiles (xb + dx) (yb + dy) with
  | none => simp
  | some t =>
    dsimp only
    split <;> simp

theorem axisRays_eq (env : Env) (tiles : List Tile) (r : ℚ) (xb yb : Int) :
    ∀ (fuel : Nat) (i : Int) (vis : List Nat),
      axisRays env tiles r xb yb fuel i vis
        = vis ++ (axisOffsets r fuel i).filterMap (seeAt env tiles xb yb) := by
  intro fuel
  induction fuel with
  | zero => intro i vis; simp [axisRays, axisOffsets]
  | succ fuel ih =>
    intro i vis
    unfold axisRays axisOffsets
    split
    · dsimp only
      rw [ih,
        addIfVisible_offset env tiles xb yb xb (yb - i) 0 (-i) _ (by ring) (by ring),
        addIfVisible_offset env tiles xb yb xb (yb + i) 0 i _ (by ring) (by ring),
        addIfVisible_offset env tiles xb yb (xb - i) yb (-i) 0 _ (by ring) (by ring),
        addIfVisible_offset env tiles xb yb (xb + i) yb i 0 _ (by ring) (by ring)]
      simp only [List.filterMap_append, List.filterMap_cons, List.filterMap_nil, List.append_assoc]
      congr 1
      cases seeAt env tiles xb yb (i, 0) <;> cases seeAt env tiles xb yb (-i, 0) <;>
        cases seeAt env tiles xb yb (0, i) <;> cases seeAt env tiles xb yb (0, -i) <;> simp
    · simp

theorem sectorRow_eq (env : Env) (tiles : List Tile) (r : ℚ) (xb yb i : Int) :
    ∀ (fuel : Nat) (j : Int) (vis : List Nat),
      sectorRow env tiles r xb yb i fuel j vis
        = vis ++ (rowOffsets r i fuel j).filterMap (seeAt env tiles xb yb) := by
  intro fuel
  induction fuel with
  | zero => intro j vis; simp [sectorRow, rowOffsets]
  | succ fuel ih =>
    intro j vis
    unfold sectorRow rowOffsets
    split
    · split
      · dsimp only
        rw [ih,
          addIfVisible_offset env tiles xb yb (xb - i) (yb - j) (-i) (-j) _ (by ring) (by ring),
          addIfVisible_offset env tiles xb yb (xb - i) (yb + j) (-i) j _ (by ring) (by ring),
          addIfVisible_offset env tiles xb yb (xb + i) (yb - j) i (-j) _ (by ring) (by ring),
          addIfVisible_offset env tiles xb yb (xb + i) (yb + j) i j _ (by ring) (by ring)]
        simp only [List.filterMap_append, List.filterMap_cons, List.filterMap_nil,
          List.append_assoc]
        congr 1
        cases seeAt env tiles xb yb (i, j) <;> cases seeAt env tiles xb yb (i, -j) <;>
          cases seeAt env tiles xb yb (-i, j) <;> cases seeAt env tiles xb yb (-i, -j) <;> simp
      · exact ih _ _
    · simp

theorem sectors_eq (env : Env) (tiles : List Tile) (r : ℚ) (xb yb : Int) :
    ∀ (fuel : Nat) (i : Int) (vis : List Nat),
      sectors env tiles r xb yb fuel i vis
        = vis ++ (sectorOffsets r fuel i).filterMap (seeAt env tiles xb yb) := by
  intro fuel
  induction fuel with
  | zero => intro i vis; simp [sectors, sectorOffsets]
  | succ fuel ih =>
    intro i vis
    unfold sectors sectorOffsets
    split
    · rw [ih, sectorRow_eq]
      simp only [List.filterMap_append, List.append_assoc]
    · simp

/-- The visible tiles are the position tile followed by the tiles seen at the
scanned offsets, in the order of the scan. -/
theorem updateVisibleTiles_eq {env : Env} {w : World} {c : Creature} {p : Nat} {origin : Tile}
    (hp : positionTile w c = some p) (ho : w.tiles[p]? = some origin) :
    updateVisibleTiles env w c
      = .ok (p :: (scanOffsets c.sightRadius).filterMap (seeAt env w.tiles origin.x origin.y)) := by
  unfold updateVisibleTiles
  rw [hp]
  simp only [ho]
  rw [sectors_eq, axisRays_eq]
  simp only [scanOffsets, List.filterMap_append, List.nil_append, List.singleton_append,
    List.append_assoc, List.cons_append]

theorem axisOffsets_mem {r : ℚ} :
    ∀ (fuel : Nat) (i0 i : Int), i0 ≤ i → (i : ℚ) < r → (i - i0).toNat < fuel →
      (i, 0) ∈ axisOffsets r fuel i0 ∧ (-i, 0) ∈ axisOffsets r fuel i0 ∧
      (0, i) ∈ axisOffsets r fuel i0 ∧ (0, -i) ∈ axisOffsets r fuel i0 := by
  intro fuel
  induction fuel with
  | zero => intro i0 i _ _ h; exact absurd h (Nat.not_lt_zero _)
  | succ fuel ih =>
    intro i0 i h0 hi hf
    have hi0 : (i0 : ℚ) < r := lt_of_le_of_lt (by exact_mod_cast h0) hi
    unfold axisOffsets
    rw [if_pos hi0]
    rcases eq_or_lt_of_le h0 with e | hlt
    · subst e
      simp
    · obtain ⟨h1, h2, h3, h4⟩ := ih (i0 + 1) i (by omega) hi (by omega)
      exact ⟨List.mem_append_right _ h1, List.mem_append_right _ h2,
        List.mem_append_right _ h3, List.mem_append_right _ h4⟩

theorem rowOffsets_mem {r : ℚ} {i : Int} :
    ∀ (fuel : Nat) (j0 j : Int), 1 ≤ j0 → j0 ≤ j → (j : ℚ) < r →
      roundDouble ((i * i + j * j : Int) : ℚ) < roundDouble (r * r) → (j - j0).toNat < fuel →
      (i, j) ∈ rowOffsets r i fuel j0 ∧ (i, -j) ∈ rowOffsets r i fuel j0 ∧
      (-i, j) ∈ rowOffsets r i fuel j0 ∧ (-i, -j) ∈ rowOffsets r i fuel j0 := by
  intro fuel
  induction fuel with
  | zero => intro j0 j _ _ _ _ h; exact absurd h (Nat.not_lt_zero _)
  | succ fuel ih =>
    intro j0 j h1 h0 hj hd hf
    have hj0 : (j0 : ℚ) < r := lt_of_le_of_lt (by exact_mod_cast h0) hj
    have hsq : i * i + j0 * j0 ≤ i * i + j * j := by nlinarith
    have hd0 : roundDouble ((i * i + j0 * j0 : Int) : ℚ) < roundDouble (r * r) :=
      lt_of_le_of_lt (roundDouble_mono (by exact_mod_cast hsq)) hd
    unfold rowOffsets
    rw [if_pos hj0, if_pos hd0]
    rcases eq_or_lt_of_le h0 with e | hlt
    · subst e
      simp
    · obtain ⟨m1, m2, m3, m4⟩ := ih (j0 + 1) j (by omega) (by omega) hj hd (by omega)
      exact ⟨List.mem_append_right _ m1, List.mem_append_right _ m2,
        List.mem_append_right _ m3, List.mem_append_right _ m4⟩

theorem sectorOffsets_mem {r : ℚ} {d : Int × Int} :
    ∀ (fuel : Nat) (i0 i : Int), i0 ≤ i → (i : ℚ) < r → (i - i0).toNat < fuel →
      d ∈ rowOffsets r i ((toInt r).toNat + 2) 1 → d ∈ sectorOffsets r fuel i0 := by
  intro fuel
  induction fuel with
  | zero => intro i0 i _ _ h; exact absurd h (Nat.not_lt_zero _)
  | succ fuel ih =>
    intro i0 i h0 hi hf hd
    have hi0 : (i0 : ℚ) < r := lt_of_le_of_lt (by exact_mod_cast h0) hi
    unfold sectorOffsets
    rw [if_pos hi0]
    rcases eq_or_lt_of_le h0 with e | hlt
    · subst e
      exact List.mem_append_left _ hd
    · exact List.mem_append_right _ (ih (i0 + 1) i (by omega) hi (by omega) hd)

theorem lt_of_sq_lt {r : ℚ} {n m : Int} (hr : 0 ≤ r) (hm : n * n ≤ m)
    (h : ((m : Int) : ℚ) < r * r) : (n : ℚ) < r := by
  by_contra hge
  have hge : r ≤ (n : ℚ) := not_lt.1 hge
  have h1 : r * r ≤ (n : ℚ) * n := mul_le_mul hge hge hr (le_trans hr hge)
  have h2 : ((n * n : Int) : ℚ) ≤ (m : ℚ) := by exact_mod_cast hm
  push_cast at h2
  linarith

/-- The scan reaches the four offsets `(±i, 0)`, `(0, ±i)` for every
`1 ≤ i` with `i² < r²`. -/
theorem scanOffsets_axis {r : ℚ} (hr : 0 ≤ r) {i : Int} (hi : 1 ≤ i)
    (hd : ((i * i : Int) : ℚ) < r * r) :
    (i, 0) ∈ scanOffsets r ∧ (-i, 0) ∈ scanOffsets r ∧
    (0, i) ∈ scanOffsets r ∧ (0, -i) ∈ scanOffsets r := by
  have hlt : (i : ℚ) < r := lt_of_sq_lt hr (le_refl _) hd
  have hle := le_toInt hr hlt
  obtain ⟨h1, h2, h3, h4⟩ :=
    axisOffsets_mem (r := r) ((toInt r).toNat + 1) 1 i hi hlt (by omega)
  unfold scanOffsets
  exact ⟨List.mem_append_left _ h1, List.mem_append_left _ h2,
    List.mem_append_left _ h3, List.mem_append_left _ h4⟩

/-- The scan reaches the four offsets `(±i, ±j)` for all `1 ≤ i`, `1 ≤ j`
that pass the test of line 720, `fl (i² + j²) < fl (r * r)`: they lie within
the bounds of both loops, and the early exit of a row comes after them. -/
theorem scanOffsets_sector {r : ℚ} (hr : 0 ≤ r) {i j : Int} (hi : 1 ≤ i) (hj : 1 ≤ j)
    (hd : roundDouble ((i * i + j * j : Int) : ℚ) < roundDouble (r * r)) :
    (i, j) ∈ scanOffsets r ∧ (i, -j) ∈ scanOffsets r ∧
    (-i, j) ∈ scanOffsets r ∧ (-i, -j) ∈ scanOffsets r := by
  have hex : ((i * i + j * j : Int) : ℚ) < r * r := lt_of_roundDouble_lt hd
  have hilt : (i : ℚ) < r := lt_of_sq_lt hr (by nlinarith) hex
  have hjlt : (j : ℚ) < r := lt_of_sq_lt hr (by nlinarith) hex
  have hile := le_toInt hr hilt
  have hjle := le_toInt hr hjlt
  obtain ⟨h1, h2, h3, h4⟩ :=
    rowOffsets_mem (r := r) (i := i) ((toInt r).toNat + 2) 1 j (le_refl _) hj hjlt hd (by omega)
  have up : ∀ d, d ∈ rowOffsets r i ((toInt r).toNat + 2) 1 → d ∈ scanOffsets r := by
    intro d hdm
    unfold scanOffsets
    exact List.mem_append_right _
      (sectorOffsets_mem ((toInt r).toNat + 1) 1 i hi hilt (by omega) hdm)
  exact ⟨up _ h1, up _ h2, up _ h3, up _ h4⟩

/-- Every offset other than `(0, 0)` that passes the test of its loop is
scanned: on an axis the test `|d| < r` of the ray loop, which for `r ≥ 0` is
`dx² + dy² < r²`; off the axes the test `fl (dx² + dy²) < fl (r * r)` of
line 720. -/
theorem mem_scanOffsets {r : ℚ} (hr : 0 ≤ r) {dx dy : Int} (hne : dx ≠ 0 ∨ dy ≠ 0)
    (hax : dx = 0 ∨ dy = 0 → ((dx * dx + dy * dy : Int) : ℚ) < r * r)
    (hsec : dx ≠ 0 → dy ≠ 0 →
      roundDouble ((dx * dx + dy * dy : Int) : ℚ) < roundDouble (r * r)) :
    (dx, dy) ∈ scanOffsets r := by
  rcases lt_trichotomy dx 0 with hx | hx | hx <;> rcases lt_trichotomy dy 0 with hy | hy | hy
  · have e : (-dx) * (-dx) + (-dy) * (-dy) = dx * dx + dy * dy := by ring
    have := (scanOffsets_sector hr (i := -dx) (j := -dy) (by omega) (by omega)
      (by rw [e]; exact hsec (by omega) (by omega))).2.2.2
    simpa using this
  · have hd := hax (Or.inr hy)
    subst hy
    have e : (-dx) * (-dx) = dx * dx + 0 * 0 := by ring
    have := (scanOffsets_axis hr (i := -dx) (by omega) (by rw [e]; exact hd)).2.1
    simpa using this
  · have e : (-dx) * (-dx) + dy * dy = dx * dx + dy * dy := by ring
    have := (scanOffsets_sector hr (i := -dx) (j := dy) (by omega) (by omega)
      (by rw [e]; exact hsec (by omega) (by omega))).2.2.1
    simpa using this
  · have hd := hax (Or.inl hx)
    subst hx
    have e : (-dy) * (-dy) = 0 * 0 + dy * dy := by ring
    have := (scanOffsets_axis hr (i := -dy) (by omega) (by rw [e]; exact hd)).2.2.2
    simpa using this
  · subst hx hy
    rcases hne with h | h <;> exact absurd rfl h
  · have hd := hax (Or.inl hx)
    subst hx
    have e : dy * dy = 0 * 0 + dy * dy := by ring
    exact (scanOffsets_axis hr (i := dy) (by omega) (by rw [e]; exact hd)).2.2.1
  · have e : dx * dx + (-dy) * (-dy) = dx * dx + dy * dy := by ring
    have := (scanOffsets_sector hr (i := dx) (j := -dy) (by omega) (by omega)
      (by rw [e]; exact hsec (by omega) (by omega))).2.1
    simpa using this
  · have hd := hax (Or.inr hy)
    subst hy
    have e : dx * dx = dx * dx + 0 * 0 := by ring
    exact (scanOffsets_axis hr (i := dx) (by omega) (by rw [e]; exact hd)).1
  · exact (scanOffsets_sector hr (i := dx) (j := dy) (by omega) (by omega)
      (hsec (by omega) (by omega))).1

theorem mem_filterMap_seeAt {env : Env} {tiles : List Tile} {xb yb : Int} {t : Nat}
    {offs : List (Int × Int)} {d : Int × Int} (hd : d ∈ offs)
    (hg : getTile tiles (xb + d.1) (yb + d.2) = some t)
    (hc : env.pathIsClear tiles (env.lineOfSight tiles xb yb (xb + d.1) (yb + d.2))
      .flyableTile = true) :
    t ∈ offs.filterMap (seeAt env tiles xb yb) := by
  rw [List.mem_filterMap]
  refine ⟨d, hd, ?_⟩
  unfold seeAt
  simp only [hg, hc, if_true]

/-! ## Translation of the origin -/

theorem axisOffsets_sound {r : ℚ} {d : Int × Int} :
    ∀ (fuel : Nat) (i : Int), 1 ≤ i → d ∈ axisOffsets r fuel i →
      ((d.1 * d.1 + d.2 * d.2 : Int) : ℚ) < r * r := by
  intro fuel
  induction fuel with
  | zero => intro i _ h; simp [axisOffsets] at h
  | succ fuel ih =>
    intro i hi h
    unfold axisOffsets at h
    split at h
    · next hlt =>
      have hi0 : (0 : ℚ) < (i : ℚ) := by exact_mod_cast (by omega : 0 < i)
      have hsq : ((i * i : Int) : ℚ) < r * r := by push_cast; nlinarith
      rcases List.mem_append.1 h with h | h
      · simp only [List.mem_cons, List.mem_singleton, List.not_mem_nil, or_false] at h
        rcases h with e | e | e | e <;> subst e <;> simpa using hsq
      · exact ih (i + 1) (by omega) h
    · simp at h

theorem rowOffsets_sound {r : ℚ} {i : Int} {d : Int × Int} :
    ∀ (fuel : Nat) (j : Int), d ∈ rowOffsets r i fuel j →
      ((d.1 * d.1 + d.2 * d.2 : Int) : ℚ) < r * r := by
  intro fuel
  induction fuel with
  | zero => intro j h; simp [rowOffsets] at h
  | succ fuel ih =>
    intro j h
    unfold rowOffsets at h
    split at h
    · split at h
      · next hd =>
        have hd := lt_of_roundDouble_lt hd
        rcases List.mem_append.1 h with h | h
        · simp only [List.mem_cons, List.mem_singleton, List.not_mem_nil, or_false] at h
          rcases h with e | e | e | e <;> subst e <;> simpa using hd
        · exact ih (j + 1) h
      · exact ih _ h
    · simp at h

theorem sectorOffsets_sound {r : ℚ} {d : Int × Int} :
    ∀ (fuel : Nat) (i : Int), d ∈ sectorOffsets r fuel i →
      ((d.1 * d.1 + d.2 * d.2 : Int) : ℚ) < r * r := by
  intro fuel
  induction fuel with
  | zero => intro i h; simp [sectorOffsets] at h
  | succ fuel ih =>
    intro i h
    unfold sectorOffsets at h
    split at h
    · rcases List.mem_append.1 h with h | h
      · exact rowOffsets_sound _ _ h
      · exact ih (i + 1) h
    · simp at h

/-- Every scanned offset lies inside the disc of radius `r`. -/
theorem scanOffsets_sound {r : ℚ} {d : Int × Int} (h : d ∈ scanOffsets r) :
    ((d.1 * d.1 + d.2 * d.2 : Int) : ℚ) < r * r := by
  unfold scanOffsets at h
  rcases List.mem_append.1 h with h | h
  · exact axisOffsets_sound _ 1 (le_refl _) h
  · exact sectorOffsets_sound _ 1 h

theorem tileCoords_seen {env : Env} {tiles : List Tile} (xb yb : Int)
    (hclear : ∀ path, env.pathIsClear tiles path .flyableTile = true) :
    ∀ offs : List (Int × Int),
      (∀ d ∈ offs, (getTile tiles (xb + d.1) (yb + d.2)).isSome) →
      tileCoords tiles (offs.filterMap (seeAt env tiles xb yb))
        = offs.map fun d => (xb + d.1, yb + d.2) := by
  intro offs
  induction offs with
  | nil => intro _; rfl
  | cons d offs ih =>
    intro h
    obtain ⟨t, ht⟩ := Option.isSome_iff_exists.1 (h d (List.mem_cons_self _ _))
    obtain ⟨tile, htile, hx, hy⟩ := getTile_some ht
    have hsee : seeAt env tiles xb yb d = some t := by
      unfold seeAt
      simp only [ht, hclear, if_true]
    have ih' := ih fun d' hd' => h d' (List.mem_cons_of_mem _ hd')
    unfold tileCoords at ih' ⊢
    simp only [List.filterMap_cons, hsee, htile, Option.map_some', List.map_cons, ih', hx, hy]

/-- On open terrain the coordinates of the visible tiles are the origin
followed by the origin plus the scanned offsets. -/
theorem tileCoords_visible {env : Env} {w : World} {c : Creature} {p : Nat} {origin : Tile}
    {vis : List Nat} (hp : positionTile w c = some p) (ho : w.tiles[p]? = some origin)
    (hclear : ∀ path, env.pathIsClear w.tiles path .flyableTile = true)
    (hopen : ∀ dx dy : Int, ((dx * dx + dy * dy : Int) : ℚ) < c.sightRadius * c.sightRadius →
      (getTile w.tiles (origin.x + dx) (origin.y + dy)).isSome)
    (hvis : updateVisibleTiles env w c = .ok vis) :
    tileCoords w.tiles vis
      = (origin.x, origin.y) ::
          (scanOffsets c.sightRadius).map fun d => (origin.x + d.1, origin.y + d.2) := by
  rw [updateVisibleTiles_eq hp ho] at hvis
  cases hvis
  have h' := tileCoords_seen origin.x origin.y hclear
    (scanOffsets c.sightRadius) (fun d hd => hopen d.1 d.2 (scanOffsets_sound hd))
  unfold tileCoords at h' ⊢
  simp only [List.filterMap_cons, ho, Option.map_some', h']

/-- C11. Translation symmetry of visibility.  On open terrain (every line of
sight is clear and a tile exists at every offset inside the sight disc of
either origin), for creatures of the same sight radius `R` standing on
`(x, y)` and on `(x + d, y + d)`: the coordinates of the tiles seen from
`(x + d, y + d)`, each shifted back by `(d, d)`, are the coordinates of the
tiles seen from `(x, y)`, in the same order and hence as sets. -/
theorem visibility_translation (env : Env) (w : World) (c1 c2 : Creature) (p1 p2 : Nat)
    (o1 o2 : Tile) (d : Int) (vis1 vis2 : List Nat)
    (hp1 : positionTile w c1 = some p1) (ho1 : w.tiles[p1]? = some o1)
    (hp2 : positionTile w c2 = some p2) (ho2 : w.tiles[p2]? = some o2)
    (hx : o2.x = o1.x + d) (hy : o2.y = o1.y + d) (hR : c2.sightRadius = c1.sightRadius)
    (hclear : ∀ path, env.pathIsClear w.tiles path .flyableTile = true)
    (hopen1 : ∀ dx dy : Int, ((dx * dx + dy * dy : Int) : ℚ) < c1.sightRadius * c1.sightRadius →
      (getTile w.tiles (o1.x + dx) (o1.y + dy)).isSome)
    (hopen2 : ∀ dx dy : Int, ((dx * dx + dy * dy : Int) : ℚ) < c1.sightRadius * c1.sightRadius →
      (getTile w.tiles (o1.x + d + dx) (o1.y + d + dy)).isSome)
    (h1 : updateVisibleTiles env w c1 = .ok vis1) (h2 : updateVisibleTiles env w c2 = .ok vis2) :
    (tileCoords w.tiles vis2).map (fun q => (q.1 - d, q.2 - d)) = tileCoords w.tiles vis1 ∧
    ∀ a b, (a, b) ∈ tileCoords w.tiles vis1 ↔ (a + d, b + d) ∈ tileCoords w.tiles vis2 := by
  have e1 := tileCoords_visible hp1 ho1 hclear hopen1 h1
  have e2 := tileCoords_visible hp2 ho2 hclear
    (by rw [hR, hx, hy]; exact hopen2) h2
  have main : (tileCoords w.tiles vis2).map (fun q => (q.1 - d, q.2 - d))
      = tileCoords w.tiles vis1 := by
    rw [e1, e2, hR, hx, hy]
    simp only [List.map_cons, List.map_map, add_sub_cancel_right]
    congr 1
    apply List.map_congr_left
    intro q _
    simp only [Function.comp]
    congr 1 <;> ring
  refine ⟨main, ?_⟩
  intro a b
  rw [← main, List.mem_map]
  constructor
  · rintro ⟨q, hq, e⟩
    have ea : q.1 - d = a := congrArg Prod.fst e
    have eb : q.2 - d = b := congrArg Prod.snd e
    have : q = (a + d, b + d) := by
      apply Prod.ext
      · show q.1 = a + d
        omega
      · show q.2 = b + d
        omega
    rw [← this]
    exact hq
  · intro h
    exact ⟨(a + d, b + d), h, by simp⟩

/-- Witness of C11: the creatures `scoutA` at `(1,1)` and `scoutB` at `(2,2)`
with sight radius 2 on the four by four map `openScene`. -/
theorem visibility_translation_witness :
    (tileCoords openScene.tiles [10, 11, 9, 14, 6, 15, 7, 13, 5]).map
        (fun q => (q.1 - 1, q.2 - 1))
      = tileCoords openScene.tiles [5, 6, 4, 9, 1, 10, 2, 8, 0] ∧
    ∀ a b, (a, b) ∈ tileCoords openScene.tiles [5, 6, 4, 9, 1, 10, 2, 8, 0] ↔
      (a + 1, b + 1) ∈ tileCoords openScene.tiles [10, 11, 9, 14, 6, 15, 7, 13, 5] :=
  visibility_translation plainEnv openScene scoutA scoutB 5 10 ⟨1, 1, 0, [], []⟩
    ⟨2, 2, 0, [], []⟩ 1 _ _ (by with_unfolding_all decide) (by with_unfolding_all decide)
    (by with_unfolding_all decide) (by with_unfolding_all decide) rfl rfl rfl (fun _ => rfl)
    (by
      intro dx dy h
      have h4 : dx * dx + dy * dy < 4 := by
        have : ((dx * dx + dy * dy : Int) : ℚ) < ((4 : Int) : ℚ) := by
          refine lt_of_lt_of_eq h ?_
          show (2 : ℚ) * 2 = ((4 : Int) : ℚ)
          norm_num
        exact_mod_cast this
      have hx1 : -2 < dx := by nlinarith
      have hx2 : dx < 2 := by nlinarith
      have hy1 : -2 < dy := by nlinarith
      have hy2 : dy < 2 := by nlinarith
      interval_cases dx <;> interval_cases dy <;> with_unfolding_all decide)
    (by
      intro dx dy h
      have h4 : dx * dx + dy * dy < 4 := by
        have : ((dx * dx + dy * dy : Int) : ℚ) < ((4 : Int) : ℚ) := by
          refine lt_of_lt_of_eq h ?_
          show (2 : ℚ) * 2 = ((4 : Int) : ℚ)
          norm_num
        exact_mod_cast this
      have hx1 : -2 < dx := by nlinarith
      have hx2 : dx < 2 := by nlinarith
      have hy1 : -2 < dy := by nlinarith
      have hy2 : dy < 2 := by nlinarith
      interval_cases dx <;> interval_cases dy <;> with_unfolding_all decide)
    (by with_unfolding_all decide) (by with_unfolding_all decide)

/-! ## The perception step -/

theorem queueOf_randomCalls (w : World) (k : Nat) (self : Nat) :
    queueOf { w with randomCalls := k } self = queueOf w self := rfl

theorem queueOf_modifyCreature {w : World} {self : Nat} {c : Creature} (f : Creature → Creature)
    (h : w.creatures[self]? = some c) :
    queueOf (modifyCreature w self f) self = (f c).actionQueue := by
  unfold queueOf modifyCreature
  simp [getElem?_updateAt, h]

/-- C25: the perception step of `doTurn` pushes `attackCreature`, aimed at the
first visible enemy, when an enemy is visible, the action on top is not
`attackCreature` and the roll exceeds 0.3; in every other case it leaves the
action queue as it is. -/
theorem perception_interrupt (env : Env) (w : World) (self : Nat) (c : Creature)
    (visibleEnemies : List Nat) (hc : w.creatures[self]? = some c) :
    ((visibleEnemies ≠ [] ∧ (∃ a rest, c.actionQueue = a :: rest ∧ a.type ≠ .attackCreature) ∧
        env.randomDouble w.randomCalls 0 1 > 3 / 10) →
      ∃ e es, visibleEnemies = e :: es ∧
        queueOf (perceive env w self c visibleEnemies) self
          = ⟨.attackCreature, some e⟩ :: c.actionQueue) ∧
    (¬ (visibleEnemies ≠ [] ∧ (∃ a rest, c.actionQueue = a :: rest ∧ a.type ≠ .attackCreature) ∧
        env.randomDouble w.randomCalls 0 1 > 3 / 10) →
      queueOf (perceive env w self c visibleEnemies) self = c.actionQueue) := by
  constructor
  · rintro ⟨hne, ⟨a, rest, hq, ha⟩, hroll⟩
    cases visibleEnemies with
    | nil => exact absurd rfl hne
    | cons e es =>
      refine ⟨e, es, rfl, ?_⟩
      unfold perceive
      simp only [hq, ha, ne_eq, not_false_eq_true, if_true, hroll]
      rw [queueOf_modifyCreature _ (by simpa using hc), hq]
  · intro hn
    unfold perceive
    cases visibleEnemies with
    | nil => exact queueOf_eq hc
    | cons e es =>
      cases hq : c.actionQueue with
      | nil => exact (queueOf_eq hc).trans hq
      | cons a rest =>
        dsimp only
        by_cases ha : a.type ≠ .attackCreature
        · have hroll : ¬ env.randomDouble w.randomCalls 0 1 > 3 / 10 := by
            intro hr
            exact hn ⟨by simp, ⟨a, rest, hq, ha⟩, hr⟩
          rw [if_pos ha, if_neg hroll]
          exact (queueOf_eq hc).trans hq
        · rw [if_neg ha]
          exact (queueOf_eq hc).trans hq

/-- Witness of C25: the creature `walker` (`walkToTile` on top) sees the
enemy 1 and the roll is 0.5. -/
theorem perception_interrupt_witness :
    ∃ e es, [1] = e :: es ∧
      queueOf (perceive plainEnv walkScene 0 walker [1]) 0
        = ⟨.attackCreature, some e⟩ :: walker.actionQueue :=
  (perception_interrupt plainEnv walkScene 0 walker [1] rfl).1
    ⟨by simp, ⟨⟨.walkToTile, none⟩, [⟨.idle, none⟩], rfl, by decide⟩,
      by with_unfolding_all decide⟩

/-! ## Visible enemies and allies -/

theorem mem_getVisibleForce {w : World} {c : Creature} {color : Int} {invert : Bool} {i : Nat} :
    i ∈ getVisibleForce w c color invert ↔
      ∃ t tile other, t ∈ c.visibleTiles ∧ w.tiles[t]? = some tile ∧ i ∈ tile.creaturesInCell ∧
        w.creatures[i]? = some other ∧
        (if invert then other.color ≠ color else other.color = color) := by
  unfold getVisibleForce
  rw [List.mem_flatMap]
  constructor
  · rintro ⟨t, ht, h⟩
    cases hti : w.tiles[t]? with
    | none => simp [hti] at h
    | some tile =>
      simp only [hti, List.mem_filter] at h
      obtain ⟨hi, hcol⟩ := h
      cases hci : w.creatures[i]? with
      | none => simp [hci] at hcol
      | some other =>
        refine ⟨t, tile, other, ht, hti, hi, rfl, ?_⟩
        simp only [hci] at hcol
        cases invert <;> simpa using hcol
  · rintro ⟨t, tile, other, ht, hti, hi, hci, hcol⟩
    refine ⟨t, ht, ?_⟩
    simp only [hti, List.mem_filter, hci]
    refine ⟨hi, ?_⟩
    cases invert <;> simpa using hcol

theorem updateVisibleTiles_head {env : Env} {w : World} {c : Creature} {p : Nat}
    {vis : List Nat} (hp : positionTile w c = some p) (h : updateVisibleTiles env w c = .ok vis) :
    p ∈ vis := by
  obtain ⟨origin, ho⟩ : ∃ origin, w.tiles[p]? = some origin := by
    unfold updateVisibleTiles at h
    rw [hp] at h
    cases ho : w.tiles[p]? with
    | none => simp [ho] at h
    | some origin => exact ⟨origin, rfl⟩
  rw [updateVisibleTiles_eq hp ho] at h
  cases h
  exact List.mem_cons_self _ _

/-- C30: every creature standing in a visible tile is listed by exactly one
of `getVisibleEnemies` and `getVisibleAllies`, by the first exactly when its
colour differs from the colour of the agent; both lists hold creatures of
visible tiles only; an agent registered in its own position tile is among the
allies it sees after `updateVisibleTiles`. -/
theorem enemies_allies_partition (w : World) (c : Creature) :
    (∀ t tile i other, t ∈ c.visibleTiles → w.tiles[t]? = some tile →
        i ∈ tile.creaturesInCell → w.creatures[i]? = some other →
        (i ∈ getVisibleEnemies w c ↔ other.color ≠ c.color) ∧
        (i ∈ getVisibleAllies w c ↔ other.color = c.color) ∧
        (i ∈ getVisibleEnemies w c ↔ i ∉ getVisibleAllies w c)) ∧
    (∀ i, i ∈ getVisibleEnemies w c ∨ i ∈ getVisibleAllies w c →
        ∃ t tile, t ∈ c.visibleTiles ∧ w.tiles[t]? = some tile ∧ i ∈ tile.creaturesInCell) ∧
    (∀ env self p tile vis, w.creatures[self]? = some c → positionTile w c = some p →
        w.tiles[p]? = some tile → self ∈ tile.creaturesInCell →
        updateVisibleTiles env w c = .ok vis →
        self ∈ getVisibleAllies (modifyCreature w self fun _ => { c with visibleTiles := vis })
          { c with visibleTiles := vis }) := by
  refine ⟨?_, ?_, ?_⟩
  · intro t tile i other ht hti hi hci
    have he : i ∈ getVisibleEnemies w c ↔ other.color ≠ c.color := by
      unfold getVisibleEnemies
      rw [mem_getVisibleForce]
      constructor
      · rintro ⟨_, _, other', _, _, _, hci', hcol⟩
        rw [hci] at hci'
        cases hci'
        simpa using hcol
      · intro hcol
        exact ⟨t, tile, other, ht, hti, hi, hci, by simpa using hcol⟩
    have ha : i ∈ getVisibleAllies w c ↔ other.color = c.color := by
      unfold getVisibleAllies
      rw [mem_getVisibleForce]
      constructor
      · rintro ⟨_, _, other', _, _, _, hci', hcol⟩
        rw [hci] at hci'
        cases hci'
        simpa using hcol
      · intro hcol
        exact ⟨t, tile, other, ht, hti, hi, hci, by simpa using hcol⟩
    exact ⟨he, ha, by rw [he, ha]⟩
  · intro i h
    rcases h with h | h
    · obtain ⟨t, tile, _, ht, hti, hi, _, _⟩ := mem_getVisibleForce.1 h
      exact ⟨t, tile, ht, hti, hi⟩
    · obtain ⟨t, tile, _, ht, hti, hi, _, _⟩ := mem_getVisibleForce.1 h
      exact ⟨t, tile, ht, hti, hi⟩
  · intro env self p tile vis hc hp hti hi hvis
    unfold getVisibleAllies
    rw [mem_getVisibleForce]
    refine ⟨p, tile, { c with visibleTiles := vis }, updateVisibleTiles_head hp hvis, hti, hi,
      queueOf_modifyCreature_const _ hc, ?_⟩
    simp

/-- Witness of C30: the enemy in the tile `(3,0)` of `attackScene`, seen by a
creature of colour 1. -/
theorem enemies_allies_partition_witness :
    (1 ∈ getVisibleEnemies attackScene { watcher with visibleTiles := [0, 1, 2, 3, 4] } ↔
        (2 : Int) ≠ 1) ∧
    (1 ∈ getVisibleAllies attackScene { watcher with visibleTiles := [0, 1, 2, 3, 4] } ↔
        (2 : Int) = 1) ∧
    (1 ∈ getVisibleEnemies attackScene { watcher with visibleTiles := [0, 1, 2, 3, 4] } ↔
      1 ∉ getVisibleAllies attackScene { watcher with visibleTiles := [0, 1, 2, 3, 4] }) :=
  (enemies_allies_partition attackScene { watcher with visibleTiles := [0, 1, 2, 3, 4] }).1
    3 ⟨3, 0, 0, [], [1]⟩ 1
    { position := ⟨3, 0, 0⟩, color := 2, hp := 10, actionQueue := [⟨.idle, none⟩] }
    (by decide) rfl (by decide) rfl

/-! ## The scan never looks at an offset twice -/

theorem four_nodup {a b c d : Int × Int} (hab : a ≠ b) (hac : a ≠ c) (had : a ≠ d)
    (hbc : b ≠ c) (hbd : b ≠ d) (hcd : c ≠ d) : [a, b, c, d].Nodup := by
  simp [List.nodup_cons, hab, hac, had, hbc, hbd, hcd]

theorem axisOffsets_nodup {r : ℚ} :
    ∀ (fuel : Nat) (i : Int), 1 ≤ i →
      (axisOffsets r fuel i).Nodup ∧
      ∀ d ∈ axisOffsets r fuel i,
        (d.2 = 0 ∧ (i ≤ d.1 ∨ d.1 ≤ -i)) ∨ (d.1 = 0 ∧ (i ≤ d.2 ∨ d.2 ≤ -i)) := by
  intro fuel
  induction fuel with
  | zero => intro i _; simp [axisOffsets]
  | succ fuel ih =>
    intro i hi
    unfold axisOffsets
    split
    · obtain ⟨hn, hm⟩ := ih (i + 1) (by omega)
      constructor
      · rw [List.nodup_append]
        refine ⟨four_nodup ?_ ?_ ?_ ?_ ?_ ?_, hn, ?_⟩
        all_goals try (simp only [ne_eq, Prod.mk.injEq]; omega)
        rw [List.disjoint_left]
        intro d hd hd'
        have := hm d hd'
        simp only [List.mem_cons, List.mem_singleton, List.not_mem_nil, or_false] at hd
        rcases hd with rfl | rfl | rfl | rfl <;> simp only at this <;> omega
      · intro d hd
        rcases List.mem_append.1 hd with hd | hd
        · simp only [List.mem_cons, List.mem_singleton, List.not_mem_nil, or_false] at hd
          rcases hd with rfl | rfl | rfl | rfl <;> simp
        · have := hm d hd
          omega
    · simp

theorem rowOffsets_nodup {r : ℚ} {i : Int} (hi : 1 ≤ i) :
    ∀ (fuel : Nat) (j : Int), 1 ≤ j →
      (rowOffsets r i fuel j).Nodup ∧
      ∀ d ∈ rowOffsets r i fuel j, (d.1 = i ∨ d.1 = -i) ∧ (j ≤ d.2 ∨ d.2 ≤ -j) := by
  intro fuel
  induction fuel with
  | zero => intro j _; simp [rowOffsets]
  | succ fuel ih =>
    intro j hj
    unfold rowOffsets
    split
    · next hlt =>
      have hr : (0 : ℚ) ≤ r := le_of_lt (lt_of_le_of_lt (by exact_mod_cast (by omega : 0 ≤ j)) hlt)
      have hle := le_toInt hr hlt
      split
      · obtain ⟨hn, hm⟩ := ih (j + 1) (by omega)
        constructor
        · rw [List.nodup_append]
          refine ⟨four_nodup ?_ ?_ ?_ ?_ ?_ ?_, hn, ?_⟩
          all_goals try (simp only [ne_eq, Prod.mk.injEq]; omega)
          rw [List.disjoint_left]
          intro d hd hd'
          have := hm d hd'
          simp only [List.mem_cons, List.mem_singleton, List.not_mem_nil, or_false] at hd
          rcases hd with rfl | rfl | rfl | rfl <;> simp only at this <;> omega
        · intro d hd
          rcases List.mem_append.1 hd with hd | hd
          · simp only [List.mem_cons, List.mem_singleton, List.not_mem_nil, or_false] at hd
            rcases hd with rfl | rfl | rfl | rfl <;> simp
          · have := hm d hd
            omega
      · obtain ⟨hn, hm⟩ := ih (toInt r + 1) (by omega)
        refine ⟨hn, ?_⟩
        intro d hd
        have := hm d hd
        omega
    · simp

theorem sectorOffsets_nodup {r : ℚ} :
    ∀ (fuel : Nat) (i : Int), 1 ≤ i →
      (sectorOffsets r fuel i).Nodup ∧
      ∀ d ∈ sectorOffsets r fuel i, (i ≤ d.1 ∨ d.1 ≤ -i) ∧ d.2 ≠ 0 := by
  intro fuel
  induction fuel with
  | zero => intro i _; simp [sectorOffsets]
  | succ fuel ih =>
    intro i hi
    unfold sectorOffsets
    split
    · obtain ⟨hn, hm⟩ := ih (i + 1) (by omega)
      obtain ⟨hrn, hrm⟩ := rowOffsets_nodup (r := r) hi ((toInt r).toNat + 2) 1 (le_refl _)
      constructor
      · rw [List.nodup_append]
        refine ⟨hrn, hn, ?_⟩
        rw [List.disjoint_left]
        intro d hd hd'
        have h1 := hrm d hd
        have h2 := hm d hd'
        omega
      · intro d hd
        rcases List.mem_append.1 hd with hd | hd
        · have := hrm d hd
          omega
        · have := hm d hd
          omega
    · simp

theorem scanOffsets_nodup (r : ℚ) :
    (scanOffsets r).Nodup ∧ (0, 0) ∉ scanOffsets r := by
  obtain ⟨han, ham⟩ := axisOffsets_nodup (r := r) ((toInt r).toNat + 1) 1 (le_refl _)
  obtain ⟨hsn, hsm⟩ := sectorOffsets_nodup (r := r) ((toInt r).toNat + 1) 1 (le_refl _)
  unfold scanOffsets
  constructor
  · rw [List.nodup_append]
    refine ⟨han, hsn, ?_⟩
    rw [List.disjoint_left]
    intro d hd hd'
    have h1 := ham d hd
    have h2 := hsm d hd'
    omega
  · intro h
    rcases List.mem_append.1 h with h | h
    · have := ham _ h
      simp only at this
      omega
    · have := hsm _ h
      simp only at this
      omega

theorem seeAt_some {env : Env} {tiles : List Tile} {xb yb : Int} {d : Int × Int} {t : Nat}
    (h : seeAt env tiles xb yb d = some t) :
    ∃ tile, tiles[t]? = some tile ∧ tile.x = xb + d.1 ∧ tile.y = yb + d.2 := by
  unfold seeAt at h
  cases hg : getTile tiles (xb + d.1) (yb + d.2) with
  | none => simp [hg] at h
  | some t' =>
    simp only [hg] at h
    split at h
    · cases h
      exact getTile_some hg
    · cases h

theorem count_flatMap_zero {g : Nat → List Nat} {i : Nat} :
    ∀ l : List Nat, (∀ t ∈ l, (g t).count i = 0) → (l.flatMap g).count i = 0 := by
  intro l
  induction l with
  | nil => intro _; rfl
  | cons t l ih =>
    intro h
    rw [List.flatMap_cons, List.count_append, h t (List.mem_cons_self _ _),
      ih fun t' ht' => h t' (List.mem_cons_of_mem _ ht')]

theorem count_flatMap_le {g : Nat → List Nat} {i : Nat} (t0 : Nat) :
    ∀ l : List Nat, l.Nodup → (∀ t ∈ l, t ≠ t0 → (g t).count i = 0) →
      (l.flatMap g).count i ≤ (g t0).count i := by
  intro l
  induction l with
  | nil => intro _ _; exact Nat.zero_le _
  | cons t l ih =>
    intro hn h
    rw [List.nodup_cons] at hn
    rw [List.flatMap_cons, List.count_append]
    by_cases ht : t = t0
    · subst ht
      rw [count_flatMap_zero l fun t' ht' =>
        h t' (List.mem_cons_of_mem _ ht') (fun e => hn.1 (e ▸ ht'))]
      exact le_refl _
    · rw [h t (List.mem_cons_self _ _) ht, Nat.zero_add]
      exact ih hn.2 fun t' ht' => h t' (List.mem_cons_of_mem _ ht')

/-- C29: the list built by `updateVisibleTiles` holds no tile twice, and a
creature registered in one tile only is listed by `getVisibleForce` at most
as often as it occurs in the occupancy list of that tile. -/
theorem visibleTiles_nodup (env : Env) (w : World) (c : Creature) (p : Nat)
    (hp : positionTile w c = some p) :
    ∃ vis, updateVisibleTiles env w c = .ok vis ∧ vis.Nodup ∧
      ∀ (i t0 : Nat) (tile0 : Tile) (color : Int) (invert : Bool),
        w.tiles[t0]? = some tile0 →
        (∀ t tile, w.tiles[t]? = some tile → i ∈ tile.creaturesInCell → t = t0) →
        (getVisibleForce w { c with visibleTiles := vis } color invert).count i
          ≤ tile0.creaturesInCell.count i := by
  obtain ⟨origin, ho, hox, hoy⟩ := getTile_some hp
  obtain ⟨hn, h0⟩ := scanOffsets_nodup c.sightRadius
  have hvis : (p :: (scanOffsets c.sightRadius).filterMap
      (seeAt env w.tiles origin.x origin.y)).Nodup := by
    rw [List.nodup_cons]
    constructor
    · intro hmem
      obtain ⟨d, hd, hs⟩ := List.mem_filterMap.1 hmem
      obtain ⟨tile, ht, hx, hy⟩ := seeAt_some hs
      rw [ho] at ht
      cases ht
      have : d = (0, 0) := Prod.ext (by simp only; omega) (by simp only; omega)
      exact h0 (this ▸ hd)
    · refine List.Nodup.filterMap ?_ hn
      intro d d' t hd hd'
      obtain ⟨tile, ht, hx, hy⟩ := seeAt_some (Option.mem_def.1 hd)
      obtain ⟨tile', ht', hx', hy'⟩ := seeAt_some (Option.mem_def.1 hd')
      rw [ht] at ht'
      cases ht'
      exact Prod.ext (by omega) (by omega)
  refine ⟨_, updateVisibleTiles_eq hp ho, hvis, ?_⟩
  intro i t0 tile0 color invert ht0 honly
  unfold getVisibleForce
  refine le_trans (count_flatMap_le t0 _ hvis ?_) ?_
  · intro t _ hne
    cases hti : w.tiles[t]? with
    | none => rfl
    | some tile =>
      dsimp only
      refine List.count_eq_zero.2 fun hmem => hne (honly t tile hti ?_)
      exact (List.mem_filter.1 hmem).1
  · simp only [ht0]
    exact (List.filter_sublist _).count_le i

/-- Witness of C29: the creature `watcher` in the corridor. -/
theorem visibleTiles_nodup_witness :
    ∃ vis, updateVisibleTiles plainEnv corridorScene watcher = .ok vis ∧ vis.Nodup ∧
      ∀ (i t0 : Nat) (tile0 : Tile) (color : Int) (invert : Bool),
        corridorScene.tiles[t0]? = some tile0 →
        (∀ t tile, corridorScene.tiles[t]? = some tile → i ∈ tile.creaturesInCell → t = t0) →
        (getVisibleForce corridorScene { watcher with visibleTiles := vis } color invert).count i
          ≤ tile0.creaturesInCell.count i :=
  visibleTiles_nodup plainEnv corridorScene watcher 0 (by with_unfolding_all decide)

/-! ## The early exit of the sector scan -/

theorem rowOffsets_test {r : ℚ} {i : Int} {d : Int × Int} :
    ∀ (fuel : Nat) (j : Int), d ∈ rowOffsets r i fuel j →
      roundDouble ((d.1 * d.1 + d.2 * d.2 : Int) : ℚ) < roundDouble (r * r) := by
  intro fuel
  induction fuel with
  | zero => intro j h; simp [rowOffsets] at h
  | succ fuel ih =>
    intro j h
    unfold rowOffsets at h
    split at h
    · split at h
      · next hd =>
        rcases List.mem_append.1 h with h | h
        · simp only [List.mem_cons, List.mem_singleton, List.not_mem_nil, or_false] at h
          rcases h with e | e | e | e <;> subst e <;> simpa using hd
        · exact ih (j + 1) h
      · exact ih _ h
    · simp at h

theorem sectorOffsets_test {r : ℚ} {d : Int × Int} :
    ∀ (fuel : Nat) (i : Int), d ∈ sectorOffsets r fuel i →
      roundDouble ((d.1 * d.1 + d.2 * d.2 : Int) : ℚ) < roundDouble (r * r) := by
  intro fuel
  induction fuel with
  | zero => intro i h; simp [sectorOffsets] at h
  | succ fuel ih =>
    intro i h
    unfold sectorOffsets at h
    split at h
    · rcases List.mem_append.1 h with h | h
      · exact rowOffsets_test _ _ h
      · exact ih (i + 1) h
    · simp at h

theorem seeAt_clear {env : Env} {tiles : List Tile} {xb yb : Int} {d : Int × Int} {t : Nat}
    (h : seeAt env tiles xb yb d = some t) :
    getTile tiles (xb + d.1) (yb + d.2) = some t ∧
    env.pathIsClear tiles (env.lineOfSight tiles xb yb (xb + d.1) (yb + d.2))
      .flyableTile = true := by
  unfold seeAt at h
  cases hg : getTile tiles (xb + d.1) (yb + d.2) with
  | none => simp [hg] at h
  | some t' =>
    simp only [hg] at h
    split at h
    · next hc =>
      cases h
      exact ⟨rfl, hc⟩
    · cases h

/-- A scanned offset is not `(0, 0)`, lies in the disc, and has passed the
test of line 720 when it lies off the axes. -/
theorem scanOffsets_test {r : ℚ} {d : Int × Int} (h : d ∈ scanOffsets r) :
    (d.1 ≠ 0 ∨ d.2 ≠ 0) ∧ ((d.1 * d.1 + d.2 * d.2 : Int) : ℚ) < r * r ∧
    (d.1 ≠ 0 → d.2 ≠ 0 →
      roundDouble ((d.1 * d.1 + d.2 * d.2 : Int) : ℚ) < roundDouble (r * r)) := by
  have hs := scanOffsets_sound h
  unfold scanOffsets at h
  rcases List.mem_append.1 h with h | h
  · have := (axisOffsets_nodup (r := r) ((toInt r).toNat + 1) 1 (le_refl _)).2 d h
    refine ⟨by omega, hs, fun h1 h2 => ?_⟩
    omega
  · have := (sectorOffsets_nodup (r := r) ((toInt r).toNat + 1) 1 (le_refl _)).2 d h
    exact ⟨by omega, hs, fun _ _ => sectorOffsets_test _ _ h⟩

/-- Below `2 ^ 53` the comparison of an integer with a double bound is not
changed by the conversion of the integer. -/
theorem roundDouble_lt_of_lt {n : Int} {q : ℚ} (hn : 0 ≤ n) (hq : roundDouble q = q)
    (h53 : q ≤ 9007199254740992) (h : (n : ℚ) < q) : roundDouble (n : ℚ) < roundDouble q := by
  have hb : (n : ℚ) < 9007199254740992 := lt_of_lt_of_le h h53
  have hb2 : n < 9007199254740992 := by exact_mod_cast hb
  rw [roundDouble_intCast n (by omega), hq]
  exact h

/-- C17, amended.  The early-exit scan equals the scan of all offsets with
the tests of the code.  For a creature on the tile `origin` with sight radius
`R ≥ 0`, `updateVisibleTiles` returns, the position tile is in the result
whatever the lines of sight are, and a tile is in the result exactly when it
is the position tile or lies at an offset `(dx, dy) ≠ (0, 0)` that passes the
test of the scan (on an axis `dx² + dy² < R²`, off the axes
`fl (dx² + dy²) < fl (R * R)` with `fl` the rounding to the nearest double),
exists and has a clear line of sight (`scannedFrom`): the early exit of a row
drops no such tile.  Every tile of the result other than the position tile
lies in the disc `dx² + dy² < R²` (`seenFrom`), and when the product `R * R`
is a double not above `2 ^ 53` the result is exactly the position tile and
the tiles of the disc. -/
theorem visible_iff_in_disc (env : Env) (w : World) (c : Creature) (p : Nat) (origin : Tile)
    (hp : positionTile w c = some p) (ho : w.tiles[p]? = some origin)
    (hR : 0 ≤ c.sightRadius) :
    ∃ vis, updateVisibleTiles env w c = .ok vis ∧ p ∈ vis ∧
      (∀ t, t ∈ vis ↔ t = p ∨ scannedFrom env w.tiles c.sightRadius origin.x origin.y t) ∧
      (∀ t, t ∈ vis → t = p ∨ seenFrom env w.tiles c.sightRadius origin.x origin.y t) ∧
      (roundDouble (c.sightRadius * c.sightRadius) = c.sightRadius * c.sightRadius →
        c.sightRadius * c.sightRadius ≤ 9007199254740992 →
        ∀ t, t ∈ vis ↔ t = p ∨ seenFrom env w.tiles c.sightRadius origin.x origin.y t) := by
  have scanned : ∀ t, t ∈ p :: (scanOffsets c.sightRadius).filterMap
      (seeAt env w.tiles origin.x origin.y) →
      t = p ∨ scannedFrom env w.tiles c.sightRadius origin.x origin.y t := by
    intro t ht
    rcases List.mem_cons.1 ht with e | hm
    · exact Or.inl e
    · obtain ⟨d, hd, hsee⟩ := List.mem_filterMap.1 hm
      obtain ⟨h1, h2, h3⟩ := scanOffsets_test hd
      obtain ⟨hg, hc⟩ := seeAt_clear hsee
      exact Or.inr ⟨d.1, d.2, h1, fun _ => h2, h3, hg, hc⟩
  have found : ∀ t, scannedFrom env w.tiles c.sightRadius origin.x origin.y t →
      t ∈ p :: (scanOffsets c.sightRadius).filterMap (seeAt env w.tiles origin.x origin.y) := by
    rintro t ⟨dx, dy, hne, hax, hsec, hg, hc⟩
    exact List.mem_cons_of_mem _
      (mem_filterMap_seeAt (d := (dx, dy)) (mem_scanOffsets hR hne hax hsec) hg hc)
  refine ⟨_, updateVisibleTiles_eq hp ho, List.mem_cons_self _ _, ?_, ?_, ?_⟩
  · intro t
    constructor
    · exact scanned t
    · rintro (e | h)
      · subst e
        exact List.mem_cons_self _ _
      · exact found t h
  · intro t ht
    exact updateVisibleTiles_mem hp ho (updateVisibleTiles_eq hp ho) ht
  · intro hfl h53 t
    constructor
    · intro ht
      exact updateVisibleTiles_mem hp ho (updateVisibleTiles_eq hp ho) ht
    · rintro (e | ⟨dx, dy, hne, hd, hg, hc⟩)
      · subst e
        exact List.mem_cons_self _ _
      · refine found t ⟨dx, dy, hne, fun _ => hd, fun _ _ => ?_, hg, hc⟩
        exact roundDouble_lt_of_lt (by nlinarith [mul_self_nonneg dx, mul_self_nonneg dy])
          hfl h53 hd

/-- Witness of C17 (amended): the creature `sentry` (sight radius 3.25, whose
square 10.5625 is a double) in the corner `(0,0)` of the map `openTiles`.  The
row `i = 2` is left at `j = 3` and the row `i = 3` at `j = 2`, before its
`j = 3`; the tiles `(3,2)`, `(2,3)` and `(3,3)` are outside the disc. -/
theorem visible_iff_in_disc_witness :
    updateVisibleTiles plainEnv openScene sentry
      = .ok [0, 1, 4, 2, 8, 3, 12, 5, 9, 13, 6, 10, 7] ∧
    ∃ vis, updateVisibleTiles plainEnv openScene sentry = .ok vis ∧ 0 ∈ vis ∧
      (∀ t, t ∈ vis ↔ t = 0 ∨ scannedFrom plainEnv openScene.tiles sentry.sightRadius 0 0 t) ∧
      ∀ t, t ∈ vis ↔ t = 0 ∨ seenFrom plainEnv openScene.tiles sentry.sightRadius 0 0 t := by
  obtain ⟨vis, h1, h2, h3, _, h5⟩ :=
    visible_iff_in_disc plainEnv openScene sentry 0 ⟨0, 0, 0, [], []⟩
      (by with_unfolding_all decide) rfl (by with_unfolding_all decide)
  exact ⟨by with_unfolding_all decide, vis, h1, h2, h3,
    h5 (by with_unfolding_all rfl) (by with_unfolding_all decide)⟩

/-- C17, counterexample.  The creature `lookout` stands in the corner `(0,0)`
of the map `wideTiles`; its sight radius `R` is the double
`4.123105625617661`, for which `R * R > 17` and `fl (R * R) = 17`.  The tile
`(4,1)` (handle 9) exists, its line of sight is clear and `4² + 1² = 17 < R²`,
but the test of line 720 is `17 < 17.0` and the tile is not in the result. -/
theorem visible_iff_in_disc_counterexample :
    positionTile wideScene lookout = some 0 ∧ 0 ≤ lookout.sightRadius ∧
    roundDouble lookout.sightRadius = lookout.sightRadius ∧
    17 < lookout.sightRadius * lookout.sightRadius ∧
    roundDouble (lookout.sightRadius * lookout.sightRadius) = 17 ∧
    updateVisibleTiles plainEnv wideScene lookout = .ok [0, 1, 5, 2, 3, 4, 6, 7, 8] ∧
    seenFrom plainEnv wideScene.tiles lookout.sightRadius 0 0 9 ∧
    9 ∉ [0, 1, 5, 2, 3, 4, 6, 7, 8] := by
  refine ⟨by with_unfolding_all decide, by with_unfolding_all decide,
    by with_unfolding_all rfl, by with_unfolding_all decide, by with_unfolding_all rfl,
    by with_unfolding_all decide, ?_, by decide⟩
  exact ⟨4, 1, Or.inl (by decide), by with_unfolding_all decide,
    by with_unfolding_all decide, by with_unfolding_all decide⟩

/-! ## The movement step of the attack -/

theorem attackCreatureBranch_move {env : Env} {w w' : World} {self : Nat} {c c' : Creature}
    {ve va : List Nat} {lb : Bool} (hne : ve ≠ [])
    (h : attackCreatureBranch env w self c ve va = .ok (w', c', lb)) :
    lb = false ∧
    ∃ (w1 : World) (c1 : Creature) (pt : Tile) (field : List ((Int × Int) × TileValue)) (k : Nat),
      attackFirstInRange env w c ve = .ok w1 ∧ w1.creatures[self]? = some c1 ∧
      (positionTile w1 c1).bind (fun p => w1.tiles[p]?) = some pt ∧
      buildField env w1 (some pt) ve va c1.visibleTiles w1.randomCalls [] = .ok (field, k) ∧
      w' = { w1 with randomCalls := k + 2 } ∧ c'.actionQueue = c1.actionQueue ∧
      ((env.path w1.tiles pt.x pt.y
          (toInt (((env.fieldMin field).1 : ℚ) + env.randomDouble k (-1 * 4) 4))
          (toInt (((env.fieldMin field).2 : ℚ) + env.randomDouble (k + 1) (-1 * 4) 4))
          c1.tilePassability).length > 5 →
        ∃ t tile, (env.path w1.tiles pt.x pt.y
          (toInt (((env.fieldMin field).1 : ℚ) + env.randomDouble k (-1 * 4) 4))
          (toInt (((env.fieldMin field).2 : ℚ) + env.randomDouble (k + 1) (-1 * 4) 4))
          c1.tilePassability)[3]? = some t ∧ w1.tiles[t]? = some tile ∧
          c'.walkQueue = [⟨tile.x, tile.y, 0⟩]) ∧
      ((env.path w1.tiles pt.x pt.y
          (toInt (((env.fieldMin field).1 : ℚ) + env.randomDouble k (-1 * 4) 4))
          (toInt (((env.fieldMin field).2 : ℚ) + env.randomDouble (k + 1) (-1 * 4) 4))
          c1.tilePassability).length ≤ 5 → c'.walkQueue = []) := by
  unfold attackCreatureBranch at h
  have hlen : ¬ ve.length = 0 := by
    intro e
    exact hne (List.length_eq_zero.1 e)
  rw [if_neg hlen] at h
  cases h1 : attackFirstInRange env w c ve with
  | error f => simp [h1] at h
  | ok w1 =>
    simp only [h1] at h
    cases h2 : creatureOf w1 self with
    | error f => simp [h2] at h
    | ok c1 =>
      simp only [h2] at h
      cases hpt : (positionTile w1 c1).bind (fun p => w1.tiles[p]?) with
      | none =>
        rw [hpt] at h
        split at h
        · cases h
        · cases h
      | some pt =>
        rw [hpt] at h
        cases h3 : buildField env w1 (some pt) ve va c1.visibleTiles w1.randomCalls [] with
        | error f => simp [h3] at h
        | ok r =>
          obtain ⟨field, k⟩ := r
          simp only [h3] at h
          split at h
          · next hgt =>
            split at h
            · cases h
            · next t ht =>
              split at h
              · cases h
              · next tile htile =>
                have e := Except.ok.inj h
                simp only [Prod.mk.injEq] at e
                obtain ⟨e1, e2, e3⟩ := e
                subst e1 e2 e3
                refine ⟨rfl, w1, c1, pt, field, k, rfl, creatureOf_ok h2, hpt, h3, rfl, rfl, ?_, ?_⟩
                · intro _
                  exact ⟨t, tile, ht, tileOf_ok htile, rfl⟩
                · intro hle
                  exact absurd hgt (by omega)
          · next hgt =>
            have e := Except.ok.inj h
            simp only [Prod.mk.injEq] at e
            obtain ⟨e1, e2, e3⟩ := e
            subst e1 e2 e3
            refine ⟨rfl, w1, c1, pt, field, k, rfl, creatureOf_ok h2, hpt, h3, rfl, rfl, ?_, ?_⟩
            · intro hgt'
              exact absurd hgt' hgt
            · intro _
              rfl

/-- C24: a pass through the `attackCreature` case with an enemy in sight that
returns leaves at most one destination in the walk queue, whatever the queue
held before, and does not loop back: when the path toward the minimum of the
field has more than 5 tiles the queue holds the coordinates of the tile at
index 3 of the path, otherwise it is empty. -/
theorem combat_fixed_step (env : Env) (w : World) (self : Nat) (c : Creature)
    (a : CreatureAction) (rest : List CreatureAction) (ve va : List Nat)
    (hc : w.creatures[self]? = some c) (hq : c.actionQueue = a :: rest)
    (ha : a.type = .attackCreature) (hne : ve ≠ []) :
    ∀ w' lb, doTurnIter env w self ve va = .ok (w', lb) →
      lb = false ∧
      ∃ (c' : Creature) (tempPath : List Nat), w'.creatures[self]? = some c' ∧
        c'.walkQueue.length ≤ 1 ∧
        (∃ (w1 : World) (c1 : Creature) (pt : Tile) (field : List ((Int × Int) × TileValue))
            (k : Nat),
          attackFirstInRange env { w with randomCalls := w.randomCalls + 1 } c ve = .ok w1 ∧
          w1.creatures[self]? = some c1 ∧
          (positionTile w1 c1).bind (fun p => w1.tiles[p]?) = some pt ∧
          buildField env w1 (some pt) ve va c1.visibleTiles w1.randomCalls [] = .ok (field, k) ∧
          w'.tiles = w1.tiles ∧
          tempPath = env.path w1.tiles pt.x pt.y
            (toInt (((env.fieldMin field).1 : ℚ) + env.randomDouble k (-1 * 4) 4))
            (toInt (((env.fieldMin field).2 : ℚ) + env.randomDouble (k + 1) (-1 * 4) 4))
            c1.tilePassability) ∧
        (tempPath.length > 5 → ∃ t tile, tempPath[3]? = some t ∧ w'.tiles[t]? = some tile ∧
          c'.walkQueue = [⟨tile.x, tile.y, 0⟩]) ∧
        (tempPath.length ≤ 5 → c'.walkQueue = []) := by
  intro w' lb h
  unfold doTurnIter creatureOf at h
  simp only [hc, hq, ha] at h
  split at h
  · cases h
  · next w2 c2 lb2 hr =>
    have e := Except.ok.inj h
    simp only [Prod.mk.injEq] at e
    obtain ⟨e1, e2⟩ := e
    subst e1 e2
    obtain ⟨hlb, w1, c1, pt, field, k, h1, hc1, hpt, hf, hw2, _, hlong, hshort⟩ :=
      attackCreatureBranch_move hne hr
    have hc2 : w2.creatures[self]? = some c1 := by rw [hw2]; exact hc1
    refine ⟨hlb, c2, _, queueOf_modifyCreature_const c2 hc2, ?_,
      ⟨w1, c1, pt, field, k, h1, hc1, hpt, hf, by rw [hw2]; rfl, rfl⟩, ?_, hshort⟩
    · by_cases hl : (env.path w1.tiles pt.x pt.y
          (toInt (((env.fieldMin field).1 : ℚ) + env.randomDouble k (-1 * 4) 4))
          (toInt (((env.fieldMin field).2 : ℚ) + env.randomDouble (k + 1) (-1 * 4) 4))
          c1.tilePassability).length > 5
      · obtain ⟨t, tile, _, _, hwq⟩ := hlong hl
        rw [hwq]
        exact le_refl _
      · rw [hshort (by omega)]
        exact Nat.zero_le _
    · intro hl
      obtain ⟨t, tile, ht, htile, hwq⟩ := hlong hl
      exact ⟨t, tile, ht, by rw [hw2]; exact htile, hwq⟩

/-- Witness of C24: the creature `duellist`, with two destinations in its
walk queue, and a path of six tiles: the walk queue becomes `[(3,0)]`. -/
theorem combat_fixed_step_witness :
    (doTurnIter corridorPathEnv duelScene 0 [1] []).toOption.map
        (fun r => (r.1.creatures[0]?.map fun c => c.walkQueue, r.2))
      = some (some [⟨3, 0, 0⟩], false) ∧
    ∀ w' lb, doTurnIter corridorPathEnv duelScene 0 [1] [] = .ok (w', lb) →
      lb = false ∧
      ∃ (c' : Creature) (tempPath : List Nat), w'.creatures[0]? = some c' ∧
        c'.walkQueue.length ≤ 1 ∧
        (∃ (w1 : World) (c1 : Creature) (pt : Tile) (field : List ((Int × Int) × TileValue))
            (k : Nat),
          attackFirstInRange corridorPathEnv
            { duelScene with randomCalls := duelScene.randomCalls + 1 } duellist [1] = .ok w1 ∧
          w1.creatures[0]? = some c1 ∧
          (positionTile w1 c1).bind (fun p => w1.tiles[p]?) = some pt ∧
          buildField corridorPathEnv w1 (some pt) [1] [] c1.visibleTiles w1.randomCalls []
            = .ok (field, k) ∧
          w'.tiles = w1.tiles ∧
          tempPath = corridorPathEnv.path w1.tiles pt.x pt.y
            (toInt (((corridorPathEnv.fieldMin field).1 : ℚ)
              + corridorPathEnv.randomDouble k (-1 * 4) 4))
            (toInt (((corridorPathEnv.fieldMin field).2 : ℚ)
              + corridorPathEnv.randomDouble (k + 1) (-1 * 4) 4))
            c1.tilePassability) ∧
        (tempPath.length > 5 → ∃ t tile, tempPath[3]? = some t ∧ w'.tiles[t]? = some tile ∧
          c'.walkQueue = [⟨tile.x, tile.y, 0⟩]) ∧
        (tempPath.length ≤ 5 → c'.walkQueue = []) :=
  ⟨by with_unfolding_all decide,
    combat_fixed_step corridorPathEnv duelScene 0 duellist ⟨.attackCreature, some 1⟩
      [⟨.idle, none⟩] [1] [] rfl rfl rfl (by simp)⟩

/-! ## Digging a marked neighbour -/

theorem firstMarkedNeighbor_tiles (w1 w2 : World) (p : Player) (h : w1.tiles = w2.tiles) :
    ∀ ns : List Nat, firstMarkedNeighbor w1 p ns = firstMarkedNeighbor w2 p ns := by
  intro ns
  induction ns with
  | nil => rfl
  | cons n ns ih =>
    unfold firstMarkedNeighbor tileOf
    rw [h, ih]

theorem getElem?_setFullness_ne (w : World) {t t' : Nat} (f : ℚ) (h : t' ≠ t) :
    (setFullness w t f).tiles[t']? = w.tiles[t']? := by
  unfold setFullness
  simp [getElem?_updateAt, h]

/-- C26: a pass through the `digTile` case that finds a marked neighbour `t`
digs this tile and no other (it stores the rounded difference of its fullness
and the dig rate, or 0 when that is negative), and does not loop back; when
the fullness of the tile has become 0 the action on top is replaced by
`walkToTile`, the queue keeping its length, and the coordinates of the tile
are appended to the walk queue; when the fullness stays above 0 the action
queue and the walk queue are as before. -/
theorem dig_completion (env : Env) (w : World) (self : Nat) (c : Creature)
    (a : CreatureAction) (rest : List CreatureAction) (ve va : List Nat) (p : Player)
    (t : Nat) (tile : Tile)
    (hc : w.creatures[self]? = some c) (hq : c.actionQueue = a :: rest) (ha : a.type = .digTile)
    (hp : getControllingPlayer w c = some p)
    (hf : firstMarkedNeighbor w p
      (env.neighborTiles w.tiles (toInt c.position.x) (toInt c.position.y)) = .ok (some (t, tile))) :
    ∃ w' c', doTurnIter env w self ve va = .ok (w', false) ∧ w'.creatures[self]? = some c' ∧
      (∀ t', t' ≠ t → w'.tiles[t']? = w.tiles[t']?) ∧
      w'.tiles[t]? = some { tile with fullness := max 0 (roundDouble (tile.fullness - c.digRate)) } ∧
      (getFullness w' t = 0 ∨ 0 < getFullness w' t) ∧
      (getFullness w' t = 0 →
        c'.actionQueue = ⟨.walkToTile, none⟩ :: rest ∧
        c'.actionQueue.length = c.actionQueue.length ∧
        c'.walkQueue = c.walkQueue ++ [⟨tile.x, tile.y, 0⟩]) ∧
      (0 < getFullness w' t → c'.actionQueue = c.actionQueue ∧ c'.walkQueue = c.walkQueue) := by
  obtain ⟨_, ht, _⟩ := firstMarkedNeighbor_some _ hf
  have hf0 : firstMarkedNeighbor { w with randomCalls := w.randomCalls + 1 } p
      (env.neighborTiles w.tiles (toInt c.position.x) (toInt c.position.y))
      = .ok (some (t, tile)) := by
    exact (firstMarkedNeighbor_tiles { w with randomCalls := w.randomCalls + 1 } w p rfl _).trans hf
  have hp0 : getControllingPlayer { w with randomCalls := w.randomCalls + 1 } c = some p := hp
  have hd := @digNeighbor_eq env { w with randomCalls := w.randomCalls + 1 } c t tile ht
  have hc0 : (setFullness { w with randomCalls := w.randomCalls + 1 } t
      (max 0 (roundDouble (tile.fullness - c.digRate)))).creatures[self]? = some c := hc
  have hfull : ∀ c1 : Creature, getFullness (modifyCreature
      (setFullness { w with randomCalls := w.randomCalls + 1 } t
        (max 0 (roundDouble (tile.fullness - c.digRate)))) self (fun _ => c1)) t
      = max 0 (roundDouble (tile.fullness - c.digRate)) := by
    intro c1
    exact getFullness_setFullness (w := { w with randomCalls := w.randomCalls + 1 }) ht _
  obtain ⟨c1, hc1⟩ : ∃ c1 : Creature, c1 = if roundDouble (tile.fullness - c.digRate) ≤ 0 then
      { addDestination c tile.x tile.y with
        actionQueue := ⟨.walkToTile, none⟩ :: c.actionQueue.tail }
    else c := ⟨_, rfl⟩
  rw [← hc1] at hd
  refine ⟨modifyCreature (setFullness { w with randomCalls := w.randomCalls + 1 } t
      (max 0 (roundDouble (tile.fullness - c.digRate)))) self (fun _ => c1), c1, ?_,
    queueOf_modifyCreature_const _ hc0, ?_, ?_, ?_, ?_, ?_⟩
  · unfold doTurnIter creatureOf
    simp only [hc, hq, ha]
    unfold digTileBranch
    simp only [hp0, hf0, hd]
  · intro t' hne
    exact getElem?_setFullness_ne _ _ hne
  · exact getElem?_setFullness (w := { w with randomCalls := w.randomCalls + 1 }) ht _
  · rw [hfull]
    rcases le_or_lt (roundDouble (tile.fullness - c.digRate)) 0 with h | h
    · exact Or.inl (max_eq_left h)
    · exact Or.inr (lt_max_of_lt_right h)
  · intro h0
    rw [hfull] at h0
    have hle : roundDouble (tile.fullness - c.digRate) ≤ 0 := by
      by_contra hgt
      have : (0 : ℚ) < max 0 (roundDouble (tile.fullness - c.digRate)) := lt_max_of_lt_right (not_le.1 hgt)
      rw [h0] at this
      exact lt_irrefl _ this
    rw [if_pos hle] at hc1
    subst hc1
    simp [addDestination, hq]
  · intro h0
    rw [hfull] at h0
    have hgt : ¬ roundDouble (tile.fullness - c.digRate) ≤ 0 := by
      intro hle
      rw [max_eq_left hle] at h0
      exact lt_irrefl _ h0
    rw [if_neg hgt] at hc1
    subst hc1
    exact ⟨rfl, rfl⟩

/-- Witness of C26: the digger of `digScene` and the marked wall tile
`(1,0)`. -/
theorem dig_completion_witness :
    ∃ w' c', doTurnIter plainEnv digScene 0 [] [] = .ok (w', false) ∧
      w'.creatures[0]? = some c' ∧
      (∀ t', t' ≠ 1 → w'.tiles[t']? = digScene.tiles[t']?) ∧
      w'.tiles[1]? = some { (⟨1, 0, 10, [0], []⟩ : Tile) with fullness := max 0 (roundDouble ((10 : ℚ) - digger.digRate)) } ∧
      (getFullness w' 1 = 0 ∨ 0 < getFullness w' 1) ∧
      (getFullness w' 1 = 0 →
        c'.actionQueue = ⟨.walkToTile, none⟩ :: [⟨.idle, none⟩] ∧
        c'.actionQueue.length = digger.actionQueue.length ∧
        c'.walkQueue = digger.walkQueue ++ [⟨1, 0, 0⟩]) ∧
      (0 < getFullness w' 1 → c'.actionQueue = digger.actionQueue ∧
        c'.walkQueue = digger.walkQueue) :=
  dig_completion plainEnv digScene 0 digger ⟨.digTile, none⟩ [⟨.idle, none⟩] [] [] ⟨0, 1⟩ 1
    ⟨1, 0, 10, [0], []⟩ rfl rfl rfl (by with_unfolding_all decide) (by with_unfolding_all decide)

/-! ## Paths of fewer than two tiles -/

/-- C21: with the roll 0.5 and a path finder that finds no path (or the start
tile alone) the `idle` case of the creature of `idleDiggerScene` leaves
`walkToTile` on top of `idle` with an empty walk queue and does not loop back.
The `digTile` case of the creature of `farMarkScene`, whose candidate paths
all have fewer than two tiles, pushes nothing: it pops `digTile` and loops
back. -/
theorem short_path_leaves_walk_pushed :
    plainEnv.randomDouble 0 0 1 = 1 / 2 ∧
    plainEnv.path idleDiggerScene.tiles 0 0 0 0 .walkableTile = [] ∧
    onePathEnv.path idleDiggerScene.tiles 0 0 0 0 .walkableTile = [0] ∧
    (doTurnIter plainEnv idleDiggerScene 0 [] []).toOption.map
        (fun r => (r.1.creatures[0]?.map fun c => (c.actionQueue, c.walkQueue), r.2))
      = some (some ([⟨.walkToTile, none⟩, ⟨.idle, none⟩], []), false) ∧
    (doTurnIter onePathEnv idleDiggerScene 0 [] []).toOption.map
        (fun r => (r.1.creatures[0]?.map fun c => (c.actionQueue, c.walkQueue), r.2))
      = some (some ([⟨.walkToTile, none⟩, ⟨.idle, none⟩], []), false) ∧
    (doTurn plainEnv 1 idleDiggerScene 0).toOption.map
        (fun w => w.creatures[0]?.map fun c => (c.actionQueue, c.walkQueue))
      = some (some ([⟨.walkToTile, none⟩, ⟨.idle, none⟩], [])) ∧
    (doTurnIter plainEnv farMarkScene 0 [] []).toOption.map
        (fun r => (r.1.creatures[0]?.map fun c => (c.actionQueue, c.walkQueue), r.2))
      = some (some ([⟨.idle, none⟩], []), true) ∧
    (doTurnIter onePathEnv farMarkScene 0 [] []).toOption.map
        (fun r => (r.1.creatures[0]?.map fun c => (c.actionQueue, c.walkQueue), r.2))
      = some (some ([⟨.idle, none⟩], []), true) := by
  refine ⟨by with_unfolding_all decide, by with_unfolding_all decide,
    by with_unfolding_all decide, by with_unfolding_all decide, by with_unfolding_all decide,
    by with_unfolding_all decide, by with_unfolding_all decide, by with_unfolding_all decide⟩

/-! ## The values of the battle field -/

theorem denotes_withAlly (allyTile : Tile) {e : (Int × Int) × TileValue} {r : ℝ}
    (h : e.2.Denotes r) :
    (withAlly allyTile e).2.Denotes
      (r + 15 / Real.sqrt ((((e.1.1 - allyTile.x) ^ 2 + (e.1.2 - allyTile.y) ^ 2 : Int) : ℝ) + 1)
        * (e.2.tileScaleFactor : ℝ)) := by
  unfold TileValue.Denotes at h ⊢
  unfold withAlly
  simp only [List.map_cons, List.sum_cons]
  rw [h]
  ring

theorem fieldSet_withAlly (allyTile : Tile) (field : List ((Int × Int) × TileValue)) (x y : Int)
    (v : TileValue) :
    fieldSet (field.map (withAlly allyTile)) x y
        { v with allyTerms := ((x - allyTile.x) ^ 2 + (y - allyTile.y) ^ 2) :: v.allyTerms }
      = (fieldSet field x y v).map (withAlly allyTile) := by
  unfold fieldSet
  rw [List.map_append, List.filter_map]
  rfl

theorem allyTerms_cons {w : World} {my allyTile : Tile} {a : Nat} {ally : Creature}
    (ha : w.creatures[a]? = some ally)
    (hat : (positionTile w ally).bind (fun p => w.tiles[p]?) = some allyTile)
    (tempTile : Tile) (va : List Nat) :
    allyTerms w (some my) tempTile (a :: va) =
      match allyTerms w (some my) tempTile va with
      | .error f => .error f
      | .ok rest =>
        .ok (((tempTile.x - allyTile.x) ^ 2 + (tempTile.y - allyTile.y) ^ 2) :: rest) := by
  have hc : creatureOf w a = .ok ally := by unfold creatureOf; rw [ha]
  rw [allyTerms, hc]
  simp only [hat]

theorem buildField_withAlly {env : Env} {w : World} {my allyTile : Tile} {ve va : List Nat}
    {a : Nat} {ally : Creature} (ha : w.creatures[a]? = some ally)
    (hat : (positionTile w ally).bind (fun p => w.tiles[p]?) = some allyTile) :
    ∀ (vis : List Nat) (k : Nat) (f field : List ((Int × Int) × TileValue)) (k' : Nat),
      buildField env w (some my) ve va vis k f = .ok (field, k') →
      buildField env w (some my) ve (a :: va) vis k (f.map (withAlly allyTile))
        = .ok (field.map (withAlly allyTile), k') := by
  intro vis
  induction vis with
  | nil =>
    intro k f field k' h
    unfold buildField at h ⊢
    cases h
    rfl
  | cons t ts ih =>
    intro k f field k' h
    unfold buildField at h ⊢
    cases ht : tileOf w t with
    | error e => simp [ht] at h
    | ok tempTile =>
      simp only [ht] at h ⊢
      rw [allyTerms_cons ha hat]
      cases he : enemyTerms w (some my) tempTile ve with
      | error e => simp [he] at h
      | ok es =>
        cases hal : allyTerms w (some my) tempTile va with
        | error e => simp [he, hal] at h
        | ok as =>
          simp only [he, hal] at h ⊢
          rw [← ih _ _ _ _ h, ← fieldSet_withAlly]

theorem buildField_scale {env : Env} {w : World} {myTile : Option Tile} {ve va : List Nat} :
    ∀ (vis : List Nat) (k : Nat) (f field : List ((Int × Int) × TileValue)) (k' : Nat),
      (∀ e ∈ f, e.2.tileScaleFactor = 1 / 20) →
      buildField env w myTile ve va vis k f = .ok (field, k') →
      ∀ e ∈ field, e.2.tileScaleFactor = 1 / 20 := by
  intro vis
  induction vis with
  | nil =>
    intro k f field k' hf h
    unfold buildField at h
    cases h
    exact hf
  | cons t ts ih =>
    intro k f field k' hf h
    unfold buildField at h
    split at h
    · cases h
    · split at h
      · refine ih _ _ _ _ ?_ h
        intro e he
        unfold fieldSet at he
        rcases List.mem_append.1 he with he | he
        · exact hf e (List.mem_filter.1 he).1
        · simp only [List.mem_singleton] at he
          subst he
          show (5 / 100 : ℚ) = 1 / 20
          norm_num
      · cases h
      · cases h

theorem allyAmount_pos (d : Int) (hd : 0 ≤ d) : (0 : ℝ) < 15 / Real.sqrt ((d : ℝ) + 1) * (1 / 20) := by
  have h1 : (0 : ℝ) < (d : ℝ) + 1 := by
    have : (0 : ℝ) ≤ (d : ℝ) := by exact_mod_cast hd
    linarith
  have h2 := Real.sqrt_pos.2 h1
  positivity

theorem allyAmount_anti (d1 d2 : Int) (h1 : 0 ≤ d1) (h : d1 < d2) :
    (15 : ℝ) / Real.sqrt ((d2 : ℝ) + 1) * (1 / 20) < 15 / Real.sqrt ((d1 : ℝ) + 1) * (1 / 20) := by
  have e1 : (0 : ℝ) < (d1 : ℝ) + 1 := by
    have : (0 : ℝ) ≤ (d1 : ℝ) := by exact_mod_cast h1
    linarith
  have e2 : (d1 : ℝ) + 1 < (d2 : ℝ) + 1 := by
    have : (d1 : ℝ) < (d2 : ℝ) := by exact_mod_cast h
    linarith
  have hs := Real.sqrt_lt_sqrt (le_of_lt e1) e2
  have hp := Real.sqrt_pos.2 e1
  have := div_lt_div_of_pos_left (by norm_num : (0 : ℝ) < 15) hp hs
  linarith

/-- C23, amended.  Adding a visible ally `a`, standing in the tile
`allyTile`, to the allies for which the battle field is built puts one more
ally term in front of the terms of every entry: the squared distance between
the tile of the entry and `allyTile`.  The value of every tile rises by
`15 / sqrt(d² + 1) * 0.05`, a positive amount, and it rises more for a tile
nearer to the ally. -/
theorem ally_term_positive (env : Env) (w : World) (my allyTile : Tile) (ve va : List Nat)
    (a : Nat) (ally : Creature) (vis : List Nat) (k k' : Nat)
    (field : List ((Int × Int) × TileValue))
    (ha : w.creatures[a]? = some ally)
    (hat : (positionTile w ally).bind (fun p => w.tiles[p]?) = some allyTile)
    (h : buildField env w (some my) ve va vis k [] = .ok (field, k')) :
    buildField env w (some my) ve (a :: va) vis k [] = .ok (field.map (withAlly allyTile), k') ∧
    (∀ e ∈ field, ∀ r r' : ℝ, e.2.Denotes r → (withAlly allyTile e).2.Denotes r' →
      r' = r + 15 / Real.sqrt ((((e.1.1 - allyTile.x) ^ 2 + (e.1.2 - allyTile.y) ^ 2 : Int) : ℝ) + 1)
        * (1 / 20) ∧ r < r') ∧
    (∀ e1 ∈ field, ∀ e2 ∈ field,
      (e1.1.1 - allyTile.x) ^ 2 + (e1.1.2 - allyTile.y) ^ 2
        < (e2.1.1 - allyTile.x) ^ 2 + (e2.1.2 - allyTile.y) ^ 2 →
      ∀ r1 r1' r2 r2' : ℝ, e1.2.Denotes r1 → (withAlly allyTile e1).2.Denotes r1' →
        e2.2.Denotes r2 → (withAlly allyTile e2).2.Denotes r2' → r2' - r2 < r1' - r1) := by
  have hsc := buildField_scale vis k [] field k' (by simp) h
  have key : ∀ e ∈ field, ∀ r r' : ℝ, e.2.Denotes r → (withAlly allyTile e).2.Denotes r' →
      r' = r + 15 / Real.sqrt ((((e.1.1 - allyTile.x) ^ 2 + (e.1.2 - allyTile.y) ^ 2 : Int) : ℝ) + 1)
        * (1 / 20) := by
    intro e he r r' hr hr'
    have h1 := denotes_withAlly allyTile hr
    rw [hsc e he] at h1
    unfold TileValue.Denotes at h1 hr'
    rw [hr', ← h1]
    push_cast
    ring
  refine ⟨?_, ?_, ?_⟩
  · simpa using buildField_withAlly ha hat vis k [] field k' h
  · intro e he r r' hr hr'
    have hk := key e he r r' hr hr'
    refine ⟨hk, ?_⟩
    have := allyAmount_pos ((e.1.1 - allyTile.x) ^ 2 + (e.1.2 - allyTile.y) ^ 2) (by positivity)
    linarith
  · intro e1 he1 e2 he2 hlt r1 r1' r2 r2' h1 h1' h2 h2'
    have k1 := key e1 he1 r1 r1' h1 h1'
    have k2 := key e2 he2 r2 r2' h2 h2'
    have := allyAmount_anti _ _ (by positivity) hlt
    linarith

/-- Witness of C23 (amended): the ally in the tile `(5,0)` of `alliedScene`
added to no ally. -/
theorem ally_term_positive_witness :
    buildField plainEnv alliedScene (some ⟨0, 0, 0, [], []⟩) [1] [2] [0, 1, 2, 3, 4, 5] 1 []
      = .ok ([((0, 0), ⟨[(9, 9)], [], 0, 1 / 20⟩), ((1, 0), ⟨[(9, 4)], [], 0, 1 / 20⟩),
          ((2, 0), ⟨[(9, 1)], [], 0, 1 / 20⟩), ((3, 0), ⟨[(9, 0)], [], 0, 1 / 20⟩),
          ((4, 0), ⟨[(9, 1)], [], 0, 1 / 20⟩), ((5, 0), ⟨[(9, 4)], [], 0, 1 / 20⟩)].map
            (withAlly ⟨5, 0, 0, [], [2]⟩), 7) :=
  (ally_term_positive plainEnv alliedScene ⟨0, 0, 0, [], []⟩ ⟨5, 0, 0, [], [2]⟩ [1] [] 2
    { position := ⟨5, 0, 0⟩, color := 1, actionQueue := [⟨.idle, none⟩] } [0, 1, 2, 3, 4, 5] 1 7
    _ rfl (by with_unfolding_all decide) (by with_unfolding_all decide)).1

set_option maxRecDepth 10000 in
theorem duelScene_last :
    (doTurn plainEnv 3 duelScene 0).toOption.map
        (fun w => w.creatures[0]?.map fun c => c.battleField.getLast?)
      = some (some (some ((5, 0), ⟨[(9, 4)], [], 0, 1 / 20⟩))) := by
  with_unfolding_all decide

set_option maxRecDepth 10000 in
theorem alliedScene_last :
    (doTurn plainEnv 3 alliedScene 0).toOption.map
        (fun w => w.creatures[0]?.map fun c => c.battleField.getLast?)
      = some (some (some ((5, 0), ⟨[(9, 4)], [0], 0, 1 / 20⟩))) := by
  with_unfolding_all decide

/-- C23, counterexample.  In the scene `alliedScene` the ally standing in `(5,0)` raises the
value stored for the tile `(5,0)`: without the ally (`duelScene`) the entry
has no ally term, with the ally it has the ally term of distance 0, which adds
`15 / sqrt 1 * 0.05` to the value. -/
theorem ally_term_counterexample :
    getVisibleAllies alliedScene { duellist with visibleTiles := [0, 1, 2, 3, 4, 5] } = [2] ∧
    (doTurn plainEnv 3 duelScene 0).toOption.map
        (fun w => w.creatures[0]?.map fun c => c.battleField.getLast?)
      = some (some (some ((5, 0), ⟨[(9, 4)], [], 0, 1 / 20⟩))) ∧
    (doTurn plainEnv 3 alliedScene 0).toOption.map
        (fun w => w.creatures[0]?.map fun c => c.battleField.getLast?)
      = some (some (some ((5, 0), ⟨[(9, 4)], [0], 0, 1 / 20⟩))) ∧
    ∀ r r' : ℝ, TileValue.Denotes ⟨[(9, 4)], [], 0, 1 / 20⟩ r →
      TileValue.Denotes ⟨[(9, 4)], [0], 0, 1 / 20⟩ r' → r < r' ∧ r' - r = 15 / 20 := by
  refine ⟨by with_unfolding_all decide, duelScene_last, alliedScene_last, ?_⟩
  intro r r' h h'
  unfold TileValue.Denotes at h h'
  simp only [List.map_cons, List.map_nil, List.sum_cons, List.sum_nil] at h h'
  have e : Real.sqrt (((0 : Int) : ℝ) + 1) = 1 := by simp
  rw [e] at h'
  rw [h, h']
  constructor
  · push_cast; linarith
  · push_cast; ring

/-! ## The shape of the action queue is kept -/

theorem stackShape_idle {a : CreatureAction} {rest : List CreatureAction}
    (h : stackShape (a :: rest)) (ha : a.type = .idle) :
    rest = [] ∧ stackShape (⟨.digTile, none⟩ :: a :: rest) ∧
      stackShape (⟨.walkToTile, none⟩ :: a :: rest) := by
  unfold stackShape at h ⊢
  simp only [List.map_cons, ha] at h ⊢
  simp at h
  simp [h]

theorem stackShape_walk {a : CreatureAction} {rest : List CreatureAction}
    (h : stackShape (a :: rest)) (ha : a.type = .walkToTile) : rest ≠ [] ∧ stackShape rest := by
  unfold stackShape at h ⊢
  simp only [List.map_cons, ha] at h
  simp at h
  rcases h with h | h <;> simp [h] <;> intro e <;> simp [e] at h

theorem stackShape_dig {a : CreatureAction} {rest : List CreatureAction}
    (h : stackShape (a :: rest)) (ha : a.type = .digTile) :
    stackShape rest ∧ stackShape (⟨.walkToTile, none⟩ :: rest) ∧
      stackShape (⟨.walkToTile, none⟩ :: a :: rest) := by
  unfold stackShape at h ⊢
  simp only [List.map_cons, ha] at h ⊢
  simp at h
  simp [h]

theorem stackShape_attack {a : CreatureAction} {rest : List CreatureAction}
    (h : stackShape (a :: rest)) (ha : a.type = .attackCreature) : stackShape rest := by
  unfold stackShape at h ⊢
  simp only [List.map_cons, ha] at h
  simp at h
  rcases h with h | h | h | h <;> simp [h]

theorem stackShape_push_attack {a : CreatureAction} {rest : List CreatureAction}
    (h : stackShape (a :: rest)) (ha : a.type ≠ .attackCreature) (e : Option Nat) :
    stackShape (⟨.attackCreature, e⟩ :: a :: rest) := by
  unfold stackShape at h ⊢
  simp only [List.map_cons] at h ⊢
  simp at h
  rcases h with h | h | h | h | h | h | h | h <;> first | exact absurd h.1 ha | simp [h]

theorem stackShape_ne_nil {q : List CreatureAction} (h : stackShape q) : q ≠ [] := by
  intro e
  subst e
  simp [stackShape] at h

theorem idleBranch_shape {env : Env} {w w1 : World} {c c1 : Creature} {r : ℚ} {lb : Bool}
    {a : CreatureAction} {rest : List CreatureAction} (hq : c.actionQueue = a :: rest)
    (ha : a.type = .idle) (hs : stackShape c.actionQueue)
    (h : idleBranch env w c r = .ok (w1, c1, lb)) :
    stackShape c1.actionQueue ∧ w1.creatures = w.creatures := by
  rw [hq] at hs
  obtain ⟨_, hd, hw⟩ := stackShape_idle hs ha
  rw [← hq] at hs hd hw
  unfold idleBranch at h
  split at h
  · cases h; exact ⟨hd, rfl⟩
  · split at h
    · split at h
      · cases h; exact ⟨hw, rfl⟩
      · split at h
        · cases h
        · dsimp only at h
          split at h
          · split at h
            · cases h
            · next c2 hc2 =>
              cases h
              rw [(addDestinations_fields _ _ _ hc2).1]
              exact ⟨hw, rfl⟩
          · cases h; exact ⟨hw, rfl⟩
    · cases h; exact ⟨hs, rfl⟩

theorem walkToTileBranch_shape {env : Env} {w w1 : World} {c c1 : Creature} {lb : Bool}
    {a : CreatureAction} {rest : List CreatureAction} (hq : c.actionQueue = a :: rest)
    (ha : a.type = .walkToTile) (hs : stackShape c.actionQueue)
    (h : walkToTileBranch env w c = .ok (w1, c1, lb)) :
    stackShape c1.actionQueue ∧ w1 = w := by
  have hrest : stackShape rest := by
    rw [hq] at hs
    exact (stackShape_walk hs ha).2
  unfold walkToTileBranch at h
  split at h
  · cases h
  · next below hb =>
    have key : ∀ c0 : Creature, c0.actionQueue = c.actionQueue →
        (if c0.walkQueue.length = 0 then
            (Except.ok (w, { c0 with actionQueue := c0.actionQueue.tail }, true) :
              Except Fault (World × Creature × Bool))
          else .ok (w, c0, false)) = .ok (w1, c1, lb) →
        stackShape c1.actionQueue ∧ w1 = w := by
      intro c0 h0 h
      split at h
      · cases h
        refine ⟨?_, rfl⟩
        simpa [h0, hq] using hrest
      · cases h
        exact ⟨by rw [h0]; exact hs, rfl⟩
    split at h
    · exact key _ (abortOnStaleGoal_fields env w c).1 h
    · exact key _ rfl h

theorem finishDigging_shape (w : World) (c : Creature) {a : CreatureAction}
    {rest : List CreatureAction} (hq : c.actionQueue = a :: rest) (ha : a.type = .digTile)
    (hs : stackShape c.actionQueue) {w1 : World} {c1 : Creature} {lb : Bool}
    (h : (Except.ok (finishDigging w c) : Except Fault (World × Creature × Bool))
      = .ok (w1, c1, lb)) :
    stackShape c1.actionQueue ∧ w1.creatures = w.creatures := by
  have hrest : stackShape rest := by
    rw [hq] at hs
    exact (stackShape_dig hs ha).1
  have e := Except.ok.inj h
  unfold finishDigging at e
  rw [hq] at e
  dsimp only at e
  rw [if_pos ha] at e
  cases e
  exact ⟨hrest, rfl⟩

theorem approachMarkedTile_shape {env : Env} {w w1 : World} {c c1 : Creature}
    {marked : List Nat} {lb : Bool} {a : CreatureAction} {rest : List CreatureAction}
    (hq : c.actionQueue = a :: rest) (ha : a.type = .digTile) (hs : stackShape c.actionQueue)
    (h : approachMarkedTile env w c marked = .ok (w1, c1, lb)) :
    stackShape c1.actionQueue ∧ w1.creatures = w.creatures := by
  unfold approachMarkedTile at h
  split at h
  · cases h
  · split at h
    · dsimp only at h
      split at h
      · split at h
        · cases h
        · split at h
          · cases h
          · split at h
            · split at h
              · cases h
              · next c2 hc2 =>
                cases h
                refine ⟨?_, rfl⟩
                show stackShape (⟨.walkToTile, none⟩ :: c2.actionQueue)
                rw [(addDestinations_fields _ _ _ hc2).1, hq]
                rw [hq] at hs
                exact (stackShape_dig hs ha).2.2
            · exact finishDigging_shape { w with randomCalls := w.randomCalls + 1 } c hq ha hs h
      · exact finishDigging_shape w c hq ha hs h
    · exact finishDigging_shape w c hq ha hs h

theorem digTileBranch_shape {env : Env} {w w1 : World} {c c1 : Creature} {lb : Bool}
    {a : CreatureAction} {rest : List CreatureAction}
    (hq : c.actionQueue = a :: rest) (ha : a.type = .digTile) (hs : stackShape c.actionQueue)
    (h : digTileBranch env w c = .ok (w1, c1, lb)) :
    stackShape c1.actionQueue ∧ w1.creatures = w.creatures := by
  unfold digTileBranch at h
  dsimp only at h
  split at h
  · cases h
  · next t tile hfound =>
    have ht : w.tiles[t]? = some tile := by
      split at hfound
      · cases hfound
      · exact (firstMarkedNeighbor_some _ hfound).2.1
    rw [digNeighbor_eq ht] at h
    dsimp only at h
    cases h
    refine ⟨?_, rfl⟩
    split
    · show stackShape (⟨.walkToTile, none⟩ :: (addDestination c tile.x tile.y).actionQueue.tail)
      rw [hq] at hs
      simpa [addDestination, hq] using (stackShape_dig hs ha).2.1
    · exact hs
  · exact approachMarkedTile_shape hq ha hs h

theorem attackCreatureBranch_shape {env : Env} {w w1 : World} {self : Nat} {c c1 : Creature}
    {ve va : List Nat} {lb : Bool} {a : CreatureAction} {rest : List CreatureAction}
    (hc : w.creatures[self]? = some c)
    (hq : c.actionQueue = a :: rest) (ha : a.type = .attackCreature)
    (hs : stackShape c.actionQueue)
    (h : attackCreatureBranch env w self c ve va = .ok (w1, c1, lb)) :
    stackShape c1.actionQueue ∧
    (∀ i : Nat, w1.creatures[i]?.map (fun c : Creature => c.actionQueue)
      = w.creatures[i]?.map (fun c : Creature => c.actionQueue)) ∧
    ∃ c0, w1.creatures[self]? = some c0 := by
  by_cases hne : ve = []
  · subst hne
    unfold attackCreatureBranch at h
    simp only [List.length_nil, if_true] at h
    cases h
    rw [hq] at hs
    exact ⟨by simpa [hq] using stackShape_attack hs ha, fun _ => rfl, c, hc⟩
  · obtain ⟨_, w2, c2, pt, field, k, h1, hc2, _, _, hw, hq2, _, _⟩ :=
      attackCreatureBranch_move hne h
    have hfr := attackFirstInRange_queue h1
    have e : c2.actionQueue = c.actionQueue := by
      have := (hfr self).1
      rw [hc2, hc] at this
      simpa using this
    refine ⟨by rw [hq2, e]; exact hs, ?_, c2, by rw [hw]; exact hc2⟩
    intro i
    rw [hw]
    exact (hfr i).1

theorem allShaped_congr {w w' : World}
    (h : ∀ i : Nat, w'.creatures[i]?.map (fun c : Creature => c.actionQueue)
      = w.creatures[i]?.map (fun c : Creature => c.actionQueue))
    (hs : allShaped w) : allShaped w' := by
  intro i q hq
  rw [h i] at hq
  exact hs i q hq

theorem allShaped_modify {w : World} {self : Nat} {f : Creature → Creature}
    (hs : allShaped w)
    (hf : ∀ c, w.creatures[self]? = some c → stackShape (f c).actionQueue) :
    allShaped (modifyCreature w self f) := by
  intro i q hq
  unfold modifyCreature at hq
  simp only [getElem?_updateAt] at hq
  split at hq
  · next hi =>
    subst hi
    cases hc : w.creatures[i]? with
    | none => simp [hc] at hq
    | some c =>
      simp only [hc, Option.map_some', Option.some.injEq] at hq
      subst hq
      exact hf c hc
  · exact hs i q hq

theorem allShaped_self {w : World} {self : Nat} {c : Creature} (hs : allShaped w)
    (hc : w.creatures[self]? = some c) : stackShape c.actionQueue :=
  hs self c.actionQueue (by rw [hc]; rfl)

/-- One pass of the loop keeps the shape of every action queue. -/
theorem doTurnIter_shape {env : Env} {w w' : World} {self : Nat} {ve va : List Nat} {lb : Bool}
    (hs : allShaped w) (h : doTurnIter env w self ve va = .ok (w', lb)) : allShaped w' := by
  unfold doTurnIter at h
  split at h
  · cases h
  · next c hc =>
    have hc := creatureOf_ok hc
    have hsc := allShaped_self hs hc
    dsimp only at h
    split at h
    · cases h
    · next a rest hq =>
      split at h
      · cases h
      · next w1 c1 lb1 hr =>
        cases h
        have hs0 : allShaped { w with randomCalls := w.randomCalls + 1 } := hs
        have key : stackShape c1.actionQueue ∧ allShaped w1 := by
          cases hty : a.type with
          | idle =>
            simp only [hty] at hr
            have := idleBranch_shape hq hty hsc hr
            exact ⟨this.1, allShaped_congr (fun i => by rw [this.2]) hs0⟩
          | walkToTile =>
            simp only [hty] at hr
            have := walkToTileBranch_shape hq hty hsc hr
            exact ⟨this.1, by rw [this.2]; exact hs0⟩
          | digTile =>
            simp only [hty] at hr
            have := digTileBranch_shape hq hty hsc hr
            exact ⟨this.1, allShaped_congr (fun i => by rw [this.2]) hs0⟩
          | attackCreature =>
            simp only [hty] at hr
            have := attackCreatureBranch_shape (w := { w with randomCalls := w.randomCalls + 1 })
              hc hq hty hsc hr
            exact ⟨this.1, allShaped_congr this.2.1 hs0⟩
        exact allShaped_modify key.2 fun _ _ => key.1

theorem doTurnLoop_shape {env : Env} {self : Nat} {ve va : List Nat} :
    ∀ (fuel : Nat) (w w' : World), allShaped w →
      doTurnLoop env self ve va fuel w = .ok w' → allShaped w' := by
  intro fuel
  induction fuel with
  | zero => intro w w' _ h; simp [doTurnLoop] at h
  | succ fuel ih =>
    intro w w' hs h
    unfold doTurnLoop at h
    split at h
    · cases h
    · next w1 lb hiter =>
      have hs1 := doTurnIter_shape hs hiter
      split at h
      · exact ih _ _ hs1 h
      · cases h; exact hs1

/-- The perception step keeps the shape of every action queue. -/
theorem perceive_shape (env : Env) {w : World} {self : Nat} {c : Creature} (ve : List Nat)
    (hc : w.creatures[self]? = some c) (hs : allShaped w) :
    allShaped (perceive env w self c ve) := by
  have hsc := allShaped_self hs hc
  unfold perceive
  cases ve with
  | nil => exact hs
  | cons e es =>
    dsimp only
    split
    · exact hs
    · next a rest hq =>
      split
      · next ha =>
        split
        · refine allShaped_modify (w := { w with randomCalls := w.randomCalls + 1 }) hs ?_
          intro c' hc'
          have e' : c' = c := by
            have : w.creatures[self]? = some c' := hc'
            rw [hc] at this
            exact (Option.some.inj this).symm
          subst e'
          show stackShape (⟨.attackCreature, some e⟩ :: c'.actionQueue)
          rw [hq]
          rw [hq] at hsc
          exact stackShape_push_attack hsc ha _
        · exact hs
      · exact hs

theorem updateVisualDebug_shape {env : Env} {w w' : World} {self : Nat}
    (hs : allShaped w) (h : updateVisualDebug env w self = .ok w') : allShaped w' := by
  unfold updateVisualDebug at h
  split at h
  · cases h
  · next c hc =>
    have hc := creatureOf_ok hc
    have hsc := allShaped_self hs hc
    split at h
    · unfold destroyVisualDebugEntities createVisualDebugEntities at h
      split at h
      · cases h
      · next c1 h1 =>
        split at h1
        · cases h1
        · cases h1
          dsimp only at h
          split at h
          · cases h
          · next c2 h2 =>
            split at h2
            · cases h2
            · cases h2
              cases h
              exact allShaped_modify hs fun _ _ => hsc
    · cases h; exact hs

/-- A tick keeps the shape of every action queue. -/
theorem doTurn_shape {env : Env} {fuel : Nat} {w w' : World} {self : Nat}
    (hs : allShaped w) (h : doTurn env fuel w self = .ok w') : allShaped w' := by
  unfold doTurn at h
  split at h
  · cases h
  · next c hc =>
    have hc := creatureOf_ok hc
    have hsc := allShaped_self hs hc
    split at h
    · cases h; exact hs
    · split at h
      · cases h
      · next vis _ =>
        dsimp only at h
        split at h
        · cases h
        · next w3 hloop =>
          refine updateVisualDebug_shape (doTurnLoop_shape _ _ _ ?_ hloop) h
          refine perceive_shape env _
            (queueOf_modifyCreature_const { c with visibleTiles := vis } hc) ?_
          exact allShaped_modify hs fun c' hc' => by
            rw [hc] at hc'
            cases hc'
            exact hsc

theorem runEvents_shape :
    ∀ (evs : List Event) (w w' : World), allShaped w → runEvents evs w = .ok w' →
      allShaped w' := by
  intro evs
  induction evs with
  | nil => intro w w' hs h; cases h; exact hs
  | cons ev evs ih =>
    intro w w' hs h
    cases ev with
    | tick who env fuel =>
      unfold runEvents at h
      split at h
      · cases h
      · next w1 h1 => exact ih _ _ (doTurn_shape hs h1) h
    | clear who =>
      unfold runEvents at h
      refine ih _ _ (allShaped_modify hs fun _ _ => ?_) h
      unfold clearActionQueue stackShape
      simp

theorem stackShape_facts {q : List CreatureAction} (h : stackShape q) :
    q.length ≤ 4 ∧
    (∀ k a, q[k]? = some a → a.type = .idle → k + 1 = q.length) ∧
    (∀ k a, q[k]? = some a → a.type = .attackCreature → k = 0) ∧
    (∀ a rest, q = a :: rest → a.type = .walkToTile → ∃ b, q[1]? = some b) := by
  have hlen : q.length = (q.map fun a => a.type).length := by simp
  have hidx : ∀ (k : Nat) (a : CreatureAction), q[k]? = some a →
      (q.map fun a => a.type)[k]? = some a.type := by
    intro k a hk
    simp [hk]
  have hone : (∃ t, (q.map fun a => a.type)[1]? = some t) → ∃ b, q[1]? = some b := by
    rintro ⟨t, ht⟩
    simp only [List.getElem?_map, Option.map_eq_some'] at ht
    obtain ⟨b, hb, _⟩ := ht
    exact ⟨b, hb⟩
  have htop : ∀ (a : CreatureAction) (rest : List CreatureAction), q = a :: rest →
      (q.map fun a => a.type)[0]? = some a.type := by
    intro a rest e
    subst e
    simp
  unfold stackShape at h
  simp only [List.mem_cons, List.mem_singleton, List.not_mem_nil, or_false] at h
  refine ⟨?_, ?_, ?_, ?_⟩
  · rw [hlen]
    rcases h with h | h | h | h | h | h | h | h <;> rw [h] <;> decide
  · intro k a hk ha
    have := hidx k a hk
    rw [hlen]
    rw [ha] at this
    rcases h with h | h | h | h | h | h | h | h <;> rw [h] at this ⊢ <;>
      rcases k with _ | _ | _ | _ | k <;> simp at this ⊢
  · intro k a hk ha
    have := hidx k a hk
    rw [ha] at this
    rcases h with h | h | h | h | h | h | h | h <;> rw [h] at this <;>
      rcases k with _ | _ | _ | _ | k <;> simp at this ⊢
  · intro a rest e ha
    have := htop a rest e
    rw [ha] at this
    apply hone
    rcases h with h | h | h | h | h | h | h | h <;> rw [h] at this ⊢ <;> simp at this ⊢

/-- C28: from a world in which every action queue is `[idle]`, every sequence
of ticks and of calls of `clearActionQueue` that returns leaves every
creature with an action queue of the shape idle, digTile?, walkToTile?,
attackCreature? (bottom to top): at most 4 entries, `idle` at the bottom
only, `attackCreature` on top only.  The shape is kept by the perception step
and by every pass of the loop, and on a queue of this shape with `walkToTile`
on top the read of `actionQueue[1]` in the `walkToTile` case succeeds. -/
theorem bounded_stack_shape (w : World)
    (h0 : ∀ c ∈ w.creatures, c.actionQueue.map (fun a => a.type) = [.idle]) :
    (∀ evs w', runEvents evs w = .ok w' →
      ∀ (i : Nat) (c : Creature), w'.creatures[i]? = some c →
        stackShape c.actionQueue ∧ c.actionQueue.length ≤ 4 ∧
        (∀ k a, c.actionQueue[k]? = some a → a.type = .idle → k + 1 = c.actionQueue.length) ∧
        (∀ k a, c.actionQueue[k]? = some a → a.type = .attackCreature → k = 0) ∧
        (∀ a rest, c.actionQueue = a :: rest → a.type = .walkToTile →
          ∃ b, c.actionQueue[1]? = some b)) ∧
    (∀ w1, allShaped w1 →
      (∀ env (self : Nat) c ve, w1.creatures[self]? = some c →
        allShaped (perceive env w1 self c ve)) ∧
      (∀ env self ve va w2 lb, doTurnIter env w1 self ve va = .ok (w2, lb) → allShaped w2) ∧
      (∀ env fuel self w2, doTurn env fuel w1 self = .ok w2 → allShaped w2)) ∧
    (∀ env w1 c a rest, stackShape c.actionQueue → c.actionQueue = a :: rest →
      a.type = .walkToTile → ∃ r, walkToTileBranch env w1 c = .ok r) := by
  refine ⟨?_, ?_, ?_⟩
  · intro evs w' h i c hc
    have hs0 : allShaped w := by
      intro i q hq
      cases hci : w.creatures[i]? with
      | none => simp [hci] at hq
      | some c0 =>
        simp only [hci, Option.map_some', Option.some.injEq] at hq
        subst hq
        unfold stackShape
        rw [h0 c0 (List.getElem?_mem hci)]
        simp
    have hs := allShaped_self (runEvents_shape evs w w' hs0 h) hc
    exact ⟨hs, stackShape_facts hs⟩
  · intro w1 hs
    exact ⟨fun env self c ve hc => perceive_shape env ve hc hs,
      fun env self ve va w2 lb h => doTurnIter_shape hs h,
      fun env fuel self w2 h => doTurn_shape hs h⟩
  · intro env w1 c a rest hs hq ha
    obtain ⟨b, hb⟩ := (stackShape_facts hs).2.2.2 a rest hq ha
    unfold walkToTileBranch
    rw [hb]
    dsimp only
    split <;> split <;> exact ⟨_, rfl⟩

/-- Witness of C28: two ticks of the creature of `idleDiggerScene` with a
call of `clearActionQueue` in between. -/
theorem bounded_stack_shape_witness :
    (runEvents [.tick 0 plainEnv 3, .clear 0, .tick 0 plainEnv 3]
        idleDiggerScene).toOption.map
        (fun w => w.creatures.map fun c => c.actionQueue.map fun a => a.type)
      = some [[.walkToTile, .idle]] ∧
    ∀ w', runEvents [.tick 0 plainEnv 3, .clear 0, .tick 0 plainEnv 3]
        idleDiggerScene = .ok w' →
      ∀ (i : Nat) (c : Creature), w'.creatures[i]? = some c →
        stackShape c.actionQueue ∧ c.actionQueue.length ≤ 4 ∧
        (∀ k a, c.actionQueue[k]? = some a → a.type = .idle → k + 1 = c.actionQueue.length) ∧
        (∀ k a, c.actionQueue[k]? = some a → a.type = .attackCreature → k = 0) ∧
        (∀ a rest, c.actionQueue = a :: rest → a.type = .walkToTile →
          ∃ b, c.actionQueue[1]? = some b) :=
  ⟨by with_unfolding_all decide,
    (bounded_stack_shape idleDiggerScene (by with_unfolding_all decide)).1 _⟩

/-! ## Central active spots of a room -/

theorem checkOther_sound (m : RoomMap) (x y : Int) (t2 : Nat) (f : Found) :
    ((checkOther m x y t2 f).top = true → f.top = true ∨ (m.getX t2 = x ∧ m.getY t2 = y + 1)) ∧
    ((checkOther m x y t2 f).topLeft = true →
      f.topLeft = true ∨ (m.getX t2 = x - 1 ∧ m.getY t2 = y + 1)) ∧
    ((checkOther m x y t2 f).topRight = true →
      f.topRight = true ∨ (m.getX t2 = x + 1 ∧ m.getY t2 = y + 1)) ∧
    ((checkOther m x y t2 f).left = true → f.left = true ∨ (m.getX t2 = x - 1 ∧ m.getY t2 = y)) ∧
    ((checkOther m x y t2 f).right = true →
      f.right = true ∨ (m.getX t2 = x + 1 ∧ m.getY t2 = y)) ∧
    ((checkOther m x y t2 f).bottomLeft = true →
      f.bottomLeft = true ∨ (m.getX t2 = x - 1 ∧ m.getY t2 = y - 1)) ∧
    ((checkOther m x y t2 f).bottomRight = true →
      f.bottomRight = true ∨ (m.getX t2 = x + 1 ∧ m.getY t2 = y - 1)) ∧
    ((checkOther m x y t2 f).bottom = true →
      f.bottom = true ∨ (m.getX t2 = x ∧ m.getY t2 = y - 1)) := by
  unfold checkOther
  dsimp only
  split_ifs <;> simp_all

theorem otherAt_tail {m : RoomMap} {central : List Nat} {tile t2 : Nat} {l : List Nat}
    {x y : Int} (h : otherAt m central tile l x y) : otherAt m central tile (t2 :: l) x y := by
  obtain ⟨t, ht, h⟩ := h
  exact ⟨t, List.mem_cons_of_mem _ ht, h⟩

theorem flag_step {a b c : Bool} {P O O' : Prop} (hi : a = true → b = true ∨ O)
    (hc : b = true → c = true ∨ P) (hP : P → O') (hO : O → O') (h : a = true) :
    c = true ∨ O' := by
  rcases hi h with h | h
  · rcases hc h with h | h
    · exact Or.inl h
    · exact Or.inr (hP h)
  · exact Or.inr (hO h)

theorem scanOthers_sound (m : RoomMap) (central : List Nat) (tile : Nat) (x y : Int) :
    ∀ (l : List Nat) (f : Found),
      ((scanOthers m central tile x y l f).top = true →
        f.top = true ∨ otherAt m central tile l x (y + 1)) ∧
      ((scanOthers m central tile x y l f).topLeft = true →
        f.topLeft = true ∨ otherAt m central tile l (x - 1) (y + 1)) ∧
      ((scanOthers m central tile x y l f).topRight = true →
        f.topRight = true ∨ otherAt m central tile l (x + 1) (y + 1)) ∧
      ((scanOthers m central tile x y l f).left = true →
        f.left = true ∨ otherAt m central tile l (x - 1) y) ∧
      ((scanOthers m central tile x y l f).right = true →
        f.right = true ∨ otherAt m central tile l (x + 1) y) ∧
      ((scanOthers m central tile x y l f).bottomLeft = true →
        f.bottomLeft = true ∨ otherAt m central tile l (x - 1) (y - 1)) ∧
      ((scanOthers m central tile x y l f).bottomRight = true →
        f.bottomRight = true ∨ otherAt m central tile l (x + 1) (y - 1)) ∧
      ((scanOthers m central tile x y l f).bottom = true →
        f.bottom = true ∨ otherAt m central tile l x (y - 1)) := by
  intro l
  induction l with
  | nil =>
    intro f
    unfold scanOthers
    exact ⟨Or.inl, Or.inl, Or.inl, Or.inl, Or.inl, Or.inl, Or.inl, Or.inl⟩
  | cons t2 rest ih =>
    intro f
    unfold scanOthers
    split_ifs with h1 h2
    · obtain ⟨i1, i2, i3, i4, i5, i6, i7, i8⟩ := ih f
      exact ⟨fun h => (i1 h).imp id otherAt_tail, fun h => (i2 h).imp id otherAt_tail,
        fun h => (i3 h).imp id otherAt_tail, fun h => (i4 h).imp id otherAt_tail,
        fun h => (i5 h).imp id otherAt_tail, fun h => (i6 h).imp id otherAt_tail,
        fun h => (i7 h).imp id otherAt_tail, fun h => (i8 h).imp id otherAt_tail⟩
    · obtain ⟨i1, i2, i3, i4, i5, i6, i7, i8⟩ := ih f
      exact ⟨fun h => (i1 h).imp id otherAt_tail, fun h => (i2 h).imp id otherAt_tail,
        fun h => (i3 h).imp id otherAt_tail, fun h => (i4 h).imp id otherAt_tail,
        fun h => (i5 h).imp id otherAt_tail, fun h => (i6 h).imp id otherAt_tail,
        fun h => (i7 h).imp id otherAt_tail, fun h => (i8 h).imp id otherAt_tail⟩
    · obtain ⟨i1, i2, i3, i4, i5, i6, i7, i8⟩ := ih (checkOther m x y t2 f)
      obtain ⟨c1, c2, c3, c4, c5, c6, c7, c8⟩ := checkOther_sound m x y t2 f
      have hd : ∀ {u v : Int}, (m.getX t2 = u ∧ m.getY t2 = v) →
          otherAt m central tile (t2 :: rest) u v :=
        fun hp => ⟨t2, List.mem_cons_self _ _, h1, h2, hp.1, hp.2⟩
      exact ⟨flag_step i1 c1 hd otherAt_tail, flag_step i2 c2 hd otherAt_tail,
        flag_step i3 c3 hd otherAt_tail, flag_step i4 c4 hd otherAt_tail,
        flag_step i5 c5 hd otherAt_tail, flag_step i6 c6 hd otherAt_tail,
        flag_step i7 c7 hd otherAt_tail, flag_step i8 c8 hd otherAt_tail⟩

/-- When all eight flags are set, every place around `(x, y)` holds a tile
of `l` that is neither `tile` nor a central spot. -/
theorem scanOthers_all {m : RoomMap} {central : List Nat} {tile : Nat} {x y : Int}
    {l : List Nat} (h : (scanOthers m central tile x y l {}).all = true) :
    ∀ dx dy : Int, -1 ≤ dx → dx ≤ 1 → -1 ≤ dy → dy ≤ 1 → (dx ≠ 0 ∨ dy ≠ 0) →
      otherAt m central tile l (x + dx) (y + dy) := by
  obtain ⟨i1, i2, i3, i4, i5, i6, i7, i8⟩ := scanOthers_sound m central tile x y l {}
  unfold Found.all at h
  simp only [Bool.and_eq_true] at h
  obtain ⟨⟨⟨⟨⟨⟨⟨h1, h2⟩, h3⟩, h4⟩, h5⟩, h6⟩, h7⟩, h8⟩ := h
  have o1 := (i1 h1).resolve_left (by simp)
  have o2 := (i2 h2).resolve_left (by simp)
  have o3 := (i3 h3).resolve_left (by simp)
  have o4 := (i4 h4).resolve_left (by simp)
  have o5 := (i5 h5).resolve_left (by simp)
  have o6 := (i6 h6).resolve_left (by simp)
  have o7 := (i7 h7).resolve_left (by simp)
  have o8 := (i8 h8).resolve_left (by simp)
  intro dx dy hx1 hx2 hy1 hy2 hne
  have ex : dx = -1 ∨ dx = 0 ∨ dx = 1 := by omega
  have ey : dy = -1 ∨ dy = 0 ∨ dy = 1 := by omega
  rcases ex with rfl | rfl | rfl <;> rcases ey with rfl | rfl | rfl
  · simpa [sub_eq_add_neg] using o6
  · simpa [sub_eq_add_neg] using o4
  · simpa [sub_eq_add_neg] using o2
  · simpa [sub_eq_add_neg] using o8
  · rcases hne with h | h <;> exact absurd rfl h
  · simpa [sub_eq_add_neg] using o1
  · simpa [sub_eq_add_neg] using o7
  · simpa [sub_eq_add_neg] using o5
  · simpa [sub_eq_add_neg] using o3

/-- The central spots found so far are covered tiles with the eight places
around them covered, and no two of them are next to one another. -/
theorem detectCentres_inv (m : RoomMap) (covered : List Nat)
    (hd : (covered.map fun t => (m.getX t, m.getY t)).Nodup) :
    ∀ (rest central : List Nat), (∀ t ∈ rest, t ∈ covered) →
      ((∀ c ∈ central, c ∈ covered ∧
          ∀ dx dy : Int, -1 ≤ dx → dx ≤ 1 → -1 ≤ dy → dy ≤ 1 → (dx ≠ 0 ∨ dy ≠ 0) →
            ∃ t ∈ covered, m.getX t = m.getX c + dx ∧ m.getY t = m.getY c + dy) ∧
        (∀ c1 ∈ central, ∀ c2 ∈ central, c1 ≠ c2 → ¬ nextTo m c1 c2)) →
      ((∀ c ∈ detectCentres m covered rest central, c ∈ covered ∧
          ∀ dx dy : Int, -1 ≤ dx → dx ≤ 1 → -1 ≤ dy → dy ≤ 1 → (dx ≠ 0 ∨ dy ≠ 0) →
            ∃ t ∈ covered, m.getX t = m.getX c + dx ∧ m.getY t = m.getY c + dy) ∧
        (∀ c1 ∈ detectCentres m covered rest central,
          ∀ c2 ∈ detectCentres m covered rest central, c1 ≠ c2 → ¬ nextTo m c1 c2)) := by
  have hinj : ∀ a ∈ covered, ∀ b ∈ covered, m.getX a = m.getX b → m.getY a = m.getY b → a = b :=
    fun a ha b hb hx hy => List.inj_on_of_nodup_map hd ha hb (Prod.ext hx hy)
  intro rest
  induction rest with
  | nil => intro central _ h; exact h
  | cons tile rest ih =>
    intro central hsub hinv
    have htile : tile ∈ covered := hsub tile (List.mem_cons_self _ _)
    have hrest : ∀ t ∈ rest, t ∈ covered := fun t ht => hsub t (List.mem_cons_of_mem _ ht)
    unfold detectCentres
    dsimp only
    split
    · next hall =>
      have hall := scanOthers_all hall
      refine ih _ hrest ⟨?_, ?_⟩
      · intro c hc
        rcases List.mem_append.1 hc with hc | hc
        · exact hinv.1 c hc
        · simp only [List.mem_singleton] at hc
          subst hc
          refine ⟨htile, ?_⟩
          intro dx dy h1 h2 h3 h4 hne
          obtain ⟨t, ht, _, _, hx, hy⟩ := hall dx dy h1 h2 h3 h4 hne
          exact ⟨t, ht, hx, hy⟩
      · have key : ∀ c ∈ central, c ≠ tile → ¬ nextTo m c tile := by
          intro c hc hne hnext
          obtain ⟨h1, h2, h3, h4⟩ := hnext
          have hcc := (hinv.1 c hc).1
          have hoff : m.getX c - m.getX tile ≠ 0 ∨ m.getY c - m.getY tile ≠ 0 := by
            by_contra hz
            simp only [not_or, not_not] at hz
            exact hne (hinj c hcc tile htile (by omega) (by omega))
          obtain ⟨t, ht, _, htc, hx, hy⟩ := hall _ _ h1 h2 h3 h4 hoff
          have : t = c := hinj t ht c hcc (by omega) (by omega)
          exact htc (this ▸ hc)
        intro c1 hm1 c2 hm2 hne
        rcases List.mem_append.1 hm1 with hc1 | hc1 <;>
          rcases List.mem_append.1 hm2 with hc2 | hc2
        · exact hinv.2 c1 hc1 c2 hc2 hne
        · simp only [List.mem_singleton] at hc2
          rw [hc2]
          exact key c1 hc1 (hc2 ▸ hne)
        · simp only [List.mem_singleton] at hc1
          rw [hc1]
          intro hnext
          refine key c2 hc2 (hc1 ▸ Ne.symm hne) ?_
          obtain ⟨h1, h2, h3, h4⟩ := hnext
          exact ⟨by omega, by omega, by omega, by omega⟩
        · simp only [List.mem_singleton] at hc1 hc2
          exact absurd (hc1.trans hc2.symm) hne
    · exact ih _ hrest hinv

/-- C27: after `Room::updateActiveSpots` on a server map, when the covered
tiles have pairwise distinct coordinates, every central active spot is a
covered tile with a covered tile of the room at each of the eight places
around it, no two central active spots are next to one another, and
`mNumActiveSpots` is the sum of the lengths of the five lists of active
spots. -/
theorem central_active_spots (m : RoomMap) (r : Room) (hserver : m.isServerGameMap = true)
    (hd : (r.mCoveredTiles.map fun t => (m.getX t, m.getY t)).Nodup) :
    (∀ c ∈ (updateActiveSpots m r).mCentralActiveSpotTiles, c ∈ r.mCoveredTiles ∧
      ∀ dx dy : Int, -1 ≤ dx → dx ≤ 1 → -1 ≤ dy → dy ≤ 1 → (dx ≠ 0 ∨ dy ≠ 0) →
        ∃ t ∈ r.mCoveredTiles, m.getX t = m.getX c + dx ∧ m.getY t = m.getY c + dy) ∧
    (∀ c1 ∈ (updateActiveSpots m r).mCentralActiveSpotTiles,
      ∀ c2 ∈ (updateActiveSpots m r).mCentralActiveSpotTiles, c1 ≠ c2 → ¬ nextTo m c1 c2) ∧
    (updateActiveSpots m r).mNumActiveSpots =
      (updateActiveSpots m r).mCentralActiveSpotTiles.length
        + (updateActiveSpots m r).mLeftWallsActiveSpotTiles.length
        + (updateActiveSpots m r).mRightWallsActiveSpotTiles.length
        + (updateActiveSpots m r).mTopWallsActiveSpotTiles.length
        + (updateActiveSpots m r).mBottomWallsActiveSpotTiles.length ∧
    (updateActiveSpots m r).mCoveredTiles = r.mCoveredTiles := by
  have hinv := detectCentres_inv m r.mCoveredTiles hd r.mCoveredTiles [] (fun _ h => h)
    ⟨fun _ h => absurd h (List.not_mem_nil _), fun _ h => absurd h (List.not_mem_nil _)⟩
  have hb : ¬ (!m.isServerGameMap) = true := by rw [hserver]; simp
  unfold updateActiveSpots
  rw [if_neg hb]
  exact ⟨hinv.1, hinv.2, rfl, rfl⟩

/-- Witness of C27: the room `hall` of 4 x 3 tiles, whose only central spot
is the tile `(1,1)`; the tile `(2,1)` next to it is none. -/
theorem central_active_spots_witness :
    (updateActiveSpots hallMap hall).mCentralActiveSpotTiles = [27] ∧
    (updateActiveSpots hallMap hall).mNumActiveSpots = 5 ∧
    (∀ c ∈ (updateActiveSpots hallMap hall).mCentralActiveSpotTiles, c ∈ hall.mCoveredTiles ∧
      ∀ dx dy : Int, -1 ≤ dx → dx ≤ 1 → -1 ≤ dy → dy ≤ 1 → (dx ≠ 0 ∨ dy ≠ 0) →
        ∃ t ∈ hall.mCoveredTiles,
          hallMap.getX t = hallMap.getX c + dx ∧ hallMap.getY t = hallMap.getY c + dy) ∧
    (∀ c1 ∈ (updateActiveSpots hallMap hall).mCentralActiveSpotTiles,
      ∀ c2 ∈ (updateActiveSpots hallMap hall).mCentralActiveSpotTiles,
        c1 ≠ c2 → ¬ nextTo hallMap c1 c2) ∧
    (updateActiveSpots hallMap hall).mNumActiveSpots =
      (updateActiveSpots hallMap hall).mCentralActiveSpotTiles.length
        + (updateActiveSpots hallMap hall).mLeftWallsActiveSpotTiles.length
        + (updateActiveSpots hallMap hall).mRightWallsActiveSpotTiles.length
        + (updateActiveSpots hallMap hall).mTopWallsActiveSpotTiles.length
        + (updateActiveSpots hallMap hall).mBottomWallsActiveSpotTiles.length ∧
    (updateActiveSpots hallMap hall).mCoveredTiles = hall.mCoveredTiles :=
  ⟨by decide, by decide, central_active_spots hallMap hall rfl (by decide)⟩

end OpenDungeons
